import Mathlib

/-!
# cloud-storage: the cached data-access layer

A shallow embedding of `internal/cache/userBasic.go` and `internal/dao/userBasic.go`.

* Go values `(T, error)` are pairs whose second component is `Option GoError`
  (`none` is the nil error); a pointer `*T` that may be nil is `Ptr T = Option T`.
* The collaborators that live outside the repository (the sponge `cache.Cache`
  backend, the `*gorm.DB` handle, `singleflight.Group`) are records of handlers
  over an arbitrary state `σ`; every call to one of them is appended to the
  `log` of the `World`, so that "no storage call" and "no cache write" are
  statements about the log.
* `userRepository.go`, `repositoryPool.go` and `shareBasic.go` repeat the same
  text with the entity name replaced; only `updateDataByID` differs.
* The sponge `query` package, which translates filter and page parameters into a
  predicate and an order clause, is a record of pure functions; `strings.ToLower` and
  the two backend constructors are parameters of the cache constructors.
-/

namespace CloudStorage

/-! ## Go values -/

/-- Modelled from the spec: the sentinel errors `database.ErrCacheNotFound`,
`database.ErrRecordNotFound` and `cache.ErrPlaceholder` are declared outside the
sources at hand; the spec describes them as three distinguishable markers
(never looked up, storage not-found, known absent). `other` is `errors.New msg`,
`wrap` is an error that wraps another one. -/
inductive GoError where
  | ErrCacheNotFound
  | ErrRecordNotFound
  | ErrPlaceholder
  | other (msg : String)
  | wrap (msg : String) (inner : GoError)
  deriving DecidableEq, Repr

/-- The Go `errors.Is err target` for a non-nil `err`: walk the chain of wrapped errors. -/
def errorsIs : GoError → GoError → Bool
  | .wrap msg inner, target => decide (GoError.wrap msg inner = target) || errorsIs inner target
  | err, target => decide (err = target)

/-- The Go `errors.Is err target` where `err` may be nil. -/
def errorsIsOpt (err : Option GoError) (target : GoError) : Bool :=
  match err with
  | none => false
  | some e => errorsIs e target

/-- The method `Error()` of a non-nil error: its message. The texts of the three sentinels
stand for the texts of the libraries that declare them. -/
def GoError.Error : GoError → String
  | .ErrCacheNotFound => "cache not found"
  | .ErrRecordNotFound => "record not found"
  | .ErrPlaceholder => "cache: placeholder"
  | .other msg => msg
  | .wrap msg _ => msg

/-- A pointer that may be nil. -/
abbrev Ptr (α : Type) := Option α

/-- The `model.UserBasic` record with the embedded `sgorm.Model` (id and times);
times are abstract instants. -/
structure UserBasic where
  ID : Nat
  CreatedAt : Nat
  UpdatedAt : Nat
  DeletedAt : Option Nat
  Identity : String
  Name : String
  Password : String
  Email : String
  deriving DecidableEq, Repr

/-- The zero value `model.UserBasic{}`. -/
def UserBasic.zero : UserBasic :=
  { ID := 0, CreatedAt := 0, UpdatedAt := 0, DeletedAt := none,
    Identity := "", Name := "", Password := "", Email := "" }

/-- A value stored under `interface{}` in an update map. -/
inductive GoValue where
  | str (s : String)
  | int (n : Int)
  | time (t : Nat)
  deriving DecidableEq, Repr

/-- The `model.UserRepository` record with the embedded `sgorm.Model`. -/
structure UserRepository where
  ID : Nat
  CreatedAt : Nat
  UpdatedAt : Nat
  DeletedAt : Option Nat
  Identity : String
  UserIdentity : String
  ParentID : Int
  RepositoryIdentity : String
  Ext : String
  Name : String
  deriving DecidableEq, Repr

/-- A Go map, kept as an association list with pairwise distinct keys. -/
structure GoMap (κ ν : Type) where
  entries : List (κ × ν)
  deriving DecidableEq, Repr

namespace GoMap

variable {κ ν : Type} [DecidableEq κ]

/-- The empty map, `make(map[K]V)`. -/
def empty : GoMap κ ν := ⟨[]⟩

/-- Lookup in an association list. -/
def lookupIn (k : κ) : List (κ × ν) → Option ν
  | [] => none
  | (k1, v) :: rest => if k1 = k then some v else lookupIn k rest

/-- Assignment in an association list: replace the entry of `k` or append it. -/
def assignIn (k : κ) (v : ν) : List (κ × ν) → List (κ × ν)
  | [] => [(k, v)]
  | (k1, v1) :: rest => if k1 = k then (k, v) :: rest else (k1, v1) :: assignIn k v rest

/-- The Go `v, ok := m[k]`. -/
def get? (m : GoMap κ ν) (k : κ) : Option ν := lookupIn k m.entries

/-- The Go `_, ok := m[k]`. -/
def contains (m : GoMap κ ν) (k : κ) : Bool := (m.get? k).isSome

/-- The Go `m[k] = v`. -/
def set (m : GoMap κ ν) (k : κ) (v : ν) : GoMap κ ν := ⟨assignIn k v m.entries⟩

/-- The keys of the map. -/
def keys (m : GoMap κ ν) : List κ := m.entries.map Prod.fst

end GoMap

/-- The variable `model.UserBasicColumnNames`: the whitelist for custom query fields. -/
def UserBasicColumnNames : GoMap String Bool :=
  ⟨[("id", true), ("created_at", true), ("updated_at", true), ("deleted_at", true),
    ("identity", true), ("name", true), ("password", true), ("email", true)]⟩

/-- Modelled from the spec: the struct `database.CacheType` is declared outside the sources
at hand. The constructors of the entity caches read two fields of it: `CType`, the runtime
string that selects the backend, and `Rdb`, the client of the shared backend. -/
structure CacheType (ρ : Type) where
  CType : String
  Rdb : ρ

/-- One `(column, operator, value)` triple of the sponge `query` package, with the fields
the callers fill in. -/
structure query.Column where
  Name : String
  Exp : String
  Value : GoValue
  deriving DecidableEq, Repr

/-- The struct `query.Params`: page number, page size, sort parameter and filter columns.
The field `Sort` is written `sort`. -/
structure query.Params where
  Page : Int
  Limit : Int
  sort : String
  Columns : List query.Column
  deriving DecidableEq, Repr

/-- The struct `query.Conditions`: the filter columns of a single-record query. -/
structure query.Conditions where
  Columns : List query.Column
  deriving DecidableEq, Repr

/-- What the data-access object reads of a `*query.Page`: the results of its methods
`Sort()`, written `sort`, and `Limit()`. -/
structure query.Page where
  sort : String
  Limit : Int
  deriving DecidableEq, Repr

/-- The consumed functions of the sponge `query` package, the query-translation step.
`ConvertToGormConditions params whitelist` is
`params.ConvertToGormConditions(query.WithWhitelistNames(whitelist))`: the predicate string,
its arguments and the error; `ConvertToPage params` is `params.ConvertToPage()`: order,
limit and offset, with no error value; `ConvertToGorm c whitelist` is
`c.ConvertToGorm(query.WithWhitelistNames(whitelist))`; `NewPage page limit sort` is
`query.NewPage(page, limit, sort)`, with no error value: `none` stands for a call that
panics instead of returning a page, as the library does on a sort string with an empty
column name. -/
structure query.Translator where
  ConvertToGormConditions :
    query.Params → GoMap String Bool → (String × List GoValue) × Option GoError
  ConvertToPage : query.Params → String × Int × Int
  ConvertToGorm : query.Conditions → GoMap String Bool → (String × List GoValue) × Option GoError
  NewPage : Int → Int → String → Option query.Page

/-! ## Collaborators and the call log -/

/-- One call to a collaborator outside the repository. -/
inductive Call where
  | cacheSet (key : String) (val : UserBasic) (expiration : Nat)
  | cacheGet (key : String)
  | cacheMultiSet (valMap : GoMap String UserBasic) (expiration : Nat)
  | cacheMultiGet (keys : List String)
  | cacheDel (key : String)
  | cacheSetCacheWithNotFound (key : String)
  | sfgDo (key : String)
  | dbFirst (id : Nat)
  | dbFind (ids : List Nat)
  | dbUpdates (table : UserBasic) (update : GoMap String GoValue)
  | dbCreate (table : UserBasic)
  | dbDelete (id : Nat)
  | dbDeleteIn (ids : List Nat)
  | dbUpdatesWhereID (id : Nat) (update : GoMap String GoValue)
  | dbUpdatesUserRepository (table : UserRepository) (update : GoMap String GoValue)
  | dbCount (queryStr : String) (args : List GoValue)
  | dbFindPage (order : String) (limit offset : Int) (queryStr : String) (args : List GoValue)
  | dbFirstWhere (queryStr : String) (args : List GoValue)
  | dbFindLastID (order : String) (limit : Int) (lastID : Nat)
  deriving DecidableEq, Repr

/-- A call to the storage backend. -/
def Call.isStorage : Call → Bool
  | .dbFirst _ => true
  | .dbFind _ => true
  | .dbUpdates _ _ => true
  | .dbCreate _ => true
  | .dbDelete _ => true
  | .dbDeleteIn _ => true
  | .dbUpdatesWhereID _ _ => true
  | .dbUpdatesUserRepository _ _ => true
  | .dbCount _ _ => true
  | .dbFindPage _ _ _ _ _ => true
  | .dbFirstWhere _ _ => true
  | .dbFindLastID _ _ _ => true
  | _ => false

/-- A call to the cache backend. -/
def Call.isCache : Call → Bool
  | .cacheSet _ _ _ => true
  | .cacheGet _ => true
  | .cacheMultiSet _ _ => true
  | .cacheMultiGet _ => true
  | .cacheDel _ => true
  | .cacheSetCacheWithNotFound _ => true
  | _ => false

/-- A call that writes a value or a placeholder to the cache backend. -/
def Call.isCacheWrite : Call → Bool
  | .cacheSet _ _ _ => true
  | .cacheMultiSet _ _ => true
  | .cacheSetCacheWithNotFound _ => true
  | _ => false

/-- The state of the collaborators together with the calls made so far, oldest first. -/
structure World (σ : Type) where
  st : σ
  log : List Call
  deriving DecidableEq, Repr

/-- Run a collaborator handler and record the call. -/
def World.call {σ α : Type} (w : World σ) (c : Call) (f : σ → α × σ) : α × World σ :=
  ((f w.st).1, { st := (f w.st).2, log := w.log ++ [c] })

/-- The consumed interface `cache.Cache` of the sponge library, with `*model.UserBasic`
payloads. `Get` yields the content of the out-parameter after the call and the error;
`MultiGet` yields the filled out-map and the error. -/
structure Cache (σ : Type) where
  Set : String → UserBasic → Nat → σ → Option GoError × σ
  Get : String → σ → (Ptr UserBasic × Option GoError) × σ
  MultiSet : GoMap String UserBasic → Nat → σ → Option GoError × σ
  MultiGet : List String → σ → (GoMap String (Ptr UserBasic) × Option GoError) × σ
  Del : String → σ → Option GoError × σ
  SetCacheWithNotFound : String → σ → Option GoError × σ

/-- The queries of `*gorm.DB` the data-access object issues.
`First id` is `Where("id = ?", id).First(record)` on a fresh record: the content of the
record after the call and `.Error`; `Find ids` is `Where("id IN (?)", ids).Find(&records)`;
`Updates table update` is `Model(table).Updates(update)`; `Create table` is
`Create(table)`: the content of the record after the call (the id is written back) and
`.Error`; `Delete id` is `Where("id = ?", id).Delete(&model.UserBasic{})` and `DeleteIn ids`
is `Where("id IN (?)", ids).Delete(&model.UserBasic{})`, both soft deletes;
`UpdatesWhereID id update` is `Model(&model.UserBasic{}).Where("id = ?", id).Updates(update)`;
`Count queryStr args` is `Model(&model.UserBasic{}).Where(queryStr, args...).Count(&total)`:
the content of `total` after the call and `.Error`; `FindPage order limit offset queryStr args`
is `Order(order).Limit(limit).Offset(offset).Where(queryStr, args...).Find(&records)`;
`FirstWhere queryStr args` is `Where(queryStr, args...).First(table)` on a fresh record;
`FindLastID order limit lastID` is
`Order(order).Limit(limit).Where("id < ?", lastID).Find(&records)`. -/
structure GormDB (σ : Type) where
  First : Nat → σ → (UserBasic × Option GoError) × σ
  Find : List Nat → σ → (List UserBasic × Option GoError) × σ
  Updates : UserBasic → GoMap String GoValue → σ → Option GoError × σ
  Create : UserBasic → σ → (UserBasic × Option GoError) × σ
  Delete : Nat → σ → Option GoError × σ
  DeleteIn : List Nat → σ → Option GoError × σ
  UpdatesWhereID : Nat → GoMap String GoValue → σ → Option GoError × σ
  Count : String → List GoValue → σ → (Int × Option GoError) × σ
  FindPage : String → Int → Int → String → List GoValue → σ →
    (List UserBasic × Option GoError) × σ
  FirstWhere : String → List GoValue → σ → (UserBasic × Option GoError) × σ
  FindLastID : String → Int → Nat → σ → (List UserBasic × Option GoError) × σ

/-- The call `sfg.Do(key, fn)` of `singleflight.Group` in a sequential execution: no call
for `key` is in flight, so `fn` runs and its result is handed back. -/
def sfgDo {σ α : Type} (key : String) (fn : World σ → α × World σ) (w : World σ) :
    α × World σ :=
  fn { st := w.st, log := w.log ++ [Call.sfgDo key] }

/-- The helper `utils.Uint64ToStr`: the decimal string of an id. -/
def Uint64ToStr (n : Nat) : String := toString n

/-! ## internal/cache/userBasic.go -/

/-- The cache key namespace of the entity, ending with a colon. -/
def userBasicCachePrefixKey : String := "userBasic:"

/-- The expire time `5 * time.Minute`, in nanoseconds. -/
def UserBasicExpireTime : Nat := 5 * 60 * 1000000000

/-- The struct `userBasicCache`. -/
structure userBasicCache (σ : Type) where
  cache : Cache σ

/-- The constructor `NewUserBasicCache`; `none` is the nil interface value, no cache.
`ToLower` is `strings.ToLower`; `NewRedisCache rdb cachePrefix` and
`NewMemoryCache cachePrefix` are the two constructors of the sponge `cache` package, called
with the JSON encoding and a factory of empty `model.UserBasic` records. -/
def NewUserBasicCache {σ ρ : Type} (ToLower : String → String)
    (NewRedisCache : ρ → String → Cache σ) (NewMemoryCache : String → Cache σ)
    (cacheType : CacheType ρ) : Option (userBasicCache σ) :=
  let cachePrefix := ""
  let cType := ToLower cacheType.CType
  if cType = "redis" then some { cache := NewRedisCache cacheType.Rdb cachePrefix }
  else if cType = "memory" then some { cache := NewMemoryCache cachePrefix }
  else none -- no cache

namespace userBasicCache

variable {σ : Type}

/-- The method `GetUserBasicCacheKey`. -/
def GetUserBasicCacheKey (_c : userBasicCache σ) (id : Nat) : String :=
  userBasicCachePrefixKey ++ Uint64ToStr id

/-- The method `Set`: write to cache. -/
def Set (c : userBasicCache σ) (id : Nat) (data : Ptr UserBasic) (duration : Nat)
    (w : World σ) : Option GoError × World σ :=
  match data with
  | none => (none, w)
  | some v =>
    if id = 0 then (none, w)
    else
      let cacheKey := c.GetUserBasicCacheKey id
      let r := w.call (Call.cacheSet cacheKey v duration) (c.cache.Set cacheKey v duration)
      match r.1 with
      | some err => (some err, r.2)
      | none => (none, r.2)

/-- The method `Get`: cache value. -/
def Get (c : userBasicCache σ) (id : Nat) (w : World σ) :
    (Ptr UserBasic × Option GoError) × World σ :=
  let cacheKey := c.GetUserBasicCacheKey id
  let r := w.call (Call.cacheGet cacheKey) (c.cache.Get cacheKey)
  match r.1.2 with
  | some err => ((none, some err), r.2)
  | none => ((r.1.1, none), r.2)

/-- The method `MultiSet`: multiple set cache. -/
def MultiSet (c : userBasicCache σ) (data : List UserBasic) (duration : Nat)
    (w : World σ) : Option GoError × World σ :=
  let valMap := data.foldl (fun m v => m.set (c.GetUserBasicCacheKey v.ID) v) GoMap.empty
  let r := w.call (Call.cacheMultiSet valMap duration) (c.cache.MultiSet valMap duration)
  match r.1 with
  | some err => (some err, r.2)
  | none => (none, r.2)

/-- The method `MultiGet`: multiple get cache, the key of the returned map is the id. -/
def MultiGet (c : userBasicCache σ) (ids : List Nat) (w : World σ) :
    (Option (GoMap Nat (Ptr UserBasic)) × Option GoError) × World σ :=
  let keys := ids.map c.GetUserBasicCacheKey
  let r := w.call (Call.cacheMultiGet keys) (c.cache.MultiGet keys)
  match r.1.2 with
  | some err => ((none, some err), r.2)
  | none =>
    let itemMap := r.1.1
    let retMap := ids.foldl
      (fun m id =>
        match itemMap.get? (c.GetUserBasicCacheKey id) with
        | some val => m.set id val
        | none => m)
      GoMap.empty
    ((some retMap, none), r.2)

/-- The method `Del`: delete cache. -/
def Del (c : userBasicCache σ) (id : Nat) (w : World σ) : Option GoError × World σ :=
  let cacheKey := c.GetUserBasicCacheKey id
  let r := w.call (Call.cacheDel cacheKey) (c.cache.Del cacheKey)
  match r.1 with
  | some err => (some err, r.2)
  | none => (none, r.2)

/-- The method `SetPlaceholder`: set placeholder value to cache. -/
def SetPlaceholder (c : userBasicCache σ) (id : Nat) (w : World σ) :
    Option GoError × World σ :=
  let cacheKey := c.GetUserBasicCacheKey id
  w.call (Call.cacheSetCacheWithNotFound cacheKey) (c.cache.SetCacheWithNotFound cacheKey)

/-- The method `IsPlaceholderErr`: check if cache is placeholder error. -/
def IsPlaceholderErr (_c : userBasicCache σ) (err : Option GoError) : Bool :=
  errorsIsOpt err GoError.ErrPlaceholder

end userBasicCache

/-! ## internal/cache/userRepository.go, repositoryPool.go, shareBasic.go

The three files repeat `userBasic.go` with the entity name replaced; the constants and the
key functions are the part that differs. -/

/-- The cache key namespace of `userRepository`. -/
def userRepositoryCachePrefixKey : String := "userRepository:"

/-- The cache key namespace of `repositoryPool`. -/
def repositoryPoolCachePrefixKey : String := "repositoryPool:"

/-- The cache key namespace of `shareBasic`. -/
def shareBasicCachePrefixKey : String := "shareBasic:"

/-- The struct `userRepositoryCache`; `β` is the type of a `cache.Cache` backend built with
a factory of `model.UserRepository` records. -/
structure userRepositoryCache (β : Type) where
  cache : β

/-- The struct `repositoryPoolCache`; `β` is the type of a `cache.Cache` backend built with
a factory of `model.RepositoryPool` records. -/
structure repositoryPoolCache (β : Type) where
  cache : β

/-- The struct `shareBasicCache`; `β` is the type of a `cache.Cache` backend built with a
factory of `model.ShareBasic` records. -/
structure shareBasicCache (β : Type) where
  cache : β

/-- The constructor `NewUserRepositoryCache`; `none` is the nil interface value. -/
def NewUserRepositoryCache {β ρ : Type} (ToLower : String → String)
    (NewRedisCache : ρ → String → β) (NewMemoryCache : String → β)
    (cacheType : CacheType ρ) : Option (userRepositoryCache β) :=
  let cachePrefix := ""
  let cType := ToLower cacheType.CType
  if cType = "redis" then some { cache := NewRedisCache cacheType.Rdb cachePrefix }
  else if cType = "memory" then some { cache := NewMemoryCache cachePrefix }
  else none -- no cache

/-- The constructor `NewRepositoryPoolCache`; `none` is the nil interface value. -/
def NewRepositoryPoolCache {β ρ : Type} (ToLower : String → String)
    (NewRedisCache : ρ → String → β) (NewMemoryCache : String → β)
    (cacheType : CacheType ρ) : Option (repositoryPoolCache β) :=
  let cachePrefix := ""
  let cType := ToLower cacheType.CType
  if cType = "redis" then some { cache := NewRedisCache cacheType.Rdb cachePrefix }
  else if cType = "memory" then some { cache := NewMemoryCache cachePrefix }
  else none -- no cache

/-- The constructor `NewShareBasicCache`; `none` is the nil interface value. -/
def NewShareBasicCache {β ρ : Type} (ToLower : String → String)
    (NewRedisCache : ρ → String → β) (NewMemoryCache : String → β)
    (cacheType : CacheType ρ) : Option (shareBasicCache β) :=
  let cachePrefix := ""
  let cType := ToLower cacheType.CType
  if cType = "redis" then some { cache := NewRedisCache cacheType.Rdb cachePrefix }
  else if cType = "memory" then some { cache := NewMemoryCache cachePrefix }
  else none -- no cache

/-- The method `GetUserRepositoryCacheKey` of `userRepositoryCache`. -/
def GetUserRepositoryCacheKey (id : Nat) : String :=
  userRepositoryCachePrefixKey ++ Uint64ToStr id

/-- The method `GetRepositoryPoolCacheKey` of `repositoryPoolCache`. -/
def GetRepositoryPoolCacheKey (id : Nat) : String :=
  repositoryPoolCachePrefixKey ++ Uint64ToStr id

/-- The method `GetShareBasicCacheKey` of `shareBasicCache`. -/
def GetShareBasicCacheKey (id : Nat) : String :=
  shareBasicCachePrefixKey ++ Uint64ToStr id

/-! ## internal/dao/userBasic.go -/

/-- The struct `userBasicDao`: `cache` is `none` when the cache is not used. The
`singleflight.Group` carries no state between sequential calls and is left out. -/
structure userBasicDao (σ : Type) where
  db : GormDB σ
  cache : Option (userBasicCache σ)

/-- The constructor `NewUserBasicDao`. -/
def NewUserBasicDao {σ : Type} (db : GormDB σ) (xCache : Option (userBasicCache σ)) :
    userBasicDao σ :=
  match xCache with
  | none => { db := db, cache := none }
  | some c => { db := db, cache := some c }

namespace userBasicDao

variable {σ : Type}

/-- The method `deleteCache`. -/
def deleteCache (d : userBasicDao σ) (id : Nat) (w : World σ) : Option GoError × World σ :=
  match d.cache with
  | some c => c.Del id w
  | none => (none, w)

/-- The method `Create`: insert the record; the id value is written back to the table.
The first component is the content of the record after the call. -/
def Create (d : userBasicDao σ) (table : UserBasic) (w : World σ) :
    (UserBasic × Option GoError) × World σ :=
  w.call (Call.dbCreate table) (d.db.Create table)

/-- The method `DeleteByID`: delete a userBasic by id. -/
def DeleteByID (d : userBasicDao σ) (id : Nat) (w : World σ) : Option GoError × World σ :=
  let r := w.call (Call.dbDelete id) (d.db.Delete id)
  match r.1 with
  | some err => (some err, r.2)
  | none =>
    -- delete cache
    let r2 := d.deleteCache id r.2
    (none, r2.2)

/-- The loop `for _, id := range ids` of `DeleteByIDs` that deletes the cache entries. -/
def deleteCaches (d : userBasicDao σ) : List Nat → World σ → World σ
  | [], w => w
  | id :: rest, w => deleteCaches d rest (d.deleteCache id w).2

/-- The method `DeleteByIDs`: batch delete userBasic by ids. -/
def DeleteByIDs (d : userBasicDao σ) (ids : List Nat) (w : World σ) :
    Option GoError × World σ :=
  let r := w.call (Call.dbDeleteIn ids) (d.db.DeleteIn ids)
  match r.1 with
  | some err => (some err, r.2)
  | none =>
    -- delete cache
    (none, d.deleteCaches ids r.2)

/-- The method `CreateByTx`: create a record using the provided transaction; the result
is `table.ID` after the insert and the insert error. The first component is the content
of the record after the call. -/
def CreateByTx (_d : userBasicDao σ) (tx : GormDB σ) (table : UserBasic) (w : World σ) :
    (UserBasic × Nat × Option GoError) × World σ :=
  let r := w.call (Call.dbCreate table) (tx.Create table)
  ((r.1.1, r.1.1.ID, r.1.2), r.2)

/-- The method `DeleteByTx`: delete a record by id using the provided transaction; `now`
is the instant `time.Now()` yields. -/
def DeleteByTx (d : userBasicDao σ) (tx : GormDB σ) (id : Nat) (now : Nat) (w : World σ) :
    Option GoError × World σ :=
  let update : GoMap String GoValue := GoMap.empty.set "deleted_at" (GoValue.time now)
  let r := w.call (Call.dbUpdatesWhereID id update) (tx.UpdatesWhereID id update)
  match r.1 with
  | some err => (some err, r.2)
  | none =>
    -- delete cache
    let r2 := d.deleteCache id r.2
    (none, r2.2)

/-- The method `updateDataByID`; `db` is `d.db` or a transaction handle. -/
def updateDataByID (_d : userBasicDao σ) (db : GormDB σ) (table : UserBasic) (w : World σ) :
    Option GoError × World σ :=
  if table.ID < 1 then (some (GoError.other "id cannot be 0"), w)
  else
    let update : GoMap String GoValue := GoMap.empty
    let update := if table.Identity ≠ "" then update.set "identity" (.str table.Identity) else update
    let update := if table.Name ≠ "" then update.set "name" (.str table.Name) else update
    let update := if table.Password ≠ "" then update.set "password" (.str table.Password) else update
    let update := if table.Email ≠ "" then update.set "email" (.str table.Email) else update
    w.call (Call.dbUpdates table update) (db.Updates table update)

/-- The method `UpdateByID`: update a userBasic by id. -/
def UpdateByID (d : userBasicDao σ) (table : UserBasic) (w : World σ) :
    Option GoError × World σ :=
  let r := d.updateDataByID d.db table w
  -- delete cache
  let r2 := d.deleteCache table.ID r.2
  (r.1, r2.2)

/-- The method `UpdateByTx`: update a record by id using the provided transaction. -/
def UpdateByTx (d : userBasicDao σ) (tx : GormDB σ) (table : UserBasic) (w : World σ) :
    Option GoError × World σ :=
  let r := d.updateDataByID tx table w
  -- delete cache
  let r2 := d.deleteCache table.ID r.2
  (r.1, r2.2)

/-- The function handed to `sfg.Do` in `GetByID`: read the row and fill the cache. -/
def fetchByID (d : userBasicDao σ) (c : userBasicCache σ) (id : Nat) (w : World σ) :
    (Ptr UserBasic × Option GoError) × World σ :=
  let r := w.call (Call.dbFirst id) (d.db.First id)
  let table := r.1.1
  match r.1.2 with
  | some err =>
    -- set placeholder cache to prevent cache penetration
    if errorsIs err GoError.ErrRecordNotFound then
      let p := c.SetPlaceholder id r.2
      ((none, some GoError.ErrRecordNotFound), p.2)
    else ((none, some err), r.2)
  | none =>
    -- set cache
    let s := c.Set id (some table) UserBasicExpireTime r.2
    ((some table, none), s.2)

/-- The method `GetByID`: get a userBasic by id. -/
def GetByID (d : userBasicDao σ) (id : Nat) (w : World σ) :
    (Ptr UserBasic × Option GoError) × World σ :=
  match d.cache with
  | none =>
    -- no cache
    let r := w.call (Call.dbFirst id) (d.db.First id)
    ((some r.1.1, r.1.2), r.2)
  | some c =>
    -- get from cache
    let g := c.Get id w
    match g.1.2 with
    | none => ((g.1.1, none), g.2)
    | some err =>
      -- get from database
      if errorsIs err GoError.ErrCacheNotFound then
        let f := sfgDo (Uint64ToStr id) (d.fetchByID c id) g.2
        match f.1.2 with
        | some err2 => ((none, some err2), f.2)
        | none =>
          match f.1.1 with
          | some table => ((some table, none), f.2)
          | none => ((none, some GoError.ErrRecordNotFound), f.2)
      else if c.IsPlaceholderErr (some err) then
        ((none, some GoError.ErrRecordNotFound), g.2)
      else ((none, some err), g.2)

/-- The ids of `ids` that are no key of `itemMap`: the first loop of `GetByIDs`. -/
def missedIDs (itemMap : GoMap Nat (Ptr UserBasic)) (ids : List Nat) : List Nat :=
  ids.filter (fun id => !itemMap.contains id)

/-- The second loop of `GetByIDs`: probe the cache for every missed id and keep the ids
whose probe does not report a placeholder. -/
def realMissedIDs (c : userBasicCache σ) : List Nat → World σ → List Nat × World σ
  | [], w => ([], w)
  | id :: rest, w =>
    let g := c.Get id w
    let r := realMissedIDs c rest g.2
    if c.IsPlaceholderErr g.1.2 then r else (id :: r.1, r.2)

/-- The last loop of `GetByIDs`: a placeholder for every real-missed id that is no key of
`recordIDMap`; a failure of `SetPlaceholder` is only logged. -/
def setPlaceholders (c : userBasicCache σ) (recordIDMap : GoMap Nat Unit) :
    List Nat → World σ → World σ
  | [], w => w
  | id :: rest, w =>
    if recordIDMap.contains id then setPlaceholders c recordIDMap rest w
    else setPlaceholders c recordIDMap rest (c.SetPlaceholder id w).2

/-- The loop `itemMap[record.ID] = record` over the records storage returned. -/
def mergeRecords (itemMap : GoMap Nat (Ptr UserBasic)) (records : List UserBasic) :
    GoMap Nat (Ptr UserBasic) :=
  records.foldl (fun m record => m.set record.ID (some record)) itemMap

/-- The loop that fills `recordIDMap` with the ids of the records storage returned. -/
def recordIDs (records : List UserBasic) : GoMap Nat Unit :=
  records.foldl (fun m record => m.set record.ID ()) GoMap.empty

/-- The method `GetByIDs`: batch get userBasic by ids. On the cached path `MultiGet` hands
back a map exactly when it hands back no error. -/
def GetByIDs (d : userBasicDao σ) (ids : List Nat) (w : World σ) :
    (Option (GoMap Nat (Ptr UserBasic)) × Option GoError) × World σ :=
  match d.cache with
  | none =>
    -- no cache
    let r := w.call (Call.dbFind ids) (d.db.Find ids)
    match r.1.2 with
    | some err => ((none, some err), r.2)
    | none => ((some (mergeRecords GoMap.empty r.1.1), none), r.2)
  | some c =>
    -- get from cache
    let mg := c.MultiGet ids w
    match mg.1.2 with
    | some err => ((none, some err), mg.2)
    | none =>
      let itemMap := mg.1.1.getD GoMap.empty
      let missed := missedIDs itemMap ids
      -- get missed data
      if missed.length > 0 then
        let p := realMissedIDs c missed mg.2
        -- get missed id from database
        if p.1.length > 0 then
          let q := p.2.call (Call.dbFind p.1) (d.db.Find p.1)
          match q.1.2 with
          | some err => ((none, some err), q.2)
          | none =>
            let records := q.1.1
            if records.length > 0 then
              let ms := c.MultiSet records UserBasicExpireTime q.2
              if records.length = p.1.length then
                ((some (mergeRecords itemMap records), none), ms.2)
              else
                ((some (mergeRecords itemMap records), none),
                  setPlaceholders c (recordIDs records) p.1 ms.2)
            else ((some itemMap, none), setPlaceholders c (recordIDs records) p.1 q.2)
        else ((some itemMap, none), p.2)
      else ((some itemMap, none), mg.2)

/-- The page fetch of `GetByColumns`, the part of the method after the count block; `total`
is the value of the variable `total` when the block is left. -/
def fetchPage (d : userBasicDao σ) (q : query.Translator) (params : query.Params)
    (queryStr : String) (args : List GoValue) (total : Int) (w : World σ) :
    (Option (List UserBasic) × Int × Option GoError) × World σ :=
  let pg := q.ConvertToPage params
  let r := w.call (Call.dbFindPage pg.1 pg.2.1 pg.2.2 queryStr args)
    (d.db.FindPage pg.1 pg.2.1 pg.2.2 queryStr args)
  match r.1.2 with
  | some err => ((none, 0, some err), r.2)
  | none => ((some r.1.1, total, none), r.2)

/-- The method `GetByColumns`: a paginated list of userBasics by custom conditions. The
first component of the result is `none` for the nil slice. -/
def GetByColumns (d : userBasicDao σ) (q : query.Translator) (params : query.Params)
    (w : World σ) : (Option (List UserBasic) × Int × Option GoError) × World σ :=
  let cv := q.ConvertToGormConditions params UserBasicColumnNames
  match cv.2 with
  | some err => ((none, 0, some (GoError.other ("query params error: " ++ err.Error))), w)
  | none =>
    let queryStr := cv.1.1
    let args := cv.1.2
    -- determine if count is required
    if params.sort ≠ "ignore count" then
      let r := w.call (Call.dbCount queryStr args) (d.db.Count queryStr args)
      match r.1.2 with
      | some err => ((none, 0, some err), r.2)
      | none =>
        let total := r.1.1
        if total = 0 then ((none, total, none), r.2)
        else d.fetchPage q params queryStr args total r.2
    else d.fetchPage q params queryStr args 0 w

/-- The method `GetByCondition`: get a userBasic by custom condition. -/
def GetByCondition (d : userBasicDao σ) (q : query.Translator) (c : query.Conditions)
    (w : World σ) : (Ptr UserBasic × Option GoError) × World σ :=
  let cv := q.ConvertToGorm c UserBasicColumnNames
  match cv.2 with
  | some err => ((none, some err), w)
  | none =>
    let r := w.call (Call.dbFirstWhere cv.1.1 cv.1.2) (d.db.FirstWhere cv.1.1 cv.1.2)
    match r.1.2 with
    | some err => ((none, some err), r.2)
    | none => ((some r.1.1, none), r.2)

/-- The method `GetByLastID`: a paginated list of userBasics by last id. The first
component of the result is `none` when `query.NewPage` panics, which is before any call,
and else the pair the method returns, whose first component is `none` for the nil slice. -/
def GetByLastID (d : userBasicDao σ) (q : query.Translator) (lastID : Nat) (limit : Int)
    (sort : String) (w : World σ) :
    Option (Option (List UserBasic) × Option GoError) × World σ :=
  match q.NewPage 0 limit sort with
  | none => (none, w)
  | some page =>
    let r := w.call (Call.dbFindLastID page.sort page.Limit lastID)
      (d.db.FindLastID page.sort page.Limit lastID)
    match r.1.2 with
    | some err => (some (none, some err), r.2)
    | none => (some (some r.1.1, none), r.2)

/-- The comparison program for the early return of `GetByIDs`: the text of `GetByIDs` with
the statement `if len(records) == len(realMissedIDs) { return itemMap, nil }` taken out, so
that the placeholder loop runs whenever storage was queried. -/
def GetByIDsWithoutEarlyReturn (d : userBasicDao σ) (ids : List Nat) (w : World σ) :
    (Option (GoMap Nat (Ptr UserBasic)) × Option GoError) × World σ :=
  match d.cache with
  | none =>
    let r := w.call (Call.dbFind ids) (d.db.Find ids)
    match r.1.2 with
    | some err => ((none, some err), r.2)
    | none => ((some (mergeRecords GoMap.empty r.1.1), none), r.2)
  | some c =>
    let mg := c.MultiGet ids w
    match mg.1.2 with
    | some err => ((none, some err), mg.2)
    | none =>
      let itemMap := mg.1.1.getD GoMap.empty
      let missed := missedIDs itemMap ids
      if missed.length > 0 then
        let p := realMissedIDs c missed mg.2
        if p.1.length > 0 then
          let q := p.2.call (Call.dbFind p.1) (d.db.Find p.1)
          match q.1.2 with
          | some err => ((none, some err), q.2)
          | none =>
            let records := q.1.1
            if records.length > 0 then
              let ms := c.MultiSet records UserBasicExpireTime q.2
              ((some (mergeRecords itemMap records), none),
                setPlaceholders c (recordIDs records) p.1 ms.2)
            else ((some itemMap, none), setPlaceholders c (recordIDs records) p.1 q.2)
        else ((some itemMap, none), p.2)
      else ((some itemMap, none), mg.2)

end userBasicDao

/-! ## internal/dao/userRepository.go

The file repeats `userBasic.go` with the entity name replaced, except for the column list
of `updateDataByID`. -/

/-- The query `Model(table).Updates(update)` on a `*model.UserRepository`. -/
structure GormDBUserRepository (σ : Type) where
  Updates : UserRepository → GoMap String GoValue → σ → Option GoError × σ

/-- The method `updateDataByID` of `userRepositoryDao`; `db` is `d.db` or a transaction
handle. -/
def userRepositoryDao.updateDataByID {σ : Type} (db : GormDBUserRepository σ)
    (table : UserRepository) (w : World σ) : Option GoError × World σ :=
  if table.ID < 1 then (some (GoError.other "id cannot be 0"), w)
  else
    let update : GoMap String GoValue := GoMap.empty
    let update := if table.Identity ≠ "" then update.set "identity" (.str table.Identity) else update
    let update :=
      if table.UserIdentity ≠ "" then update.set "user_identity" (.str table.UserIdentity)
      else update
    let update := if table.ParentID ≠ 0 then update.set "parent_id" (.int table.ParentID) else update
    let update :=
      if table.RepositoryIdentity ≠ "" then
        update.set "repository_identity" (.str table.RepositoryIdentity)
      else update
    let update := if table.Ext ≠ "" then update.set "ext" (.str table.Ext) else update
    let update := if table.Name ≠ "" then update.set "name" (.str table.Name) else update
    w.call (Call.dbUpdatesUserRepository table update) (db.Updates table update)

/-! ## A reference environment

An in-memory cache backend and table with switches that make the cache reads, the cache
writes or the storage queries fail. It stands in for the backends behind the consumed
interfaces when a scenario is run on concrete data. -/

/-- An entry of the in-memory cache backend: a stored record or the placeholder. -/
inductive MemEntry where
  | value (v : UserBasic)
  | placeholder
  deriving DecidableEq, Repr

/-- The state of the reference environment. -/
structure MemState where
  entries : GoMap String MemEntry
  rows : List UserBasic
  getErr : Option GoError
  setErr : Option GoError
  dbErr : Option GoError
  clock : Nat
  deriving DecidableEq, Repr

/-- The in-memory cache backend. -/
def memCache : Cache MemState where
  Set := fun key v _ s =>
    match s.setErr with
    | some e => (some e, s)
    | none => (none, { s with entries := s.entries.set key (MemEntry.value v) })
  Get := fun key s =>
    match s.getErr with
    | some e => ((none, some e), s)
    | none =>
      match s.entries.get? key with
      | none => ((none, some GoError.ErrCacheNotFound), s)
      | some MemEntry.placeholder => ((none, some GoError.ErrPlaceholder), s)
      | some (MemEntry.value v) => ((some v, none), s)
  MultiSet := fun valMap _ s =>
    match s.setErr with
    | some e => (some e, s)
    | none =>
      let entries := valMap.entries.foldl (fun m kv => m.set kv.1 (MemEntry.value kv.2)) s.entries
      (none, { s with entries := entries })
  MultiGet := fun keys s =>
    match s.getErr with
    | some e => ((GoMap.empty, some e), s)
    | none =>
      ((keys.foldl
          (fun m key =>
            match s.entries.get? key with
            | some (MemEntry.value v) => m.set key (some v)
            | _ => m)
          GoMap.empty, none), s)
  Del := fun key s =>
    match s.setErr with
    | some e => (some e, s)
    | none => (none, { s with entries := ⟨s.entries.entries.filter (fun kv => kv.1 ≠ key)⟩ })
  SetCacheWithNotFound := fun key s =>
    match s.setErr with
    | some e => (some e, s)
    | none => (none, { s with entries := s.entries.set key MemEntry.placeholder })

/-- A sparse column update applied to a row of the in-memory table. -/
def applyUpdate (update : GoMap String GoValue) (r : UserBasic) : UserBasic :=
  let r := match update.get? "identity" with
    | some (GoValue.str x) => { r with Identity := x }
    | _ => r
  let r := match update.get? "name" with
    | some (GoValue.str x) => { r with Name := x }
    | _ => r
  let r := match update.get? "password" with
    | some (GoValue.str x) => { r with Password := x }
    | _ => r
  match update.get? "email" with
  | some (GoValue.str x) => { r with Email := x }
  | _ => r

/-- A sparse column update applied to the visible rows with the given id. -/
def patchRows (update : GoMap String GoValue) (id : Nat) (rows : List UserBasic) :
    List UserBasic :=
  rows.map (fun r => if r.ID = id ∧ r.DeletedAt = none then applyUpdate update r else r)

/-- The id an auto-increment column hands out next: one more than every id in use. -/
def nextID (rows : List UserBasic) : Nat :=
  (rows.map UserBasic.ID).foldl max 0 + 1

/-- Soft delete: the visible rows whose id is listed get the deletion instant `t`. -/
def softDelete (t : Nat) (ids : List Nat) (rows : List UserBasic) : List UserBasic :=
  rows.map (fun r => if r.ID ∈ ids ∧ r.DeletedAt = none then { r with DeletedAt := some t } else r)

/-- The predicates the in-memory table understands: no condition, or one comparison of the
id with an integer argument. -/
def memWhere (queryStr : String) (args : List GoValue) : Option (UserBasic → Bool) :=
  if queryStr = "" then
    match args with
    | [] => some (fun _ => true)
    | _ => none
  else
    match args with
    | [GoValue.int n] =>
      if queryStr = "id < ?" then some (fun r => decide ((r.ID : Int) < n))
      else if queryStr = "id = ?" then some (fun r => decide ((r.ID : Int) = n))
      else none
    | _ => none

/-- The order of two strings by their code points: `a` does not come after `b`. -/
def strLe (a b : String) : Bool :=
  decide (¬ b.data.map Char.toNat < a.data.map Char.toNat)

/-- The columns of the in-memory table with the order each of them induces on the rows. -/
def memColumns : List (String × (UserBasic → UserBasic → Bool)) :=
  [("id", fun a b => decide (a.ID ≤ b.ID)),
   ("created_at", fun a b => decide (a.CreatedAt ≤ b.CreatedAt)),
   ("updated_at", fun a b => decide (a.UpdatedAt ≤ b.UpdatedAt)),
   ("deleted_at", fun a b => decide (a.DeletedAt.getD 0 ≤ b.DeletedAt.getD 0)),
   ("identity", fun a b => strLe a.Identity b.Identity),
   ("name", fun a b => strLe a.Name b.Name),
   ("password", fun a b => strLe a.Password b.Password),
   ("email", fun a b => strLe a.Email b.Email)]

/-- The order clauses the in-memory table understands: none, or one of its columns followed
by `ASC` or `DESC`. An order clause over an unknown column is rejected. -/
def memOrder (order : String) : Option (List UserBasic → List UserBasic) :=
  if order = "" then some id
  else memColumns.findSome? (fun cl =>
    if order = cl.1 ++ " ASC" then some (List.insertionSort (fun a b => cl.2 a b = true))
    else if order = cl.1 ++ " DESC" then some (List.insertionSort (fun a b => cl.2 b a = true))
    else none)

/-- The answer of the in-memory table to a paginated query. -/
def memSelect (order : String) (limit offset : Int) (pred : Option (UserBasic → Bool))
    (s : MemState) : List UserBasic × Option GoError :=
  match s.dbErr with
  | some e => ([], some e)
  | none =>
    match pred with
    | none => ([], some (GoError.other "unsupported predicate"))
    | some p =>
      match memOrder order with
      | none => ([], some (GoError.other ("Unknown column in order clause: " ++ order)))
      | some sort =>
        (((sort (s.rows.filter (fun r => p r && r.DeletedAt.isNone))).drop offset.toNat).take
          limit.toNat, none)

/-- The in-memory table: rows that are not soft-deleted are visible; the id is the primary
key and is handed out by auto-increment when the inserted record carries id 0. -/
def memDB : GormDB MemState where
  First := fun id s =>
    match s.dbErr with
    | some e => ((UserBasic.zero, some e), s)
    | none =>
      match s.rows.find? (fun r => decide (r.ID = id) && r.DeletedAt.isNone) with
      | some r => ((r, none), s)
      | none => ((UserBasic.zero, some GoError.ErrRecordNotFound), s)
  Find := fun ids s =>
    match s.dbErr with
    | some e => (([], some e), s)
    | none => ((s.rows.filter (fun r => decide (r.ID ∈ ids) && r.DeletedAt.isNone), none), s)
  Updates := fun table update s =>
    match s.dbErr with
    | some e => (some e, s)
    | none => (none, { s with rows := patchRows update table.ID s.rows })
  Create := fun table s =>
    match s.dbErr with
    | some e => ((table, some e), s)
    | none =>
      if table.ID = 0 then
        let row := { table with ID := nextID s.rows }
        ((row, none), { s with rows := s.rows ++ [row] })
      else if table.ID ∈ s.rows.map UserBasic.ID then
        ((table, some (GoError.other "duplicate entry for key PRIMARY")), s)
      else ((table, none), { s with rows := s.rows ++ [table] })
  Delete := fun id s =>
    match s.dbErr with
    | some e => (some e, s)
    | none => (none, { s with rows := softDelete s.clock [id] s.rows })
  DeleteIn := fun ids s =>
    match s.dbErr with
    | some e => (some e, s)
    | none => (none, { s with rows := softDelete s.clock ids s.rows })
  UpdatesWhereID := fun id update s =>
    match s.dbErr with
    | some e => (some e, s)
    | none =>
      match update.get? "deleted_at" with
      | some (GoValue.time t) => (none, { s with rows := softDelete t [id] s.rows })
      | _ => (none, s)
  Count := fun queryStr args s =>
    match s.dbErr with
    | some e => ((0, some e), s)
    | none =>
      match memWhere queryStr args with
      | none => ((0, some (GoError.other "unsupported predicate")), s)
      | some p => ((((s.rows.filter (fun r => p r && r.DeletedAt.isNone)).length : Nat), none), s)
  FindPage := fun order limit offset queryStr args s =>
    (memSelect order limit offset (memWhere queryStr args) s, s)
  FirstWhere := fun queryStr args s =>
    match (memSelect "" 1 0 (memWhere queryStr args) s) with
    | (_, some e) => ((UserBasic.zero, some e), s)
    | ([], none) => ((UserBasic.zero, some GoError.ErrRecordNotFound), s)
    | (r :: _, none) => ((r, none), s)
  FindLastID := fun order limit lastID s =>
    (memSelect order limit 0 (some (fun r => decide (r.ID < lastID))) s, s)

/-- The entity cache over the in-memory backend. -/
def memUserBasicCache : userBasicCache MemState := { cache := memCache }

/-- The data-access object over the in-memory table and cache. -/
def memDao : userBasicDao MemState := NewUserBasicDao memDB (some memUserBasicCache)

/-- A lower-casing of the ASCII capital letters, standing in for `strings.ToLower` on
ASCII strings. -/
def asciiToLower (s : String) : String :=
  ⟨s.data.map (fun c => if 65 ≤ c.toNat ∧ c.toNat ≤ 90 then Char.ofNat (c.toNat + 32) else c)⟩

/-- The pieces of a list of characters between its commas, as `strings.Split(s, ",")`
yields them. -/
def splitComma : List Char → List (List Char)
  | [] => [[]]
  | c :: rest =>
    if c = ',' then [] :: splitComma rest
    else
      match splitComma rest with
      | [] => [[c]]
      | x :: xs => (c :: x) :: xs

/-- The order of one column name of the reference translator: a name with a leading minus
sign and something after it descending, any other name ascending; `none` for the empty
name, on which the library panics when it reads the first character. -/
def refSortName (name : List Char) : Option String :=
  match name with
  | [] => none
  | c :: rest =>
    if c = '-' ∧ rest ≠ [] then some (String.mk rest ++ " DESC")
    else some (String.mk (c :: rest) ++ " ASC")

/-- The orders of a list of column names, `none` when one of the names is empty. -/
def refSortNames : List (List Char) → Option (List String)
  | [] => some []
  | name :: rest =>
    match refSortName name, refSortNames rest with
    | some s, some ss => some (s :: ss)
    | _, _ => none

/-- The strings of a list joined by a comma and a blank. -/
def joinSort : List String → String
  | [] => ""
  | [s] => s
  | s :: rest => s ++ ", " ++ joinSort rest

/-- The sort expression of the reference translator, after the function `getSort` of the
sponge `query` package: blanks are taken out, no column name gives descending id, and the
names between commas are ordered one by one; `none` when a name is empty. -/
def refSort (columnNames : String) : Option String :=
  let cs := columnNames.data.filter (fun c => c ≠ ' ')
  if cs = [] then some "id DESC"
  else (refSortNames (splitComma cs)).map joinSort

/-- The page of the reference translator, after `query.NewPage`: a negative page number
is 0, a limit below 1 or above 1000 is 1000; `none` when the sort expression panics. The
result carries the page number with the page. -/
def refNewPage (page limit : Int) (sort : String) : Option (Int × query.Page) :=
  (refSort sort).map (fun order =>
    (if page < 0 then 0 else page,
     { sort := order, Limit := if limit > 1000 ∨ limit < 1 then 1000 else limit }))

/-- The predicate of the reference translator for at most one filter column, whose name
has to be in the whitelist. -/
def refConditions (columns : List query.Column) (whitelist : GoMap String Bool) :
    (String × List GoValue) × Option GoError :=
  match columns with
  | [] => (("", []), none)
  | [col] =>
    if whitelist.get? col.Name = some true then
      if col.Exp = "" ∨ col.Exp = "=" then ((col.Name ++ " = ?", [col.Value]), none)
      else if col.Exp = "<" then ((col.Name ++ " < ?", [col.Value]), none)
      else (("", []), some (GoError.other ("unknown exp type: " ++ col.Exp)))
    else (("", []), some (GoError.other ("field name is not in the whitelist: " ++ col.Name)))
  | _ => (("", []), some (GoError.other "more than one column"))

/-- A reference translator standing in for the sponge `query` package. It does not look
at the sort column. `ConvertToPage` builds the page of the parameters and returns its
order, its limit and the offset `page * limit`; the field has no value for a panic, so
where the page panics the reference translator pages with the empty order clause. -/
def refQuery : query.Translator where
  ConvertToGormConditions := fun params whitelist => refConditions params.Columns whitelist
  ConvertToPage := fun params =>
    match refNewPage params.Page params.Limit params.sort with
    | some pg => (pg.2.sort, pg.2.Limit, pg.1 * pg.2.Limit)
    | none => ("", 0, 0)
  ConvertToGorm := fun c whitelist => refConditions c.Columns whitelist
  NewPage := fun page limit sort => (refNewPage page limit sort).map Prod.snd

/-- The in-memory table behind a query layer that accepts every order clause and answers
in table order, as the SQL mock of the tests accepts every query. -/
def memDBLenient : GormDB MemState :=
  { memDB with
    FindPage := fun _order limit offset queryStr args s =>
      memDB.FindPage "" limit offset queryStr args s }

/-- The data-access object over the in-memory table with no cache configured. -/
def memDaoNoCache : userBasicDao MemState := NewUserBasicDao memDB none

/-- A row with the given id and name. -/
def mkUser (id : Nat) (name : String) : UserBasic :=
  { UserBasic.zero with ID := id, Name := name }

/-- A world of the reference environment with an empty call log. -/
def memWorld (entries : List (String × MemEntry)) (rows : List UserBasic)
    (getErr setErr dbErr : Option GoError) : World MemState :=
  { st := { entries := ⟨entries⟩, rows := rows, getErr := getErr, setErr := setErr,
            dbErr := dbErr, clock := 0 },
    log := [] }

/-- The world `GetByIDs` leaves after a storage query that returned `records` for the
real misses `real`, started in the world `q` the query left. -/
def afterFind {σ : Type} (c : userBasicCache σ) (real : List Nat) (records : List UserBasic)
    (q : World σ) : World σ :=
  if records = [] then userBasicDao.setPlaceholders c (userBasicDao.recordIDs records) real q
  else if records.length = real.length then (c.MultiSet records UserBasicExpireTime q).2
  else userBasicDao.setPlaceholders c (userBasicDao.recordIDs records) real
    (c.MultiSet records UserBasicExpireTime q).2

/-- The value of a decimal digit character. -/
def digitVal (c : Char) : Nat := c.toNat - 48

/-- The number a list of decimal digit characters denotes, continuing from `acc`. -/
def decimalValue (acc : Nat) (ds : List Char) : Nat :=
  ds.foldl (fun a c => a * 10 + digitVal c) acc

/-- The record the in-memory table currently holds for `id`: the visible row with that id. -/
def visibleRow (rows : List UserBasic) (id : Nat) : Option UserBasic :=
  rows.find? (fun r => decide (r.ID = id) && r.DeletedAt.isNone)

/-- Cache coherence of the in-memory environment: every record entry of the cache under
the key of an id is the record the table currently holds for that id. -/
def Coherent (rows : List UserBasic) (entries : GoMap String MemEntry) : Prop :=
  ∀ id v, entries.get? (memUserBasicCache.GetUserBasicCacheKey id) = some (MemEntry.value v) →
    visibleRow rows id = some v

/-- The cache `m2` comes from the cache `m` by writes of placeholders and of records the
table `rows` holds, each record under the key of its id. -/
inductive CacheFill (rows : List UserBasic) :
    GoMap String MemEntry → GoMap String MemEntry → Prop where
  | refl (m : GoMap String MemEntry) : CacheFill rows m m
  | placeholder (m m2 : GoMap String MemEntry) (key : String) :
      CacheFill rows m m2 → CacheFill rows m (m2.set key MemEntry.placeholder)
  | value (m m2 : GoMap String MemEntry) (id : Nat) (r : UserBasic) :
      CacheFill rows m m2 → visibleRow rows id = some r →
      CacheFill rows m (m2.set (memUserBasicCache.GetUserBasicCacheKey id) (MemEntry.value r))

/-- The world `w2` has the table and the cache-write switch of `w`, and its cache comes from
the cache of `w` by writes of placeholders and of records the table holds. -/
def Fills (w w2 : World MemState) : Prop :=
  w2.st.rows = w.st.rows ∧ w2.st.setErr = w.st.setErr ∧
    CacheFill w.st.rows w.st.entries w2.st.entries

/-- The invariant of the in-memory environment: the ids of the table are pairwise
distinct, and the cache is coherent with the table. -/
def Inv (w : World MemState) : Prop :=
  (w.st.rows.map UserBasic.ID).Nodup ∧ Coherent w.st.rows w.st.entries

/-- One sequential step of the in-memory environment: a call of the data-access object,
or a change of the outage switches of cache reads, cache writes and storage and of the
clock. -/
inductive Step : World MemState → World MemState → Prop where
  | create (w : World MemState) (table : UserBasic) : Step w (memDao.Create table w).2
  | getByID (w : World MemState) (id : Nat) : Step w (memDao.GetByID id w).2
  | getByIDs (w : World MemState) (ids : List Nat) : Step w (memDao.GetByIDs ids w).2
  | updateByID (w : World MemState) (table : UserBasic) : Step w (memDao.UpdateByID table w).2
  | deleteByID (w : World MemState) (id : Nat) : Step w (memDao.DeleteByID id w).2
  | deleteByIDs (w : World MemState) (ids : List Nat) : Step w (memDao.DeleteByIDs ids w).2
  | outage (w : World MemState) (getErr setErr dbErr : Option GoError) (clock : Nat) :
      Step w { st := { w.st with getErr := getErr, setErr := setErr, dbErr := dbErr,
                                 clock := clock },
               log := w.log }

/-- The worlds reachable from an empty cache over a table with pairwise distinct ids by
sequential steps; cache reads, cache writes and storage may fail and recover at any time. -/
inductive Reachable : World MemState → Prop where
  | init (rows : List UserBasic) (getErr setErr dbErr : Option GoError) (clock : Nat)
      (log : List Call) :
      (rows.map UserBasic.ID).Nodup →
      Reachable { st := { entries := GoMap.empty, rows := rows, getErr := getErr,
                          setErr := setErr, dbErr := dbErr, clock := clock },
                  log := log }
  | step (w w2 : World MemState) : Reachable w → Step w w2 → Reachable w2

/-- A sequential step in which no cache delete fails. `UpdateByID` always issues its cache
delete, so it is made while the cache accepts writes; `DeleteByID` and `DeleteByIDs` are
made while the cache accepts writes, or issue no cache delete: the call fails, which it
does exactly when its storage call fails, or the list of ids is empty. The other calls
and the outages, those of cache writes included, are as in `Step`. -/
inductive StepDelOk : World MemState → World MemState → Prop where
  | create (w : World MemState) (table : UserBasic) : StepDelOk w (memDao.Create table w).2
  | getByID (w : World MemState) (id : Nat) : StepDelOk w (memDao.GetByID id w).2
  | getByIDs (w : World MemState) (ids : List Nat) : StepDelOk w (memDao.GetByIDs ids w).2
  | updateByID (w : World MemState) (table : UserBasic) :
      w.st.setErr = none → StepDelOk w (memDao.UpdateByID table w).2
  | deleteByID (w : World MemState) (id : Nat) :
      (w.st.setErr = none ∨ (memDao.DeleteByID id w).1 ≠ none) →
      StepDelOk w (memDao.DeleteByID id w).2
  | deleteByIDs (w : World MemState) (ids : List Nat) :
      (w.st.setErr = none ∨ (memDao.DeleteByIDs ids w).1 ≠ none ∨ ids = []) →
      StepDelOk w (memDao.DeleteByIDs ids w).2
  | outage (w : World MemState) (getErr setErr dbErr : Option GoError) (clock : Nat) :
      StepDelOk w { st := { w.st with getErr := getErr, setErr := setErr, dbErr := dbErr,
                                      clock := clock },
                    log := w.log }

/-- The worlds reachable from an empty cache over a table with pairwise distinct ids by
sequential steps in which no cache delete fails. -/
inductive ReachableDelOk : World MemState → Prop where
  | init (rows : List UserBasic) (getErr setErr dbErr : Option GoError) (clock : Nat)
      (log : List Call) :
      (rows.map UserBasic.ID).Nodup →
      ReachableDelOk { st := { entries := GoMap.empty, rows := rows, getErr := getErr,
                               setErr := setErr, dbErr := dbErr, clock := clock },
                       log := log }
  | step (w w2 : World MemState) : ReachableDelOk w → StepDelOk w w2 → ReachableDelOk w2

/-- The world `w` after cache writes have started to fail with `e`. -/
def cacheWritesFail (e : GoError) (w : World MemState) : World MemState :=
  { st := { w.st with getErr := w.st.getErr, setErr := some e, dbErr := w.st.dbErr,
                      clock := w.st.clock },
    log := w.log }

/-- A `Model(table).Updates(update)` handler on `*model.UserRepository` that accepts every
update and keeps no rows. -/
def nullRepoDB : GormDBUserRepository MemState where
  Updates := fun _ _ s => (none, s)

/-- A file entry of a user: a folder "docs" under the parent with id 7. -/
def docsFolder : UserRepository :=
  { ID := 4, CreatedAt := 0, UpdatedAt := 0, DeletedAt := none, Identity := "",
    UserIdentity := "u-1", ParentID := 7, RepositoryIdentity := "", Ext := "", Name := "docs" }

/-- Scenario: row 1 is stored, nothing is cached, and every cache write fails. -/
def worldWriteFail : World MemState :=
  memWorld [] [mkUser 1 "ann"] none (some (GoError.other "cache down")) none

/-- Scenario: rows 1 and 3 are stored, row 1 is cached, id 2 is placeholdered, and every
cache read fails. -/
def worldReadFail : World MemState :=
  memWorld [("userBasic:1", MemEntry.value (mkUser 1 "ann")), ("userBasic:2", MemEntry.placeholder)]
    [mkUser 1 "ann", mkUser 3 "cy"] (some (GoError.other "cache down")) none none

/-- Scenario: rows 1 and 3 are stored, row 1 is cached, id 2 is placeholdered. -/
def worldABC : World MemState :=
  memWorld [("userBasic:1", MemEntry.value (mkUser 1 "ann")), ("userBasic:2", MemEntry.placeholder)]
    [mkUser 1 "ann", mkUser 3 "cy"] none none none

/-- Scenario: row 3 is stored, nothing is cached. -/
def worldCold : World MemState :=
  memWorld [] [mkUser 3 "cy"] none none none

/-- Scenario: row 1 is stored and cached. -/
def worldWarm : World MemState :=
  memWorld [("userBasic:1", MemEntry.value (mkUser 1 "ann"))] [mkUser 1 "ann"] none none none

/-- Scenario: row 3 is read into the cold cache, then cache writes start to fail and the
row is renamed to "x". -/
def worldStale : World MemState :=
  (memDao.UpdateByID (mkUser 3 "x")
    (cacheWritesFail (GoError.other "cache down") (memDao.GetByID 3 worldCold).2)).2

/-- Scenario: row 3 is read into the cold cache, then cache writes start to fail. -/
def worldDelFails : World MemState :=
  cacheWritesFail (GoError.other "cache down") (memDao.GetByID 3 worldCold).2

/-- Scenario: id 5 is probed on the cold cache and the row with id 5 is created afterwards. -/
def worldProbedCreated : World MemState :=
  (memDao.Create (mkUser 5 "eve") (memDao.GetByID 5 worldCold).2).2

/-- Scenario: rows 1, 2 and 3 are stored, nothing is cached. -/
def worldThree : World MemState :=
  memWorld [] [mkUser 1 "ann", mkUser 2 "bob", mkUser 3 "cy"] none none none

/-- Scenario: the table and the cache are empty. -/
def worldEmpty : World MemState :=
  memWorld [] [] none none none

/-- Scenario: rows 1 and 3 are stored, row 1 is cached, and every storage query fails. -/
def worldDbDown : World MemState :=
  memWorld [("userBasic:1", MemEntry.value (mkUser 1 "ann"))] [mkUser 1 "ann", mkUser 3 "cy"]
    none none (some (GoError.other "db down"))

/-! ## Theorems -/

section Lemmas

variable {σ : Type}

theorem errorsIs_self (e : GoError) : errorsIs e e = true := by
  cases e <;> simp [errorsIs]

theorem errorsIs_placeholder_not_cacheNotFound (e : GoError)
    (h : errorsIs e GoError.ErrPlaceholder = true) :
    errorsIs e GoError.ErrCacheNotFound = false := by
  induction e with
  | wrap msg inner ih =>
    simp only [errorsIs, Bool.or_eq_true, decide_eq_true_eq] at h
    rcases h with h | h
    · cases h
    · simp [errorsIs, ih h]
  | _ => simp_all [errorsIs]

@[simp] theorem cacheGet_log (c : userBasicCache σ) (id : Nat) (w : World σ) :
    (c.Get id w).2.log = w.log ++ [Call.cacheGet (c.GetUserBasicCacheKey id)] := by
  simp only [userBasicCache.Get, World.call]
  split <;> rfl

@[simp] theorem cacheGet_st (c : userBasicCache σ) (id : Nat) (w : World σ) :
    (c.Get id w).2.st = (c.cache.Get (c.GetUserBasicCacheKey id) w.st).2 := by
  simp only [userBasicCache.Get, World.call]
  split <;> rfl

theorem cacheGet_err (c : userBasicCache σ) (id : Nat) (w : World σ) :
    (c.Get id w).1.2 = (c.cache.Get (c.GetUserBasicCacheKey id) w.st).1.2 := by
  simp only [userBasicCache.Get, World.call]
  split <;> simp_all

@[simp] theorem cacheSetPlaceholder_log (c : userBasicCache σ) (id : Nat) (w : World σ) :
    (c.SetPlaceholder id w).2.log
      = w.log ++ [Call.cacheSetCacheWithNotFound (c.GetUserBasicCacheKey id)] := rfl

@[simp] theorem cacheSetPlaceholder_st (c : userBasicCache σ) (id : Nat) (w : World σ) :
    (c.SetPlaceholder id w).2.st
      = (c.cache.SetCacheWithNotFound (c.GetUserBasicCacheKey id) w.st).2 := rfl

@[simp] theorem cacheDel_log (c : userBasicCache σ) (id : Nat) (w : World σ) :
    (c.Del id w).2.log = w.log ++ [Call.cacheDel (c.GetUserBasicCacheKey id)] := by
  simp only [userBasicCache.Del, World.call]
  split <;> rfl

@[simp] theorem cacheDel_st (c : userBasicCache σ) (id : Nat) (w : World σ) :
    (c.Del id w).2.st = (c.cache.Del (c.GetUserBasicCacheKey id) w.st).2 := by
  simp only [userBasicCache.Del, World.call]
  split <;> rfl

@[simp] theorem cacheMultiSet_st (c : userBasicCache σ) (data : List UserBasic) (t : Nat)
    (w : World σ) :
    (c.MultiSet data t w).2.st
      = (c.cache.MultiSet
          (data.foldl (fun m v => m.set (c.GetUserBasicCacheKey v.ID) v) GoMap.empty) t w.st).2 := by
  simp only [userBasicCache.MultiSet, World.call]
  split <;> rfl

@[simp] theorem cacheMultiSet_log (c : userBasicCache σ) (data : List UserBasic) (t : Nat)
    (w : World σ) :
    (c.MultiSet data t w).2.log
      = w.log ++ [Call.cacheMultiSet
          (data.foldl (fun m v => m.set (c.GetUserBasicCacheKey v.ID) v) GoMap.empty) t] := by
  simp only [userBasicCache.MultiSet, World.call]
  split <;> rfl

/-- The log of `Set`: one backend write, or none for a nil record or the id 0. -/
theorem cacheSet_log (c : userBasicCache σ) (id : Nat) (v : UserBasic) (t : Nat)
    (w : World σ) :
    (c.Set id (some v) t w).2.log
      = w.log ++ (if id = 0 then [] else [Call.cacheSet (c.GetUserBasicCacheKey id) v t]) := by
  simp only [userBasicCache.Set, World.call]
  by_cases h : id = 0
  · simp [h]
  · simp only [h, if_false]
    split <;> rfl

theorem cacheMultiGet_err (c : userBasicCache σ) (ids : List Nat) (w : World σ) :
    (c.MultiGet ids w).1.2 = (c.cache.MultiGet (ids.map c.GetUserBasicCacheKey) w.st).1.2 := by
  simp only [userBasicCache.MultiGet, World.call]
  split <;> simp_all

@[simp] theorem cacheMultiGet_log (c : userBasicCache σ) (ids : List Nat) (w : World σ) :
    (c.MultiGet ids w).2.log
      = w.log ++ [Call.cacheMultiGet (ids.map c.GetUserBasicCacheKey)] := by
  simp only [userBasicCache.MultiGet, World.call]
  split <;> rfl

@[simp] theorem cacheMultiGet_st (c : userBasicCache σ) (ids : List Nat) (w : World σ) :
    (c.MultiGet ids w).2.st = (c.cache.MultiGet (ids.map c.GetUserBasicCacheKey) w.st).2 := by
  simp only [userBasicCache.MultiGet, World.call]
  split <;> rfl

/-- `GetByIDs` on the cached path when the batch read fails. -/
theorem GetByIDs_multiGet_error (db : GormDB σ) (c : userBasicCache σ) (ids : List Nat)
    (w : World σ) (err : GoError) (hmg : (c.MultiGet ids w).1.2 = some err) :
    (NewUserBasicDao db (some c)).GetByIDs ids w = ((none, some err), (c.MultiGet ids w).2) := by
  simp only [NewUserBasicDao, userBasicDao.GetByIDs, hmg]

/-- `GetByIDs` on the cached path when no id is a real miss. -/
theorem GetByIDs_no_real_miss (db : GormDB σ) (c : userBasicCache σ) (ids : List Nat)
    (w : World σ) (hit : GoMap Nat (Ptr UserBasic))
    (hmg : (c.MultiGet ids w).1 = (some hit, none))
    (hreal : (userBasicDao.realMissedIDs c (userBasicDao.missedIDs hit ids)
      (c.MultiGet ids w).2).1 = []) :
    (NewUserBasicDao db (some c)).GetByIDs ids w
      = ((some hit, none),
         (userBasicDao.realMissedIDs c (userBasicDao.missedIDs hit ids) (c.MultiGet ids w).2).2) := by
  have h2 : (c.MultiGet ids w).1.2 = none := by rw [hmg]
  have h1 : (c.MultiGet ids w).1.1 = some hit := by rw [hmg]
  simp only [NewUserBasicDao, userBasicDao.GetByIDs, h2, h1, Option.getD_some]
  by_cases hm : userBasicDao.missedIDs hit ids = []
  · simp [hm, userBasicDao.realMissedIDs]
  · have : (userBasicDao.missedIDs hit ids).length > 0 := List.length_pos.mpr hm
    simp [this, hreal]

/-- `GetByIDs` on the cached path when the storage query for the real misses fails. -/
theorem GetByIDs_find_error (db : GormDB σ) (c : userBasicCache σ) (ids : List Nat)
    (w : World σ) (hit : GoMap Nat (Ptr UserBasic)) (err : GoError)
    (hmg : (c.MultiGet ids w).1 = (some hit, none))
    (hreal : (userBasicDao.realMissedIDs c (userBasicDao.missedIDs hit ids)
      (c.MultiGet ids w).2).1 ≠ [])
    (hfind : (db.Find
        (userBasicDao.realMissedIDs c (userBasicDao.missedIDs hit ids) (c.MultiGet ids w).2).1
        (userBasicDao.realMissedIDs c (userBasicDao.missedIDs hit ids)
          (c.MultiGet ids w).2).2.st).1.2 = some err) :
    (NewUserBasicDao db (some c)).GetByIDs ids w
      = ((none, some err),
         ((userBasicDao.realMissedIDs c (userBasicDao.missedIDs hit ids)
            (c.MultiGet ids w).2).2.call
          (Call.dbFind (userBasicDao.realMissedIDs c (userBasicDao.missedIDs hit ids)
            (c.MultiGet ids w).2).1)
          (db.Find (userBasicDao.realMissedIDs c (userBasicDao.missedIDs hit ids)
            (c.MultiGet ids w).2).1)).2) := by
  have h2 : (c.MultiGet ids w).1.2 = none := by rw [hmg]
  have h1 : (c.MultiGet ids w).1.1 = some hit := by rw [hmg]
  have hm : (userBasicDao.missedIDs hit ids).length > 0 := by
    apply List.length_pos.mpr
    intro h0
    apply hreal
    simp [h0, userBasicDao.realMissedIDs]
  have hr := List.length_pos.mpr hreal
  simp only [NewUserBasicDao, userBasicDao.GetByIDs, h2, h1, Option.getD_some, hm, hr, if_true,
    World.call, hfind]

/-- `GetByIDs` on the cached path when the storage query for the real misses succeeds. -/
theorem GetByIDs_find_ok (db : GormDB σ) (c : userBasicCache σ) (ids : List Nat)
    (w : World σ) (hit : GoMap Nat (Ptr UserBasic)) (records : List UserBasic)
    (hmg : (c.MultiGet ids w).1 = (some hit, none))
    (hreal : (userBasicDao.realMissedIDs c (userBasicDao.missedIDs hit ids)
      (c.MultiGet ids w).2).1 ≠ [])
    (hfind : (db.Find
        (userBasicDao.realMissedIDs c (userBasicDao.missedIDs hit ids) (c.MultiGet ids w).2).1
        (userBasicDao.realMissedIDs c (userBasicDao.missedIDs hit ids)
          (c.MultiGet ids w).2).2.st).1 = (records, none)) :
    (NewUserBasicDao db (some c)).GetByIDs ids w
      = ((some (userBasicDao.mergeRecords hit records), none),
         afterFind c
          (userBasicDao.realMissedIDs c (userBasicDao.missedIDs hit ids) (c.MultiGet ids w).2).1
          records
          ((userBasicDao.realMissedIDs c (userBasicDao.missedIDs hit ids)
              (c.MultiGet ids w).2).2.call
            (Call.dbFind (userBasicDao.realMissedIDs c (userBasicDao.missedIDs hit ids)
              (c.MultiGet ids w).2).1)
            (db.Find (userBasicDao.realMissedIDs c (userBasicDao.missedIDs hit ids)
              (c.MultiGet ids w).2).1)).2) := by
  have h2 : (c.MultiGet ids w).1.2 = none := by rw [hmg]
  have h1 : (c.MultiGet ids w).1.1 = some hit := by rw [hmg]
  have hm : (userBasicDao.missedIDs hit ids).length > 0 := by
    apply List.length_pos.mpr
    intro h0
    apply hreal
    simp [h0, userBasicDao.realMissedIDs]
  have hr := List.length_pos.mpr hreal
  have hf2 := congrArg Prod.snd hfind
  have hf1 := congrArg Prod.fst hfind
  simp only at hf1 hf2
  simp only [NewUserBasicDao, userBasicDao.GetByIDs, h2, h1, Option.getD_some, hm, hr, if_true,
    World.call, hf2, hf1, afterFind]
  by_cases hrec : records = []
  · subst hrec
    simp [userBasicDao.mergeRecords]
  · have hl : records.length > 0 := List.length_pos.mpr hrec
    simp only [hl, hrec, if_true, if_false]
    split <;> rfl

theorem cacheGet_congr (c c2 : userBasicCache σ) (h : c2.cache.Get = c.cache.Get) :
    c2.Get = c.Get := by
  funext id w
  simp only [userBasicCache.Get, userBasicCache.GetUserBasicCacheKey, h]

theorem cacheMultiGet_congr (c c2 : userBasicCache σ) (h : c2.cache.MultiGet = c.cache.MultiGet) :
    c2.MultiGet = c.MultiGet := by
  funext ids w
  have hk : c2.GetUserBasicCacheKey = c.GetUserBasicCacheKey := rfl
  simp only [userBasicCache.MultiGet, hk, h]

theorem realMissedIDs_congr (c c2 : userBasicCache σ) (h : c2.cache.Get = c.cache.Get)
    (l : List Nat) (w : World σ) :
    userBasicDao.realMissedIDs c2 l w = userBasicDao.realMissedIDs c l w := by
  induction l generalizing w with
  | nil => rfl
  | cons id rest ih =>
    simp only [userBasicDao.realMissedIDs, cacheGet_congr c c2 h, ih,
      userBasicCache.IsPlaceholderErr]

theorem lookupIn_assignIn {κ ν : Type} [DecidableEq κ] (k j : κ) (v : ν) (l : List (κ × ν)) :
    GoMap.lookupIn j (GoMap.assignIn k v l) = if k = j then some v else GoMap.lookupIn j l := by
  induction l with
  | nil => simp [GoMap.assignIn, GoMap.lookupIn]
  | cons p rest ih =>
    obtain ⟨k1, v1⟩ := p
    by_cases h1 : k1 = k
    · subst h1
      by_cases h2 : k1 = j <;> simp [GoMap.assignIn, GoMap.lookupIn, h2]
    · by_cases h2 : k1 = j
      · subst h2
        have h3 : ¬ k = k1 := fun h => h1 h.symm
        simp [GoMap.assignIn, GoMap.lookupIn, h1, h3]
      · simp [GoMap.assignIn, GoMap.lookupIn, h1, h2, ih]

theorem GoMap.get?_set {κ ν : Type} [DecidableEq κ] (m : GoMap κ ν) (k j : κ) (v : ν) :
    (m.set k v).get? j = if k = j then some v else m.get? j := by
  simp [GoMap.get?, GoMap.set, lookupIn_assignIn]

theorem GoMap.contains_set {κ ν : Type} [DecidableEq κ] (m : GoMap κ ν) (k j : κ) (v : ν) :
    (m.set k v).contains j = (decide (k = j) || m.contains j) := by
  simp only [GoMap.contains, GoMap.get?_set]
  by_cases h : k = j <;> simp [h]

theorem GoMap.get?_empty {κ ν : Type} [DecidableEq κ] (j : κ) :
    (GoMap.empty : GoMap κ ν).get? j = none := rfl

/-- Keys outside the returned records keep the entry of the hit map. -/
theorem mergeRecords_get?_of_not_mem (records : List UserBasic) (m : GoMap Nat (Ptr UserBasic))
    (k : Nat) (hk : k ∉ records.map UserBasic.ID) :
    (userBasicDao.mergeRecords m records).get? k = m.get? k := by
  induction records generalizing m with
  | nil => rfl
  | cons r rs ih =>
    simp only [List.map_cons, List.mem_cons, not_or] at hk
    have : (userBasicDao.mergeRecords m (r :: rs))
        = userBasicDao.mergeRecords (m.set r.ID (some r)) rs := rfl
    have hne : ¬ r.ID = k := fun h => hk.1 h.symm
    rw [this, ih _ hk.2, GoMap.get?_set, if_neg hne]

/-- Every id of a returned record is a key of the merged map, bound to a returned record
of that id. -/
theorem mergeRecords_get?_of_mem (records : List UserBasic) (m : GoMap Nat (Ptr UserBasic))
    (k : Nat) (hk : k ∈ records.map UserBasic.ID) :
    ∃ r ∈ records, r.ID = k ∧ (userBasicDao.mergeRecords m records).get? k = some (some r) := by
  induction records generalizing m with
  | nil => simp at hk
  | cons r rs ih =>
    have hstep : (userBasicDao.mergeRecords m (r :: rs))
        = userBasicDao.mergeRecords (m.set r.ID (some r)) rs := rfl
    by_cases hrs : k ∈ rs.map UserBasic.ID
    · obtain ⟨r1, hr1, hid, hget⟩ := ih (m.set r.ID (some r)) hrs
      exact ⟨r1, List.mem_cons_of_mem _ hr1, hid, by rw [hstep, hget]⟩
    · have hkr : r.ID = k := by
        simp only [List.map_cons, List.mem_cons] at hk
        rcases hk with h | h
        · exact h.symm
        · exact absurd h hrs
      refine ⟨r, List.mem_cons_self _ _, hkr, ?_⟩
      rw [hstep, mergeRecords_get?_of_not_mem rs _ k hrs, GoMap.get?_set]
      simp [hkr]

theorem mergeRecords_contains (records : List UserBasic) (m : GoMap Nat (Ptr UserBasic))
    (k : Nat) :
    (userBasicDao.mergeRecords m records).contains k = true
      ↔ m.contains k = true ∨ k ∈ records.map UserBasic.ID := by
  by_cases hk : k ∈ records.map UserBasic.ID
  · obtain ⟨r, _, _, hget⟩ := mergeRecords_get?_of_mem records m k hk
    simp [GoMap.contains, hget, hk]
  · simp [GoMap.contains, mergeRecords_get?_of_not_mem records m k hk, hk]

theorem recordIDs_contains (records : List UserBasic) (k : Nat) :
    (userBasicDao.recordIDs records).contains k = decide (k ∈ records.map UserBasic.ID) := by
  have gen : ∀ (m : GoMap Nat Unit),
      (records.foldl (fun m record => m.set record.ID ()) m).contains k
        = (m.contains k || decide (k ∈ records.map UserBasic.ID)) := by
    induction records with
    | nil => intro m; simp
    | cons r rs ih =>
      intro m
      simp only [List.foldl_cons, ih, GoMap.contains_set, List.map_cons, List.mem_cons]
      by_cases h1 : r.ID = k
      · simp [h1]
      · have h2 : ¬ k = r.ID := fun h => h1 h.symm
        simp [h1, h2]
  simpa [userBasicDao.recordIDs, GoMap.contains, GoMap.get?_empty] using gen GoMap.empty

theorem realMissedIDs_log (c : userBasicCache σ) (l : List Nat) (w : World σ) :
    (userBasicDao.realMissedIDs c l w).2.log
      = w.log ++ l.map (fun id => Call.cacheGet (c.GetUserBasicCacheKey id)) := by
  induction l generalizing w with
  | nil => simp [userBasicDao.realMissedIDs]
  | cons id rest ih =>
    simp only [userBasicDao.realMissedIDs]
    split <;> simp [ih]

theorem realMissedIDs_sublist (c : userBasicCache σ) (l : List Nat) (w : World σ) :
    (userBasicDao.realMissedIDs c l w).1.Sublist l := by
  induction l generalizing w with
  | nil => simp [userBasicDao.realMissedIDs]
  | cons id rest ih =>
    simp only [userBasicDao.realMissedIDs]
    split
    · exact (ih _).cons _
    · exact (ih _).cons₂ _

/-- With a cache backend whose `Get` leaves the backend state alone, the probes of
`GetByIDs` keep exactly the ids whose probe does not report a placeholder. -/
theorem realMissedIDs_readonly (c : userBasicCache σ)
    (hro : ∀ key s, (c.cache.Get key s).2 = s) (l : List Nat) (w : World σ) :
    (userBasicDao.realMissedIDs c l w).1
        = l.filter (fun id => !c.IsPlaceholderErr (c.Get id w).1.2) ∧
    (userBasicDao.realMissedIDs c l w).2.st = w.st := by
  induction l generalizing w with
  | nil => simp [userBasicDao.realMissedIDs]
  | cons id rest ih =>
    have hst : (c.Get id w).2.st = w.st := by simp [hro]
    have hsame : ∀ j, (c.Get j (c.Get id w).2).1.2 = (c.Get j w).1.2 := by
      intro j
      rw [cacheGet_err, cacheGet_err, hst]
    obtain ⟨h1, h2⟩ := ih (c.Get id w).2
    rw [hst] at h2
    simp only [hsame] at h1
    simp only [userBasicDao.realMissedIDs]
    by_cases hph : c.IsPlaceholderErr (c.Get id w).1.2 = true
    · exact ⟨by simp [hph, h1, List.filter_cons], by simp only [hph, if_true, h2]⟩
    · exact ⟨by simp [hph, h1, List.filter_cons], by simp [hph, h2]⟩

theorem setPlaceholders_log (c : userBasicCache σ) (m : GoMap Nat Unit) (l : List Nat)
    (w : World σ) :
    (userBasicDao.setPlaceholders c m l w).log
      = w.log ++ (l.filter (fun id => !m.contains id)).map
          (fun id => Call.cacheSetCacheWithNotFound (c.GetUserBasicCacheKey id)) := by
  induction l generalizing w with
  | nil => simp [userBasicDao.setPlaceholders]
  | cons id rest ih =>
    simp only [userBasicDao.setPlaceholders]
    by_cases h : m.contains id = true
    · simp [h, ih]
    · simp [h, ih, List.filter_cons]

theorem afterFind_log (c : userBasicCache σ) (real : List Nat) (records : List UserBasic)
    (q : World σ) :
    (afterFind c real records q).log
      = q.log
        ++ (if records = [] then []
            else [Call.cacheMultiSet
              (records.foldl (fun m v => m.set (c.GetUserBasicCacheKey v.ID) v) GoMap.empty)
              UserBasicExpireTime])
        ++ (if records ≠ [] ∧ records.length = real.length then []
            else (real.filter (fun id => !(userBasicDao.recordIDs records).contains id)).map
              (fun id => Call.cacheSetCacheWithNotFound (c.GetUserBasicCacheKey id))) := by
  unfold afterFind
  by_cases hrec : records = []
  · simp [hrec, setPlaceholders_log]
  · by_cases hlen : records.length = real.length
    · simp [hrec, hlen]
    · simp [hrec, hlen, setPlaceholders_log]

theorem filter_isStorage_probes (f : Nat → String) (l : List Nat) :
    (l.map (fun id => Call.cacheGet (f id))).filter Call.isStorage = [] := by
  induction l with
  | nil => rfl
  | cons a rest ih => simp [List.filter_cons, Call.isStorage]

theorem filter_isStorage_placeholders (f : Nat → String) (l : List Nat) :
    (l.map (fun id => Call.cacheSetCacheWithNotFound (f id))).filter Call.isStorage = [] := by
  induction l with
  | nil => rfl
  | cons a rest ih => simp [List.filter_cons, Call.isStorage]

/-- The storage calls of `GetByIDs` on the cached path after a successful batch read:
one `Find` over the real misses, or none when there is no real miss. -/
theorem GetByIDs_storage_calls (db : GormDB σ) (c : userBasicCache σ) (ids : List Nat)
    (w : World σ) (hit : GoMap Nat (Ptr UserBasic)) (real : List Nat) (w2 : World σ)
    (hmg : (c.MultiGet ids w).1 = (some hit, none))
    (hp : userBasicDao.realMissedIDs c (userBasicDao.missedIDs hit ids) (c.MultiGet ids w).2
      = (real, w2)) :
    (((NewUserBasicDao db (some c)).GetByIDs ids w).2.log.drop w.log.length).filter
      Call.isStorage = if real = [] then [] else [Call.dbFind real] := by
  have hp1 : (userBasicDao.realMissedIDs c (userBasicDao.missedIDs hit ids)
      (c.MultiGet ids w).2).1 = real := by rw [hp]
  have hp2 : (userBasicDao.realMissedIDs c (userBasicDao.missedIDs hit ids)
      (c.MultiGet ids w).2).2 = w2 := by rw [hp]
  have hlog : w2.log = w.log ++ [Call.cacheMultiGet (ids.map c.GetUserBasicCacheKey)]
      ++ (userBasicDao.missedIDs hit ids).map
          (fun id => Call.cacheGet (c.GetUserBasicCacheKey id)) := by
    rw [← hp2, realMissedIDs_log, cacheMultiGet_log]
  by_cases hreal : real = []
  · rw [GetByIDs_no_real_miss db c ids w hit hmg (by rw [hp1]; exact hreal), hp2, hlog]
    simp [hreal, List.append_assoc, filter_isStorage_probes, Call.isStorage]
  · cases hf : (db.Find real w2.st).1.2 with
    | some err =>
      rw [GetByIDs_find_error db c ids w hit err hmg (by rw [hp1]; exact hreal)
        (by rw [hp1, hp2]; exact hf), hp1, hp2]
      simp [World.call, hlog, hreal, List.append_assoc, filter_isStorage_probes, Call.isStorage]
    | none =>
      have hfind : (db.Find real w2.st).1 = ((db.Find real w2.st).1.1, none) :=
        Prod.ext rfl hf
      rw [GetByIDs_find_ok db c ids w hit (db.Find real w2.st).1.1 hmg
        (by rw [hp1]; exact hreal) (by rw [hp1, hp2]; exact hfind), hp1, hp2, afterFind_log]
      simp only [World.call, hlog, List.append_assoc, List.drop_left, List.filter_append,
        filter_isStorage_probes, hreal, if_false]
      have e1 : List.filter Call.isStorage
          (if (db.Find real w2.st).1.1 = [] then []
            else [Call.cacheMultiSet
              ((db.Find real w2.st).1.1.foldl
                (fun m v => m.set (c.GetUserBasicCacheKey v.ID) v) GoMap.empty)
              UserBasicExpireTime]) = [] := by
        split <;> simp [Call.isStorage]
      have e2 : List.filter Call.isStorage
          (if (db.Find real w2.st).1.1 ≠ [] ∧ (db.Find real w2.st).1.1.length = real.length
            then []
            else (real.filter
                (fun id => !(userBasicDao.recordIDs (db.Find real w2.st).1.1).contains id)).map
              (fun id => Call.cacheSetCacheWithNotFound (c.GetUserBasicCacheKey id))) = [] := by
        split
        · rfl
        · exact filter_isStorage_placeholders _ _
      rw [e1, e2]
      simp [Call.isStorage]

theorem filter_isCacheWrite_probes (f : Nat → String) (l : List Nat) :
    (l.map (fun id => Call.cacheGet (f id))).filter Call.isCacheWrite = [] := by
  induction l with
  | nil => rfl
  | cons a rest ih => simp [List.filter_cons, Call.isCacheWrite]

theorem filter_isCacheWrite_placeholders (f : Nat → String) (l : List Nat) :
    (l.map (fun id => Call.cacheSetCacheWithNotFound (f id))).filter Call.isCacheWrite
      = l.map (fun id => Call.cacheSetCacheWithNotFound (f id)) := by
  induction l with
  | nil => rfl
  | cons a rest ih => simp [List.filter_cons, Call.isCacheWrite]

/-- When storage returns records with pairwise distinct ids drawn from the queried list and
as many records as ids were queried, every queried id has a record. -/
theorem all_returned_of_length_eq (real : List Nat) (records : List UserBasic)
    (hnodup : (records.map UserBasic.ID).Nodup)
    (hsub : ∀ r ∈ records, r.ID ∈ real)
    (hlen : records.length = real.length) :
    ∀ id ∈ real, id ∈ records.map UserBasic.ID := by
  have hss : records.map UserBasic.ID ⊆ real := by
    intro k hk
    obtain ⟨r, hr, rfl⟩ := List.mem_map.mp hk
    exact hsub r hr
  have hperm : (records.map UserBasic.ID).Perm real :=
    (List.subperm_of_subset hnodup hss).perm_of_length_le (by simp [hlen])
  intro id hid
  exact hperm.mem_iff.mpr hid

/-- The loop of `MultiGet` that re-keys the hits by id: an id is a key of the result
exactly when it was requested and the backend handed back a value under its cache key. -/
theorem multiGet_loop_get? (key : Nat → String) (itemMap : GoMap String (Ptr UserBasic))
    (ids : List Nat) (m0 : GoMap Nat (Ptr UserBasic)) (k : Nat) :
    (ids.foldl
        (fun m id =>
          match itemMap.get? (key id) with
          | some val => m.set id val
          | none => m) m0).get? k
      = if k ∈ ids then (itemMap.get? (key k)).orElse (fun _ => m0.get? k) else m0.get? k := by
  induction ids generalizing m0 with
  | nil => simp
  | cons id rest ih =>
    simp only [List.foldl_cons, ih, List.mem_cons]
    by_cases hk : k = id
    · subst hk
      cases hv : itemMap.get? (key k) with
      | none => simp [hv]
      | some val => simp [hv, GoMap.get?_set]
    · have hk2 : ¬ id = k := fun h => hk h.symm
      cases hv : itemMap.get? (key id) with
      | none => simp [hk]
      | some val => simp [hk, hk2, GoMap.get?_set]

/-- The keys of the hit map of a successful `MultiGet` are requested ids. -/
theorem multiGet_hit_mem (c : userBasicCache σ) (ids : List Nat) (w : World σ)
    (hit : GoMap Nat (Ptr UserBasic)) (hmg : (c.MultiGet ids w).1 = (some hit, none)) (k : Nat)
    (hk : hit.contains k = true) : k ∈ ids := by
  simp only [userBasicCache.MultiGet, World.call] at hmg
  split at hmg
  · simp at hmg
  · simp only [Prod.mk.injEq, Option.some.injEq, and_true] at hmg
    subst hmg
    simp only [GoMap.contains, multiGet_loop_get?] at hk
    by_contra hne
    simp [hne, GoMap.get?_empty] at hk

/-- The in-memory backend answers `Get` without changing its state. -/
theorem memCache_get_readonly (key : String) (s : MemState) :
    (memUserBasicCache.cache.Get key s).2 = s := by
  show (memCache.Get key s).2 = s
  simp only [memCache]
  repeat (first | rfl | split)

theorem digitVal_digitChar (k : Nat) (hk : k < 10) : digitVal (Nat.digitChar k) = k := by
  interval_cases k <;> rfl

theorem decimalValue_toDigitsCore (fuel n : Nat) (ds : List Char) (h : n < fuel) :
    decimalValue 0 (Nat.toDigitsCore 10 fuel n ds) = decimalValue n ds := by
  induction fuel generalizing n ds with
  | zero => omega
  | succ fuel ih =>
    simp only [Nat.toDigitsCore]
    have hmod : n % 10 < 10 := Nat.mod_lt _ (by decide)
    have hdv := digitVal_digitChar _ hmod
    split
    · rename_i h0
      have hn : n % 10 = n := by omega
      simp only [decimalValue, List.foldl_cons, hdv, Nat.zero_mul, Nat.zero_add]
      rw [hn]
    · rename_i h0
      have hlt : n / 10 < fuel := by omega
      rw [ih (n / 10) _ hlt]
      simp only [decimalValue, List.foldl_cons, hdv]
      congr 1
      omega

/-- The decimal string of an id determines the id. -/
theorem Uint64ToStr_injective (a b : Nat) (h : Uint64ToStr a = Uint64ToStr b) : a = b := by
  have hd : Nat.toDigits 10 a = Nat.toDigits 10 b := by
    have := congrArg String.data h
    simpa [Uint64ToStr, toString, Nat.repr, List.asString] using this
  have ha := decimalValue_toDigitsCore (a + 1) a [] (Nat.lt_succ_self a)
  have hb := decimalValue_toDigitsCore (b + 1) b [] (Nat.lt_succ_self b)
  simp only [decimalValue, List.foldl_nil] at ha hb
  unfold Nat.toDigits at hd
  rw [← ha, ← hb]
  simp only [decimalValue, hd]

/-- The cache key of an id determines the id. -/
theorem GetUserBasicCacheKey_injective (c : userBasicCache σ) (a b : Nat)
    (h : c.GetUserBasicCacheKey a = c.GetUserBasicCacheKey b) : a = b := by
  apply Uint64ToStr_injective
  have := congrArg String.data h
  simp only [userBasicCache.GetUserBasicCacheKey, String.data_append,
    List.append_cancel_left_eq] at this
  exact String.ext this

theorem valMap_get?_of_not_mem (key : Nat → String) (rs : List UserBasic)
    (m0 : GoMap String UserBasic) (k : String) (hk : ∀ v ∈ rs, key v.ID ≠ k) :
    (rs.foldl (fun m v => m.set (key v.ID) v) m0).get? k = m0.get? k := by
  induction rs generalizing m0 with
  | nil => rfl
  | cons r0 rest ih =>
    have h0 : key r0.ID ≠ k := hk r0 (List.mem_cons_self _ _)
    rw [List.foldl_cons, ih _ (fun v hv => hk v (List.mem_cons_of_mem _ hv)), GoMap.get?_set,
      if_neg h0]

/-- The batch handed to the backend by `MultiSet` binds the key of every record to that
record, when the ids of the records are pairwise distinct. -/
theorem valMap_get?_of_mem (c : userBasicCache σ) (rs : List UserBasic)
    (m0 : GoMap String UserBasic) (hnodup : (rs.map UserBasic.ID).Nodup) (r : UserBasic)
    (hr : r ∈ rs) :
    (rs.foldl (fun m v => m.set (c.GetUserBasicCacheKey v.ID) v) m0).get?
      (c.GetUserBasicCacheKey r.ID) = some r := by
  induction rs generalizing m0 with
  | nil => simp at hr
  | cons r0 rest ih =>
    simp only [List.map_cons, List.nodup_cons] at hnodup
    rcases List.mem_cons.mp hr with h | h
    · subst h
      rw [List.foldl_cons, valMap_get?_of_not_mem, GoMap.get?_set, if_pos rfl]
      intro v hv hkey
      have : v.ID = r.ID := GetUserBasicCacheKey_injective c _ _ hkey
      exact hnodup.1 (this ▸ List.mem_map_of_mem UserBasic.ID hv)
    · rw [List.foldl_cons]
      exact ih _ hnodup.2 h

theorem updateDataByID_log (d : userBasicDao σ) (db : GormDB σ) (table : UserBasic)
    (w : World σ) :
    (d.updateDataByID db table w).2.log = w.log ∨
    ∃ update, (d.updateDataByID db table w).2.log = w.log ++ [Call.dbUpdates table update] := by
  unfold userBasicDao.updateDataByID
  by_cases h : table.ID < 1
  · left
    simp [h]
  · right
    simp only [h, if_false, World.call]
    exact ⟨_, rfl⟩

theorem deleteCaches_log (db : GormDB σ) (c : userBasicCache σ) (ids : List Nat)
    (w : World σ) :
    ((NewUserBasicDao db (some c)).deleteCaches ids w).log
      = w.log ++ ids.map (fun id => Call.cacheDel (c.GetUserBasicCacheKey id)) := by
  induction ids generalizing w with
  | nil => simp [userBasicDao.deleteCaches]
  | cons id rest ih =>
    simp only [userBasicDao.deleteCaches, ih]
    simp [NewUserBasicDao, userBasicDao.deleteCache]

theorem filter_isCache_dels (f : Nat → String) (l : List Nat) :
    (l.map (fun id => Call.cacheDel (f id))).filter Call.isCache
      = l.map (fun id => Call.cacheDel (f id)) := by
  induction l with
  | nil => rfl
  | cons a rest ih => simp [List.filter_cons, Call.isCache]

theorem lookupIn_filter_ne {ν : Type} (key k : String) (l : List (String × ν)) :
    GoMap.lookupIn k (l.filter (fun kv => kv.1 ≠ key))
      = if k = key then none else GoMap.lookupIn k l := by
  induction l with
  | nil => simp [GoMap.lookupIn]
  | cons p rest ih =>
    obtain ⟨k1, v1⟩ := p
    by_cases h1 : k1 = key
    · have hf : List.filter (fun kv : String × ν => decide (kv.1 ≠ key)) ((k1, v1) :: rest)
          = List.filter (fun kv => decide (kv.1 ≠ key)) rest := by
        rw [List.filter_cons]
        simp [h1]
      rw [hf, ih]
      by_cases h2 : k = key
      · simp only [h2, if_true]
      · have h3 : ¬ k1 = k := fun h => h2 (h.symm.trans h1)
        simp only [h2, if_false, GoMap.lookupIn, h3]
    · have hf : List.filter (fun kv : String × ν => decide (kv.1 ≠ key)) ((k1, v1) :: rest)
          = (k1, v1) :: List.filter (fun kv => decide (kv.1 ≠ key)) rest := by
        rw [List.filter_cons]
        simp [h1]
      rw [hf]
      by_cases h2 : k1 = k
      · have h3 : ¬ k = key := fun h => h1 (h2.trans h)
        simp only [GoMap.lookupIn, h2, if_true, h3, if_false]
      · simp only [GoMap.lookupIn, h2, if_false, ih]

/-- The in-memory backend with working writes: `Del` erases the key and nothing else. -/
theorem memDel_st (id : Nat) (w : World MemState) (h : w.st.setErr = none) :
    (memUserBasicCache.Del id w).2.st
      = { w.st with entries :=
            ⟨w.st.entries.entries.filter
              (fun kv => kv.1 ≠ memUserBasicCache.GetUserBasicCacheKey id)⟩ } := by
  simp only [cacheDel_st]
  show (memCache.Del _ w.st).2 = _
  simp only [memCache, h]

theorem memDeleteCaches_st (ids : List Nat) (w : World MemState) (h : w.st.setErr = none) :
    (memDao.deleteCaches ids w).st.setErr = none ∧
    (memDao.deleteCaches ids w).st.rows = w.st.rows ∧
    (memDao.deleteCaches ids w).st.getErr = w.st.getErr ∧
    (memDao.deleteCaches ids w).st.dbErr = w.st.dbErr ∧
    ∀ k, (memDao.deleteCaches ids w).st.entries.get? k
      = if k ∈ ids.map memUserBasicCache.GetUserBasicCacheKey then none
        else w.st.entries.get? k := by
  induction ids generalizing w with
  | nil => simp [userBasicDao.deleteCaches, h]
  | cons id rest ih =>
    have hstep : memDao.deleteCaches (id :: rest) w
        = memDao.deleteCaches rest (memUserBasicCache.Del id w).2 := rfl
    have hst := memDel_st id w h
    have h2 : (memUserBasicCache.Del id w).2.st.setErr = none := by rw [hst]; exact h
    obtain ⟨i1, i2, i3, i4, i5⟩ := ih (memUserBasicCache.Del id w).2 h2
    rw [hstep]
    refine ⟨i1, by rw [i2, hst], by rw [i3, hst], by rw [i4, hst], ?_⟩
    intro k
    rw [i5 k, hst]
    simp only [GoMap.get?, lookupIn_filter_ne, List.map_cons, List.mem_cons]
    by_cases hk : k = memUserBasicCache.GetUserBasicCacheKey id
    · simp [hk]
    · by_cases hk2 : k ∈ rest.map memUserBasicCache.GetUserBasicCacheKey
      · simp [hk2]
      · simp [hk, hk2]

/-- The in-memory table leaves the cache entries and the fault switches alone. -/
theorem memDB_frame (s : MemState) :
    (∀ table update, (memDB.Updates table update s).2.entries = s.entries ∧
      (memDB.Updates table update s).2.setErr = s.setErr ∧
      (memDB.Updates table update s).2.getErr = s.getErr ∧
      (memDB.Updates table update s).2.dbErr = s.dbErr) ∧
    (∀ table, (memDB.Create table s).2.entries = s.entries ∧
      (memDB.Create table s).2.setErr = s.setErr ∧
      (memDB.Create table s).2.getErr = s.getErr ∧
      (memDB.Create table s).2.dbErr = s.dbErr) ∧
    (∀ id, (memDB.Delete id s).2.entries = s.entries ∧
      (memDB.Delete id s).2.setErr = s.setErr ∧
      (memDB.Delete id s).2.getErr = s.getErr ∧
      (memDB.Delete id s).2.dbErr = s.dbErr) ∧
    (∀ ids, (memDB.DeleteIn ids s).2.entries = s.entries ∧
      (memDB.DeleteIn ids s).2.setErr = s.setErr ∧
      (memDB.DeleteIn ids s).2.getErr = s.getErr ∧
      (memDB.DeleteIn ids s).2.dbErr = s.dbErr) ∧
    (∀ id update, (memDB.UpdatesWhereID id update s).2.entries = s.entries ∧
      (memDB.UpdatesWhereID id update s).2.setErr = s.setErr ∧
      (memDB.UpdatesWhereID id update s).2.getErr = s.getErr ∧
      (memDB.UpdatesWhereID id update s).2.dbErr = s.dbErr) := by
  refine ⟨?_, ?_, ?_, ?_, ?_⟩
  · intro table update
    simp only [memDB]
    split <;> simp
  · intro table
    simp only [memDB]
    split
    · simp
    · split
      · simp
      · split <;> simp
  · intro id
    simp only [memDB]
    split <;> simp
  · intro ids
    simp only [memDB]
    split <;> simp
  · intro id update
    simp only [memDB]
    split
    · simp
    · split <;> simp

theorem memUpdateDataByID_frame (db : GormDB MemState) (hdb : db = memDB) (table : UserBasic)
    (w : World MemState) :
    (memDao.updateDataByID db table w).2.st.entries = w.st.entries ∧
    (memDao.updateDataByID db table w).2.st.setErr = w.st.setErr := by
  subst hdb
  unfold userBasicDao.updateDataByID
  by_cases h : table.ID < 1
  · simp [h]
  · simp only [h, if_false, World.call]
    exact ⟨((memDB_frame w.st).1 _ _).1, ((memDB_frame w.st).1 _ _).2.1⟩

/-- A key made of a fixed namespace and the decimal string of an id determines the id. -/
theorem prefixed_key_injective (p : String) (a b : Nat)
    (h : p ++ Uint64ToStr a = p ++ Uint64ToStr b) : a = b := by
  apply Uint64ToStr_injective
  have := congrArg String.data h
  simp only [String.data_append, List.append_cancel_left_eq] at this
  exact String.ext this

/-- Reading the decimal string of an id as a number gives the id back. -/
theorem decimalValue_Uint64ToStr (id : Nat) : decimalValue 0 (Uint64ToStr id).data = id := by
  have h := decimalValue_toDigitsCore (id + 1) id [] (Nat.lt_succ_self id)
  simp only [decimalValue, List.foldl_nil] at h
  simpa [Uint64ToStr, toString, Nat.repr, List.asString, Nat.toDigits, decimalValue] using h

/-- The probe of the in-memory cache when reads work: the entry under the key decides. -/
theorem memGet_eq (id : Nat) (w : World MemState) (hg : w.st.getErr = none) :
    memUserBasicCache.Get id w
      = ((match w.st.entries.get? (memUserBasicCache.GetUserBasicCacheKey id) with
          | none => (none, some GoError.ErrCacheNotFound)
          | some MemEntry.placeholder => (none, some GoError.ErrPlaceholder)
          | some (MemEntry.value v) => (some v, none)),
         { st := w.st,
           log := w.log ++ [Call.cacheGet (memUserBasicCache.GetUserBasicCacheKey id)] }) := by
  have h1 : memUserBasicCache.cache.Get (memUserBasicCache.GetUserBasicCacheKey id) w.st
      = ((match w.st.entries.get? (memUserBasicCache.GetUserBasicCacheKey id) with
          | none => (none, some GoError.ErrCacheNotFound)
          | some MemEntry.placeholder => (none, some GoError.ErrPlaceholder)
          | some (MemEntry.value v) => (some v, none)), w.st) := by
    show memCache.Get _ w.st = _
    simp only [memCache, hg]
    cases w.st.entries.get? (memUserBasicCache.GetUserBasicCacheKey id) with
    | none => rfl
    | some e => cases e <;> rfl
  simp only [userBasicCache.Get, World.call, h1]
  cases w.st.entries.get? (memUserBasicCache.GetUserBasicCacheKey id) with
  | none => rfl
  | some e => cases e <;> rfl

/-- The point read of the in-memory table when queries work. -/
theorem memFirst_eq (id : Nat) (s : MemState) (hd : s.dbErr = none) :
    memDB.First id s
      = ((match visibleRow s.rows id with
          | some r => (r, none)
          | none => (UserBasic.zero, some GoError.ErrRecordNotFound)), s) := by
  simp only [memDB, hd, visibleRow]
  cases List.find? (fun r => decide (r.ID = id) && r.DeletedAt.isNone) s.rows <;> rfl

theorem memSet_eq (key : String) (v : UserBasic) (t : Nat) (s : MemState)
    (hs : s.setErr = none) :
    memUserBasicCache.cache.Set key v t s
      = (none, { s with entries := s.entries.set key (MemEntry.value v) }) := by
  show memCache.Set key v t s = _
  simp only [memCache, hs]

theorem memSetCacheWithNotFound_eq (key : String) (s : MemState) (hs : s.setErr = none) :
    memUserBasicCache.cache.SetCacheWithNotFound key s
      = (none, { s with entries := s.entries.set key MemEntry.placeholder }) := by
  show memCache.SetCacheWithNotFound key s = _
  simp only [memCache, hs]

theorem memMultiSet_eq (valMap : GoMap String UserBasic) (t : Nat) (s : MemState)
    (hs : s.setErr = none) :
    memUserBasicCache.cache.MultiSet valMap t s
      = (none, { s with entries :=
          valMap.entries.foldl (fun m kv => m.set kv.1 (MemEntry.value kv.2)) s.entries }) := by
  show memCache.MultiSet valMap t s = _
  simp only [memCache, hs]

theorem memGetByID_hit (id : Nat) (w : World MemState) (v : UserBasic)
    (hg : w.st.getErr = none)
    (he : w.st.entries.get? (memUserBasicCache.GetUserBasicCacheKey id)
      = some (MemEntry.value v)) :
    memDao.GetByID id w
      = ((some v, none),
         { st := w.st,
           log := w.log ++ [Call.cacheGet (memUserBasicCache.GetUserBasicCacheKey id)] }) := by
  simp only [memDao, NewUserBasicDao, userBasicDao.GetByID, memGet_eq id w hg, he]

theorem memGetByID_placeholder (id : Nat) (w : World MemState)
    (hg : w.st.getErr = none)
    (he : w.st.entries.get? (memUserBasicCache.GetUserBasicCacheKey id)
      = some MemEntry.placeholder) :
    memDao.GetByID id w
      = ((none, some GoError.ErrRecordNotFound),
         { st := w.st,
           log := w.log ++ [Call.cacheGet (memUserBasicCache.GetUserBasicCacheKey id)] }) := by
  simp only [memDao, NewUserBasicDao, userBasicDao.GetByID, memGet_eq id w hg, he]
  simp [errorsIs, userBasicCache.IsPlaceholderErr, errorsIsOpt]

theorem memGetByID_miss_found (id : Nat) (w : World MemState) (r : UserBasic)
    (hg : w.st.getErr = none) (hs : w.st.setErr = none) (hd : w.st.dbErr = none)
    (he : w.st.entries.get? (memUserBasicCache.GetUserBasicCacheKey id) = none)
    (hrow : visibleRow w.st.rows id = some r) (hid : id ≠ 0) :
    (memDao.GetByID id w).1 = (some r, none) ∧
    (memDao.GetByID id w).2.st
      = { w.st with entries :=
            w.st.entries.set (memUserBasicCache.GetUserBasicCacheKey id) (MemEntry.value r) } ∧
    (memDao.GetByID id w).2.log
      = w.log ++ [Call.cacheGet (memUserBasicCache.GetUserBasicCacheKey id),
          Call.sfgDo (Uint64ToStr id), Call.dbFirst id,
          Call.cacheSet (memUserBasicCache.GetUserBasicCacheKey id) r UserBasicExpireTime] := by
  simp only [memDao, NewUserBasicDao, userBasicDao.GetByID, memGet_eq id w hg, he, sfgDo,
    userBasicDao.fetchByID, World.call, memFirst_eq id w.st hd, hrow, userBasicCache.Set, hid,
    if_false, memSet_eq _ r _ w.st hs]
  simp [errorsIs]

theorem memGetByID_miss_absent (id : Nat) (w : World MemState)
    (hg : w.st.getErr = none) (hs : w.st.setErr = none) (hd : w.st.dbErr = none)
    (he : w.st.entries.get? (memUserBasicCache.GetUserBasicCacheKey id) = none)
    (hrow : visibleRow w.st.rows id = none) :
    (memDao.GetByID id w).1 = (none, some GoError.ErrRecordNotFound) ∧
    (memDao.GetByID id w).2.st
      = { w.st with entries :=
            w.st.entries.set (memUserBasicCache.GetUserBasicCacheKey id) MemEntry.placeholder } := by
  simp only [memDao, NewUserBasicDao, userBasicDao.GetByID, memGet_eq id w hg, he, sfgDo,
    userBasicDao.fetchByID, World.call, memFirst_eq id w.st hd, hrow,
    userBasicCache.SetPlaceholder, memSetCacheWithNotFound_eq _ w.st hs]
  simp [errorsIs]

theorem visibleRow_eq_none_of_not_mem (rows : List UserBasic) (id : Nat)
    (h : id ∉ rows.map UserBasic.ID) : visibleRow rows id = none := by
  simp only [visibleRow, List.find?_eq_none, Bool.and_eq_true, decide_eq_true_eq, not_and]
  intro x hx hxid
  exact absurd (hxid ▸ List.mem_map_of_mem UserBasic.ID hx) h

theorem visibleRow_append_new (rows : List UserBasic) (table : UserBasic)
    (h : table.ID ∉ rows.map UserBasic.ID) (hvis : table.DeletedAt = none) :
    visibleRow (rows ++ [table]) table.ID = some table := by
  have h0 := visibleRow_eq_none_of_not_mem rows table.ID h
  simp only [visibleRow] at h0 ⊢
  rw [List.find?_append, h0]
  simp [hvis]

/-- A row other than the one appended keeps its place. -/
theorem visibleRow_append_of_some (rows extra : List UserBasic) (id : Nat) (v : UserBasic)
    (h : visibleRow rows id = some v) : visibleRow (rows ++ extra) id = some v := by
  simp only [visibleRow] at h ⊢
  rw [List.find?_append, h]
  rfl

/-- A row map that keeps the ids and leaves the rows with id `id` alone keeps the record
the table holds for `id`. -/
theorem visibleRow_map_of_fixed (rows : List UserBasic) (f : UserBasic → UserBasic) (id : Nat)
    (hID : ∀ r, (f r).ID = r.ID) (hfix : ∀ r, r.ID = id → f r = r) :
    visibleRow (rows.map f) id = visibleRow rows id := by
  induction rows with
  | nil => rfl
  | cons r rest ih =>
    simp only [visibleRow, List.map_cons, List.find?_cons] at ih ⊢
    by_cases hr : r.ID = id
    · rw [hfix r hr, ih]
    · have hr2 : ¬ (f r).ID = id := by rw [hID]; exact hr
      simp only [hr, hr2, decide_False, Bool.false_and, ih]

theorem applyUpdate_ID (update : GoMap String GoValue) (r : UserBasic) :
    (applyUpdate update r).ID = r.ID ∧ (applyUpdate update r).DeletedAt = r.DeletedAt := by
  unfold applyUpdate
  constructor <;> (repeat' split) <;> rfl

/-- A row map that keeps id and deletion mark maps the record held for `id`. -/
theorem visibleRow_map_of_keeps (rows : List UserBasic) (f : UserBasic → UserBasic) (id : Nat)
    (hID : ∀ r, (f r).ID = r.ID) (hDel : ∀ r, (f r).DeletedAt = r.DeletedAt) :
    visibleRow (rows.map f) id = (visibleRow rows id).map f := by
  simp only [visibleRow, List.find?_map]
  have : ((fun r : UserBasic => decide (r.ID = id) && r.DeletedAt.isNone) ∘ f)
      = (fun r : UserBasic => decide (r.ID = id) && r.DeletedAt.isNone) := by
    funext r
    simp only [Function.comp, hID, hDel]
  rw [this]

theorem memCreate_eq (table : UserBasic) (s : MemState) (hd : s.dbErr = none)
    (hid : table.ID ≠ 0) (hnew : table.ID ∉ s.rows.map UserBasic.ID) :
    memDB.Create table s = ((table, none), { s with rows := s.rows ++ [table] }) := by
  simp only [memDB, hd, hid, hnew, if_false]

/-- The column update `updateDataByID` builds for a user record with id at least 1. -/
theorem updateDataByID_userBasic (db : GormDB σ) (d : userBasicDao σ) (table : UserBasic)
    (w : World σ) (hid : 1 ≤ table.ID) :
    ∃ update : GoMap String GoValue,
      d.updateDataByID db table w = w.call (Call.dbUpdates table update) (db.Updates table update) ∧
      update.get? "identity"
        = (if table.Identity = "" then none else some (GoValue.str table.Identity)) ∧
      update.get? "name" = (if table.Name = "" then none else some (GoValue.str table.Name)) ∧
      update.get? "password"
        = (if table.Password = "" then none else some (GoValue.str table.Password)) ∧
      update.get? "email" = (if table.Email = "" then none else some (GoValue.str table.Email)) ∧
      (∀ col, col ∉ ["identity", "name", "password", "email"] → update.get? col = none) := by
  have h1 : ¬ table.ID < 1 := Nat.not_lt.mpr hid
  refine ⟨_, by simp only [userBasicDao.updateDataByID, h1, if_false]; rfl, ?_, ?_, ?_, ?_, ?_⟩
  · by_cases a : table.Identity = "" <;> by_cases b : table.Name = "" <;>
      by_cases c : table.Password = "" <;> by_cases e : table.Email = "" <;>
      simp [a, b, c, e, GoMap.get?_set, GoMap.get?_empty]
  · by_cases a : table.Identity = "" <;> by_cases b : table.Name = "" <;>
      by_cases c : table.Password = "" <;> by_cases e : table.Email = "" <;>
      simp [a, b, c, e, GoMap.get?_set, GoMap.get?_empty]
  · by_cases a : table.Identity = "" <;> by_cases b : table.Name = "" <;>
      by_cases c : table.Password = "" <;> by_cases e : table.Email = "" <;>
      simp [a, b, c, e, GoMap.get?_set, GoMap.get?_empty]
  · by_cases a : table.Identity = "" <;> by_cases b : table.Name = "" <;>
      by_cases c : table.Password = "" <;> by_cases e : table.Email = "" <;>
      simp [a, b, c, e, GoMap.get?_set, GoMap.get?_empty]
  · intro col hcol
    simp only [List.mem_cons, List.mem_singleton, List.not_mem_nil, or_false, not_or] at hcol
    obtain ⟨c1, c2, c3, c4⟩ := hcol
    have e1 : ¬ "identity" = col := fun h => c1 h.symm
    have e2 : ¬ "name" = col := fun h => c2 h.symm
    have e3 : ¬ "password" = col := fun h => c3 h.symm
    have e4 : ¬ "email" = col := fun h => c4 h.symm
    by_cases a : table.Identity = "" <;> by_cases b : table.Name = "" <;>
      by_cases c : table.Password = "" <;> by_cases e : table.Email = "" <;>
      simp [a, b, c, e, GoMap.get?_set, GoMap.get?_empty, e1, e2, e3, e4]

/-- The fields of a row after the sparse update built from `table` was applied. -/
theorem applyUpdate_fields (update : GoMap String GoValue) (table r : UserBasic)
    (h1 : update.get? "identity"
      = (if table.Identity = "" then none else some (GoValue.str table.Identity)))
    (h2 : update.get? "name" = (if table.Name = "" then none else some (GoValue.str table.Name)))
    (h3 : update.get? "password"
      = (if table.Password = "" then none else some (GoValue.str table.Password)))
    (h4 : update.get? "email"
      = (if table.Email = "" then none else some (GoValue.str table.Email))) :
    (applyUpdate update r).Identity = (if table.Identity = "" then r.Identity else table.Identity) ∧
    (applyUpdate update r).Name = (if table.Name = "" then r.Name else table.Name) ∧
    (applyUpdate update r).Password = (if table.Password = "" then r.Password else table.Password) ∧
    (applyUpdate update r).Email = (if table.Email = "" then r.Email else table.Email) := by
  unfold applyUpdate
  rw [h1, h2, h3, h4]
  by_cases a : table.Identity = "" <;> by_cases b : table.Name = "" <;>
    by_cases c : table.Password = "" <;> by_cases e : table.Email = "" <;>
    simp [a, b, c, e]

theorem memFirst_cases (id : Nat) (s : MemState) :
    (memDB.First id s).2 = s ∧
    ((memDB.First id s).1.2 = none → visibleRow s.rows id = some (memDB.First id s).1.1) := by
  simp only [memDB, visibleRow]
  cases s.dbErr with
  | some e => simp
  | none =>
    cases h : List.find? (fun r => decide (r.ID = id) && r.DeletedAt.isNone) s.rows with
    | none => simp
    | some r => simp

/-- What `GetByID` does to the in-memory environment when cache writes work: the table and
the switches are kept, and the cache is kept, or gets a placeholder under the key of the
id, or gets the record the table holds for the id under that key. -/
theorem memGetByID_effect (id : Nat) (w : World MemState) (hs : w.st.setErr = none) :
    (memDao.GetByID id w).2.st.rows = w.st.rows ∧
    (memDao.GetByID id w).2.st.getErr = w.st.getErr ∧
    (memDao.GetByID id w).2.st.setErr = w.st.setErr ∧
    (memDao.GetByID id w).2.st.dbErr = w.st.dbErr ∧
    ((memDao.GetByID id w).2.st.entries = w.st.entries ∨
      (memDao.GetByID id w).2.st.entries
        = w.st.entries.set (memUserBasicCache.GetUserBasicCacheKey id) MemEntry.placeholder ∨
      ∃ r, visibleRow w.st.rows id = some r ∧
        (memDao.GetByID id w).2.st.entries
          = w.st.entries.set (memUserBasicCache.GetUserBasicCacheKey id) (MemEntry.value r)) := by
  have hgst : (memUserBasicCache.Get id w).2.st = w.st := by
    rw [cacheGet_st, memCache_get_readonly]
  cases hg : (memUserBasicCache.Get id w).1.2 with
  | none =>
    have : (memDao.GetByID id w).2 = (memUserBasicCache.Get id w).2 := by
      simp only [memDao, NewUserBasicDao, userBasicDao.GetByID, hg]
    rw [this, hgst]
    exact ⟨rfl, rfl, rfl, rfl, Or.inl rfl⟩
  | some err =>
    by_cases hnf : errorsIs err GoError.ErrCacheNotFound = true
    · have hf := memFirst_cases id w.st
      cases hfe : (memDB.First id w.st).1.2 with
      | some e =>
        by_cases hr : errorsIs e GoError.ErrRecordNotFound = true
        · have : (memDao.GetByID id w).2.st
              = { w.st with entries := (w.st.entries.set
                    (memUserBasicCache.GetUserBasicCacheKey id) MemEntry.placeholder) } := by
            simp only [memDao, NewUserBasicDao, userBasicDao.GetByID, hg, hnf, if_true, sfgDo,
              userBasicDao.fetchByID, World.call, hgst, hfe, hr, userBasicCache.SetPlaceholder,
              hf.1, memSetCacheWithNotFound_eq _ w.st hs]
          rw [this]
          exact ⟨rfl, rfl, rfl, rfl, Or.inr (Or.inl rfl)⟩
        · have : (memDao.GetByID id w).2.st = w.st := by
            simp only [memDao, NewUserBasicDao, userBasicDao.GetByID, hg, hnf, if_true, sfgDo,
              userBasicDao.fetchByID, World.call, hgst, hfe, hr, hf.1]
            simp
          rw [this]
          exact ⟨rfl, rfl, rfl, rfl, Or.inl rfl⟩
      | none =>
        have hrow := hf.2 hfe
        by_cases hid : id = 0
        · subst hid
          have : (memDao.GetByID 0 w).2.st = w.st := by
            simp only [memDao, NewUserBasicDao, userBasicDao.GetByID, hg, hnf, if_true, sfgDo,
              userBasicDao.fetchByID, World.call, hgst, hfe, hf.1, userBasicCache.Set]
          rw [this]
          exact ⟨rfl, rfl, rfl, rfl, Or.inl rfl⟩
        · have : (memDao.GetByID id w).2.st
              = { w.st with entries := (w.st.entries.set
                    (memUserBasicCache.GetUserBasicCacheKey id)
                    (MemEntry.value (memDB.First id w.st).1.1)) } := by
            simp only [memDao, NewUserBasicDao, userBasicDao.GetByID, hg, hnf, if_true, sfgDo,
              userBasicDao.fetchByID, World.call, hgst, hfe, hf.1, userBasicCache.Set, hid,
              if_false, memSet_eq _ _ _ w.st hs]
          rw [this]
          exact ⟨rfl, rfl, rfl, rfl, Or.inr (Or.inr ⟨_, hrow, rfl⟩)⟩
    · have : (memDao.GetByID id w).2 = (memUserBasicCache.Get id w).2 := by
        simp only [memDao, NewUserBasicDao, userBasicDao.GetByID, hg, hnf, Bool.false_eq_true,
          if_false]
        split <;> rfl
      rw [this, hgst]
      exact ⟨rfl, rfl, rfl, rfl, Or.inl rfl⟩

theorem memUpdates_eq (table : UserBasic) (update : GoMap String GoValue) (s : MemState)
    (hd : s.dbErr = none) :
    memDB.Updates table update s
      = (none, { s with rows := patchRows update table.ID s.rows }) := by
  simp only [memDB, hd]

/-- A successful `UpdateByID` on the in-memory environment: the sparse update is applied to
the visible row of the id and the cache key of the id is erased. -/
theorem memUpdateByID_eq (table : UserBasic) (w : World MemState)
    (hs : w.st.setErr = none) (hd : w.st.dbErr = none) (hid : 1 ≤ table.ID) :
    ∃ update : GoMap String GoValue,
      update.get? "identity"
        = (if table.Identity = "" then none else some (GoValue.str table.Identity)) ∧
      update.get? "name" = (if table.Name = "" then none else some (GoValue.str table.Name)) ∧
      update.get? "password"
        = (if table.Password = "" then none else some (GoValue.str table.Password)) ∧
      update.get? "email" = (if table.Email = "" then none else some (GoValue.str table.Email)) ∧
      (memDao.UpdateByID table w).1 = none ∧
      (memDao.UpdateByID table w).2.st.rows = patchRows update table.ID w.st.rows ∧
      (memDao.UpdateByID table w).2.st.entries
        = ⟨w.st.entries.entries.filter
            (fun kv => kv.1 ≠ memUserBasicCache.GetUserBasicCacheKey table.ID)⟩ ∧
      (memDao.UpdateByID table w).2.st.getErr = w.st.getErr ∧
      (memDao.UpdateByID table w).2.st.setErr = w.st.setErr ∧
      (memDao.UpdateByID table w).2.st.dbErr = w.st.dbErr := by
  obtain ⟨u, hu, f1, f2, f3, f4, _⟩ := updateDataByID_userBasic memDB memDao table w hid
  refine ⟨u, f1, f2, f3, f4, ?_⟩
  have hdb : memDao.db = memDB := rfl
  have hdc : ∀ v : World MemState, memDao.deleteCache table.ID v
      = memUserBasicCache.Del table.ID v := fun _ => rfl
  have hw : (memDao.updateDataByID memDB table w)
      = (none, { st := { w.st with rows := patchRows u table.ID w.st.rows },
                 log := w.log ++ [Call.dbUpdates table u] }) := by
    rw [hu]
    simp only [World.call, memUpdates_eq table u w.st hd]
  simp only [userBasicDao.UpdateByID, hdb, hw, hdc]
  have hst := memDel_st table.ID
    { st := { w.st with rows := patchRows u table.ID w.st.rows },
      log := w.log ++ [Call.dbUpdates table u] } hs
  rw [hst]
  exact ⟨trivial, rfl, rfl, rfl, rfl, rfl⟩

theorem Coherent_set_placeholder (rows : List UserBasic) (m : GoMap String MemEntry)
    (key : String) (h : Coherent rows m) : Coherent rows (m.set key MemEntry.placeholder) := by
  intro id v hv
  rw [GoMap.get?_set] at hv
  by_cases hk : key = memUserBasicCache.GetUserBasicCacheKey id
  · simp [hk] at hv
  · simp only [hk, if_false] at hv
    exact h id v hv

theorem Coherent_set_value (rows : List UserBasic) (m : GoMap String MemEntry)
    (id : Nat) (r : UserBasic) (hr : visibleRow rows id = some r) (h : Coherent rows m) :
    Coherent rows (m.set (memUserBasicCache.GetUserBasicCacheKey id) (MemEntry.value r)) := by
  intro id2 v hv
  rw [GoMap.get?_set] at hv
  by_cases hk : memUserBasicCache.GetUserBasicCacheKey id
      = memUserBasicCache.GetUserBasicCacheKey id2
  · have hid := GetUserBasicCacheKey_injective memUserBasicCache id id2 hk
    subst hid
    simp only [if_true, Option.some.injEq, MemEntry.value.injEq] at hv
    rw [← hv]
    exact hr
  · simp only [hk, if_false] at hv
    exact h id2 v hv

theorem Coherent_of_CacheFill (rows : List UserBasic) (m m2 : GoMap String MemEntry)
    (hf : CacheFill rows m m2) (h : Coherent rows m) : Coherent rows m2 := by
  induction hf with
  | refl => exact h
  | placeholder m2 key _ ih => exact Coherent_set_placeholder rows m2 key ih
  | value m2 id r _ hr ih => exact Coherent_set_value rows m2 id r hr ih

theorem CacheFill_trans (rows : List UserBasic) (m m2 m3 : GoMap String MemEntry)
    (h1 : CacheFill rows m m2) (h2 : CacheFill rows m2 m3) : CacheFill rows m m3 := by
  induction h2 with
  | refl => exact h1
  | placeholder m3 key _ ih => exact CacheFill.placeholder m m3 key ih
  | value m3 id r _ hr ih => exact CacheFill.value m m3 id r ih hr

/-- In a table with pairwise distinct ids a visible row is the record held for its id. -/
theorem visibleRow_of_mem_nodup (rows : List UserBasic) (r : UserBasic)
    (hnodup : (rows.map UserBasic.ID).Nodup) (hr : r ∈ rows) (hvis : r.DeletedAt = none) :
    visibleRow rows r.ID = some r := by
  induction rows with
  | nil => simp at hr
  | cons x rest ih =>
    simp only [List.map_cons, List.nodup_cons] at hnodup
    simp only [visibleRow, List.find?_cons]
    rcases List.mem_cons.mp hr with h | h
    · subst h
      simp [hvis]
    · have hne : ¬ x.ID = r.ID := by
        intro hx
        exact hnodup.1 (hx ▸ List.mem_map_of_mem UserBasic.ID h)
      simp only [hne, decide_False, Bool.false_and]
      exact ih hnodup.2 h

theorem Fills_of_st_eq (w w2 : World MemState) (h : w2.st = w.st) : Fills w w2 := by
  unfold Fills
  rw [h]
  exact ⟨rfl, rfl, CacheFill.refl _⟩

theorem Fills_trans (w w2 w3 : World MemState) (h1 : Fills w w2) (h2 : Fills w2 w3) :
    Fills w w3 := by
  obtain ⟨a1, a2, a3⟩ := h1
  obtain ⟨b1, b2, b3⟩ := h2
  refine ⟨b1.trans a1, b2.trans a2, ?_⟩
  rw [a1] at b3
  exact CacheFill_trans _ _ _ _ a3 b3

theorem cacheMultiGet_some (c : userBasicCache σ) (ids : List Nat) (w : World σ)
    (h : (c.MultiGet ids w).1.2 = none) :
    ∃ hit, (c.MultiGet ids w).1 = (some hit, none) := by
  simp only [userBasicCache.MultiGet, World.call] at h ⊢
  split
  · rename_i err herr
    simp [herr] at h
  · exact ⟨_, rfl⟩

theorem memMultiGet_st (ids : List Nat) (w : World MemState) :
    (memUserBasicCache.MultiGet ids w).2.st = w.st := by
  rw [cacheMultiGet_st]
  show (memCache.MultiGet _ w.st).2 = w.st
  simp only [memCache]
  split <;> rfl

theorem memFind_cases (ids : List Nat) (s : MemState) :
    (memDB.Find ids s).2 = s ∧
    ((memDB.Find ids s).1.2 = none →
      (memDB.Find ids s).1.1
        = s.rows.filter (fun r => decide (r.ID ∈ ids) && r.DeletedAt.isNone)) := by
  simp only [memDB]
  cases s.dbErr <;> simp

theorem memSetPlaceholders_fills (m : GoMap Nat Unit) (l : List Nat) (w : World MemState)
    (hs : w.st.setErr = none) :
    Fills w (userBasicDao.setPlaceholders memUserBasicCache m l w) := by
  induction l generalizing w with
  | nil => exact Fills_of_st_eq _ _ rfl
  | cons id rest ih =>
    simp only [userBasicDao.setPlaceholders]
    split
    · exact ih w hs
    · have hst : (memUserBasicCache.SetPlaceholder id w).2.st
          = { w.st with entries := (w.st.entries.set
                (memUserBasicCache.GetUserBasicCacheKey id) MemEntry.placeholder) } := by
        simp only [cacheSetPlaceholder_st, memSetCacheWithNotFound_eq _ w.st hs]
      have h1 : Fills w (memUserBasicCache.SetPlaceholder id w).2 := by
        unfold Fills
        rw [hst]
        exact ⟨rfl, rfl, CacheFill.placeholder _ _ _ (CacheFill.refl _)⟩
      exact Fills_trans _ _ _ h1 (ih _ (by rw [hst]; exact hs))

theorem mem_assignIn {κ ν : Type} [DecidableEq κ] (k : κ) (v : ν) (l : List (κ × ν))
    (kv : κ × ν) (h : kv ∈ GoMap.assignIn k v l) : kv = (k, v) ∨ kv ∈ l := by
  induction l with
  | nil =>
    simp only [GoMap.assignIn, List.mem_singleton] at h
    exact Or.inl h
  | cons p rest ih =>
    obtain ⟨k1, v1⟩ := p
    simp only [GoMap.assignIn] at h
    split at h
    · rcases List.mem_cons.mp h with h | h
      · exact Or.inl h
      · exact Or.inr (List.mem_cons_of_mem _ h)
    · rcases List.mem_cons.mp h with h | h
      · exact Or.inr (h ▸ List.mem_cons_self _ _)
      · rcases ih h with h | h
        · exact Or.inl h
        · exact Or.inr (List.mem_cons_of_mem _ h)

/-- Every binding of the batch `MultiSet` builds binds the key of a record to that record. -/
theorem valMap_entries (key : Nat → String) (records : List UserBasic)
    (m0 : GoMap String UserBasic) (P : String × UserBasic → Prop)
    (h0 : ∀ kv ∈ m0.entries, P kv) (hP : ∀ r ∈ records, P (key r.ID, r)) :
    ∀ kv ∈ (records.foldl (fun m v => m.set (key v.ID) v) m0).entries, P kv := by
  induction records generalizing m0 with
  | nil => exact h0
  | cons r rest ih =>
    rw [List.foldl_cons]
    apply ih
    · intro kv hkv
      rcases mem_assignIn _ _ _ kv hkv with h | h
      · rw [h]
        exact hP r (List.mem_cons_self _ _)
      · exact h0 kv h
    · intro r2 hr2
      exact hP r2 (List.mem_cons_of_mem _ hr2)

theorem memMultiSet_fills (records : List UserBasic) (t : Nat) (w : World MemState)
    (hs : w.st.setErr = none)
    (hrec : ∀ r ∈ records, visibleRow w.st.rows r.ID = some r) :
    Fills w (memUserBasicCache.MultiSet records t w).2 := by
  have hst : (memUserBasicCache.MultiSet records t w).2.st
      = { w.st with entries :=
            ((records.foldl
                (fun m v => m.set (memUserBasicCache.GetUserBasicCacheKey v.ID) v)
                GoMap.empty).entries.foldl
              (fun m kv => m.set kv.1 (MemEntry.value kv.2)) w.st.entries) } := by
    rw [cacheMultiSet_st, memMultiSet_eq _ _ w.st hs]
  have hall := valMap_entries memUserBasicCache.GetUserBasicCacheKey records GoMap.empty
    (fun kv => kv.1 = memUserBasicCache.GetUserBasicCacheKey kv.2.ID ∧
      visibleRow w.st.rows kv.2.ID = some kv.2)
    (by intro kv hkv; simp [GoMap.empty] at hkv)
    (fun r hr => ⟨rfl, hrec r hr⟩)
  have gen : ∀ (l : List (String × UserBasic)) (m : GoMap String MemEntry),
      (∀ kv ∈ l, kv.1 = memUserBasicCache.GetUserBasicCacheKey kv.2.ID ∧
        visibleRow w.st.rows kv.2.ID = some kv.2) →
      CacheFill w.st.rows w.st.entries m →
      CacheFill w.st.rows w.st.entries
        (l.foldl (fun m kv => m.set kv.1 (MemEntry.value kv.2)) m) := by
    intro l
    induction l with
    | nil => intro m _ hm; exact hm
    | cons kv rest ih =>
      intro m hl hm
      rw [List.foldl_cons]
      apply ih _ (fun x hx => hl x (List.mem_cons_of_mem _ hx))
      obtain ⟨hk, hv⟩ := hl kv (List.mem_cons_self _ _)
      rw [hk]
      exact CacheFill.value _ _ _ _ hm hv
  unfold Fills
  rw [hst]
  exact ⟨rfl, rfl, gen _ _ hall (CacheFill.refl _)⟩

theorem memAfterFind_fills (real : List Nat) (records : List UserBasic) (q : World MemState)
    (hs : q.st.setErr = none)
    (hrec : ∀ r ∈ records, visibleRow q.st.rows r.ID = some r) :
    Fills q (afterFind memUserBasicCache real records q) := by
  unfold afterFind
  have hms := memMultiSet_fills records UserBasicExpireTime q hs hrec
  have hs2 : (memUserBasicCache.MultiSet records UserBasicExpireTime q).2.st.setErr = none := by
    rw [hms.2.1, hs]
  split
  · exact memSetPlaceholders_fills _ _ _ hs
  · split
    · exact hms
    · exact Fills_trans _ _ _ hms (memSetPlaceholders_fills _ _ _ hs2)

/-- What `GetByIDs` does to the in-memory environment when cache writes work and the ids of
the table are pairwise distinct: the table is kept and the cache gets placeholders and
records the table holds. -/
theorem memGetByIDs_fills (ids : List Nat) (w : World MemState) (hs : w.st.setErr = none)
    (hnodup : (w.st.rows.map UserBasic.ID).Nodup) :
    Fills w (memDao.GetByIDs ids w).2 := by
  unfold memDao
  have hmst := memMultiGet_st ids w
  cases hmg : (memUserBasicCache.MultiGet ids w).1.2 with
  | some err =>
    rw [GetByIDs_multiGet_error memDB memUserBasicCache ids w err hmg]
    exact Fills_of_st_eq _ _ hmst
  | none =>
    obtain ⟨hit, hhit⟩ := cacheMultiGet_some memUserBasicCache ids w hmg
    have hpst : (userBasicDao.realMissedIDs memUserBasicCache (userBasicDao.missedIDs hit ids)
        (memUserBasicCache.MultiGet ids w).2).2.st = w.st :=
      (realMissedIDs_readonly memUserBasicCache memCache_get_readonly _ _).2.trans hmst
    by_cases hreal : (userBasicDao.realMissedIDs memUserBasicCache
        (userBasicDao.missedIDs hit ids) (memUserBasicCache.MultiGet ids w).2).1 = []
    · rw [GetByIDs_no_real_miss memDB memUserBasicCache ids w hit hhit hreal]
      exact Fills_of_st_eq _ _ hpst
    · have hfc := memFind_cases
        (userBasicDao.realMissedIDs memUserBasicCache (userBasicDao.missedIDs hit ids)
          (memUserBasicCache.MultiGet ids w).2).1
        (userBasicDao.realMissedIDs memUserBasicCache (userBasicDao.missedIDs hit ids)
          (memUserBasicCache.MultiGet ids w).2).2.st
      have hqst : ((userBasicDao.realMissedIDs memUserBasicCache (userBasicDao.missedIDs hit ids)
            (memUserBasicCache.MultiGet ids w).2).2.call
          (Call.dbFind (userBasicDao.realMissedIDs memUserBasicCache
            (userBasicDao.missedIDs hit ids) (memUserBasicCache.MultiGet ids w).2).1)
          (memDB.Find (userBasicDao.realMissedIDs memUserBasicCache
            (userBasicDao.missedIDs hit ids) (memUserBasicCache.MultiGet ids w).2).1)).2.st
          = w.st := by
        simp only [World.call]
        rw [hfc.1, hpst]
      cases hfe : (memDB.Find
          (userBasicDao.realMissedIDs memUserBasicCache (userBasicDao.missedIDs hit ids)
            (memUserBasicCache.MultiGet ids w).2).1
          (userBasicDao.realMissedIDs memUserBasicCache (userBasicDao.missedIDs hit ids)
            (memUserBasicCache.MultiGet ids w).2).2.st).1.2 with
      | some err =>
        rw [GetByIDs_find_error memDB memUserBasicCache ids w hit err hhit hreal hfe]
        exact Fills_of_st_eq _ _ hqst
      | none =>
        have hrecs := hfc.2 hfe
        rw [GetByIDs_find_ok memDB memUserBasicCache ids w hit _ hhit hreal (Prod.ext rfl hfe)]
        refine Fills_trans _ _ _ (Fills_of_st_eq _ _ hqst) (memAfterFind_fills _ _ _ ?_ ?_)
        · rw [hqst]
          exact hs
        · intro r hr
          rw [hqst]
          have hr2 : r ∈ (memDB.Find
              (userBasicDao.realMissedIDs memUserBasicCache (userBasicDao.missedIDs hit ids)
                (memUserBasicCache.MultiGet ids w).2).1
              (userBasicDao.realMissedIDs memUserBasicCache (userBasicDao.missedIDs hit ids)
                (memUserBasicCache.MultiGet ids w).2).2.st).1.1 := hr
          rw [hrecs, hpst] at hr2
          obtain ⟨hmem, hp⟩ := List.mem_filter.mp hr2
          simp only [Bool.and_eq_true, decide_eq_true_eq, Option.isNone_iff_eq_none] at hp
          exact visibleRow_of_mem_nodup w.st.rows r hnodup hmem hp.2

theorem Inv_of_Fills (w w2 : World MemState) (h : Inv w) (hf : Fills w w2) : Inv w2 := by
  obtain ⟨h2, h3⟩ := h
  obtain ⟨f1, _, f3⟩ := hf
  refine ⟨by rw [f1]; exact h2, ?_⟩
  rw [f1]
  exact Coherent_of_CacheFill _ _ _ f3 h3

/-- The in-memory backend refuses a `Set` while cache writes fail and keeps its state. -/
theorem memSet_fail (key : String) (v : UserBasic) (t : Nat) (s : MemState) (e : GoError)
    (hs : s.setErr = some e) : memUserBasicCache.cache.Set key v t s = (some e, s) := by
  show memCache.Set key v t s = _
  simp only [memCache, hs]

/-- The in-memory backend refuses a placeholder while cache writes fail and keeps its
state. -/
theorem memSetCacheWithNotFound_fail (key : String) (s : MemState) (e : GoError)
    (hs : s.setErr = some e) :
    memUserBasicCache.cache.SetCacheWithNotFound key s = (some e, s) := by
  show memCache.SetCacheWithNotFound key s = _
  simp only [memCache, hs]

/-- The in-memory backend refuses a batch while cache writes fail and keeps its state. -/
theorem memMultiSet_fail (valMap : GoMap String UserBasic) (t : Nat) (s : MemState)
    (e : GoError) (hs : s.setErr = some e) :
    memUserBasicCache.cache.MultiSet valMap t s = (some e, s) := by
  show memCache.MultiSet valMap t s = _
  simp only [memCache, hs]

/-- The in-memory backend refuses a `Del` while cache writes fail and keeps its state. -/
theorem memDel_fail (key : String) (s : MemState) (e : GoError) (hs : s.setErr = some e) :
    memUserBasicCache.cache.Del key s = (some e, s) := by
  show memCache.Del key s = _
  simp only [memCache, hs]

/-- While cache writes fail `GetByID` leaves the in-memory environment as it is. -/
theorem memGetByID_st_writeFail (id : Nat) (w : World MemState) (e : GoError)
    (hs : w.st.setErr = some e) : (memDao.GetByID id w).2.st = w.st := by
  have hgst : (memUserBasicCache.Get id w).2.st = w.st := by
    rw [cacheGet_st, memCache_get_readonly]
  cases hg : (memUserBasicCache.Get id w).1.2 with
  | none =>
    have : (memDao.GetByID id w).2 = (memUserBasicCache.Get id w).2 := by
      simp only [memDao, NewUserBasicDao, userBasicDao.GetByID, hg]
    rw [this, hgst]
  | some err =>
    by_cases hnf : errorsIs err GoError.ErrCacheNotFound = true
    · have hf := memFirst_cases id w.st
      cases hfe : (memDB.First id w.st).1.2 with
      | some e2 =>
        by_cases hr : errorsIs e2 GoError.ErrRecordNotFound = true
        · simp only [memDao, NewUserBasicDao, userBasicDao.GetByID, hg, hnf, if_true, sfgDo,
            userBasicDao.fetchByID, World.call, hgst, hfe, hr, userBasicCache.SetPlaceholder,
            hf.1, memSetCacheWithNotFound_fail _ w.st e hs]
        · simp only [memDao, NewUserBasicDao, userBasicDao.GetByID, hg, hnf, if_true, sfgDo,
            userBasicDao.fetchByID, World.call, hgst, hfe, hr, hf.1]
          simp
      | none =>
        by_cases hid : id = 0
        · subst hid
          simp only [memDao, NewUserBasicDao, userBasicDao.GetByID, hg, hnf, if_true, sfgDo,
            userBasicDao.fetchByID, World.call, hgst, hfe, hf.1, userBasicCache.Set]
        · simp only [memDao, NewUserBasicDao, userBasicDao.GetByID, hg, hnf, if_true, sfgDo,
            userBasicDao.fetchByID, World.call, hgst, hfe, hf.1, userBasicCache.Set, hid,
            if_false, memSet_fail _ _ _ w.st e hs]
    · have : (memDao.GetByID id w).2 = (memUserBasicCache.Get id w).2 := by
        simp only [memDao, NewUserBasicDao, userBasicDao.GetByID, hg, hnf, Bool.false_eq_true,
          if_false]
        split <;> rfl
      rw [this, hgst]

/-- While cache writes fail the placeholder loop leaves the in-memory environment as it
is. -/
theorem memSetPlaceholders_st_writeFail (m : GoMap Nat Unit) (l : List Nat)
    (w : World MemState) (e : GoError) (hs : w.st.setErr = some e) :
    (userBasicDao.setPlaceholders memUserBasicCache m l w).st = w.st := by
  induction l generalizing w with
  | nil => rfl
  | cons id rest ih =>
    simp only [userBasicDao.setPlaceholders]
    split
    · exact ih w hs
    · have hst : (memUserBasicCache.SetPlaceholder id w).2.st = w.st := by
        simp only [cacheSetPlaceholder_st, memSetCacheWithNotFound_fail _ w.st e hs]
      rw [ih _ (by rw [hst]; exact hs), hst]

/-- While cache writes fail the cache writes of `GetByIDs` after the storage query leave
the in-memory environment as it is. -/
theorem memAfterFind_st_writeFail (real : List Nat) (records : List UserBasic)
    (q : World MemState) (e : GoError) (hs : q.st.setErr = some e) :
    (afterFind memUserBasicCache real records q).st = q.st := by
  have hms : (memUserBasicCache.MultiSet records UserBasicExpireTime q).2.st = q.st := by
    rw [cacheMultiSet_st, memMultiSet_fail _ _ q.st e hs]
  unfold afterFind
  split
  · exact memSetPlaceholders_st_writeFail _ _ _ e hs
  · split
    · exact hms
    · rw [memSetPlaceholders_st_writeFail _ _ _ e (by rw [hms]; exact hs), hms]

/-- While cache writes fail `GetByIDs` leaves the in-memory environment as it is. -/
theorem memGetByIDs_st_writeFail (ids : List Nat) (w : World MemState) (e : GoError)
    (hs : w.st.setErr = some e) : (memDao.GetByIDs ids w).2.st = w.st := by
  unfold memDao
  have hmst := memMultiGet_st ids w
  cases hmg : (memUserBasicCache.MultiGet ids w).1.2 with
  | some err =>
    rw [GetByIDs_multiGet_error memDB memUserBasicCache ids w err hmg]
    exact hmst
  | none =>
    obtain ⟨hit, hhit⟩ := cacheMultiGet_some memUserBasicCache ids w hmg
    have hpst : (userBasicDao.realMissedIDs memUserBasicCache (userBasicDao.missedIDs hit ids)
        (memUserBasicCache.MultiGet ids w).2).2.st = w.st :=
      (realMissedIDs_readonly memUserBasicCache memCache_get_readonly _ _).2.trans hmst
    by_cases hreal : (userBasicDao.realMissedIDs memUserBasicCache
        (userBasicDao.missedIDs hit ids) (memUserBasicCache.MultiGet ids w).2).1 = []
    · rw [GetByIDs_no_real_miss memDB memUserBasicCache ids w hit hhit hreal]
      exact hpst
    · have hfc := memFind_cases
        (userBasicDao.realMissedIDs memUserBasicCache (userBasicDao.missedIDs hit ids)
          (memUserBasicCache.MultiGet ids w).2).1
        (userBasicDao.realMissedIDs memUserBasicCache (userBasicDao.missedIDs hit ids)
          (memUserBasicCache.MultiGet ids w).2).2.st
      have hqst : ((userBasicDao.realMissedIDs memUserBasicCache (userBasicDao.missedIDs hit ids)
            (memUserBasicCache.MultiGet ids w).2).2.call
          (Call.dbFind (userBasicDao.realMissedIDs memUserBasicCache
            (userBasicDao.missedIDs hit ids) (memUserBasicCache.MultiGet ids w).2).1)
          (memDB.Find (userBasicDao.realMissedIDs memUserBasicCache
            (userBasicDao.missedIDs hit ids) (memUserBasicCache.MultiGet ids w).2).1)).2.st
          = w.st := by
        simp only [World.call]
        rw [hfc.1, hpst]
      cases hfe : (memDB.Find
          (userBasicDao.realMissedIDs memUserBasicCache (userBasicDao.missedIDs hit ids)
            (memUserBasicCache.MultiGet ids w).2).1
          (userBasicDao.realMissedIDs memUserBasicCache (userBasicDao.missedIDs hit ids)
            (memUserBasicCache.MultiGet ids w).2).2.st).1.2 with
      | some err =>
        rw [GetByIDs_find_error memDB memUserBasicCache ids w hit err hhit hreal hfe]
        exact hqst
      | none =>
        rw [GetByIDs_find_ok memDB memUserBasicCache ids w hit _ hhit hreal (Prod.ext rfl hfe),
          memAfterFind_st_writeFail _ _ _ e (by rw [hqst]; exact hs), hqst]

theorem Inv_GetByID (id : Nat) (w : World MemState) (h : Inv w) :
    Inv (memDao.GetByID id w).2 := by
  by_cases hs : w.st.setErr = none
  · obtain ⟨e1, _, e3, _, e5⟩ := memGetByID_effect id w hs
    apply Inv_of_Fills w _ h
    refine ⟨e1, e3, ?_⟩
    rcases e5 with e | e | ⟨r, hr, e⟩
    · rw [e]
      exact CacheFill.refl _
    · rw [e]
      exact CacheFill.placeholder _ _ _ (CacheFill.refl _)
    · rw [e]
      exact CacheFill.value _ _ _ _ (CacheFill.refl _) hr
  · obtain ⟨e, he⟩ := Option.ne_none_iff_exists'.mp hs
    exact Inv_of_Fills w _ h (Fills_of_st_eq _ _ (memGetByID_st_writeFail id w e he))

theorem Inv_GetByIDs (ids : List Nat) (w : World MemState) (h : Inv w) :
    Inv (memDao.GetByIDs ids w).2 := by
  by_cases hs : w.st.setErr = none
  · exact Inv_of_Fills w _ h (memGetByIDs_fills ids w hs h.1)
  · obtain ⟨e, he⟩ := Option.ne_none_iff_exists'.mp hs
    exact Inv_of_Fills w _ h (Fills_of_st_eq _ _ (memGetByIDs_st_writeFail ids w e he))

theorem le_foldl_max (l : List Nat) (a : Nat) :
    a ≤ l.foldl max a ∧ ∀ x ∈ l, x ≤ l.foldl max a := by
  induction l generalizing a with
  | nil => simp
  | cons y rest ih =>
    simp only [List.foldl_cons, List.mem_cons]
    obtain ⟨h1, h2⟩ := ih (max a y)
    refine ⟨le_trans (le_max_left a y) h1, ?_⟩
    rintro x (hx | hx)
    · rw [hx]
      exact le_trans (le_max_right a y) h1
    · exact h2 x hx

theorem nextID_not_mem (rows : List UserBasic) : nextID rows ∉ rows.map UserBasic.ID := by
  intro h
  have := (le_foldl_max (rows.map UserBasic.ID) 0).2 _ h
  simp only [nextID] at this
  omega

/-- Appending a row with a fresh id keeps the invariant when the cache is kept. -/
theorem Inv_append (w w2 : World MemState) (row : UserBasic) (h : Inv w)
    (hnew : row.ID ∉ w.st.rows.map UserBasic.ID)
    (hrows : w2.st.rows = w.st.rows ++ [row]) (hent : w2.st.entries = w.st.entries) :
    Inv w2 := by
  obtain ⟨h2, h3⟩ := h
  refine ⟨?_, ?_⟩
  · rw [hrows, List.map_append, List.nodup_append]
    refine ⟨h2, by simp, ?_⟩
    intro a ha hb
    simp only [List.map_cons, List.map_nil, List.mem_singleton] at hb
    exact hnew (hb ▸ ha)
  · rw [hrows, hent]
    intro id v hv
    exact visibleRow_append_of_some _ _ _ _ (h3 id v hv)

theorem Inv_Create (table : UserBasic) (w : World MemState) (h : Inv w) :
    Inv (memDao.Create table w).2 := by
  have hdb : memDao.db = memDB := rfl
  simp only [userBasicDao.Create, World.call, hdb]
  cases hd : w.st.dbErr with
  | some e =>
    have : (memDB.Create table w.st).2 = w.st := by simp only [memDB, hd]
    exact Inv_of_Fills w _ h (Fills_of_st_eq _ _ this)
  | none =>
    by_cases hid : table.ID = 0
    · have : (memDB.Create table w.st).2
          = { w.st with rows := w.st.rows ++ [{ table with ID := nextID w.st.rows }] } := by
        simp only [memDB, hd, hid, if_true]
      exact Inv_append w _ { table with ID := nextID w.st.rows } h (nextID_not_mem _)
        (by rw [this]) (by rw [this])
    · by_cases hdup : table.ID ∈ w.st.rows.map UserBasic.ID
      · have : (memDB.Create table w.st).2 = w.st := by
          simp only [memDB, hd, hid, hdup, if_true, if_false]
        exact Inv_of_Fills w _ h (Fills_of_st_eq _ _ this)
      · have : (memDB.Create table w.st).2 = { w.st with rows := w.st.rows ++ [table] } := by
          simp only [memDB, hd, hid, hdup, if_false]
        exact Inv_append w _ table h hdup (by rw [this]) (by rw [this])

/-- Erasing the keys of the ids in `A` and mapping the rows by a map that keeps the ids and
moves only rows whose id is in `A` keeps the invariant. -/
theorem Inv_erase_map (w w2 : World MemState) (f : UserBasic → UserBasic) (A : List Nat)
    (h : Inv w) (hID : ∀ r, (f r).ID = r.ID) (hfix : ∀ r, r.ID ∉ A → f r = r)
    (hrows : w2.st.rows = w.st.rows.map f)
    (hent : ∀ k, w2.st.entries.get? k
      = if k ∈ A.map memUserBasicCache.GetUserBasicCacheKey then none
        else w.st.entries.get? k) : Inv w2 := by
  obtain ⟨h2, h3⟩ := h
  refine ⟨?_, ?_⟩
  · rw [hrows, List.map_map]
    have : UserBasic.ID ∘ f = UserBasic.ID := by
      funext r
      exact hID r
    rw [this]
    exact h2
  · intro id v hv
    rw [hent] at hv
    by_cases hk : memUserBasicCache.GetUserBasicCacheKey id
        ∈ A.map memUserBasicCache.GetUserBasicCacheKey
    · simp [hk] at hv
    · simp only [hk, if_false] at hv
      have hidA : id ∉ A := fun hin => hk (List.mem_map_of_mem _ hin)
      rw [hrows, visibleRow_map_of_fixed _ f id hID
        (fun r hr => hfix r (by rw [hr]; exact hidA))]
      exact h3 id v hv

theorem memUpdateDataByID_st (table : UserBasic) (w : World MemState) :
    (memDao.updateDataByID memDB table w).2.st = w.st ∨
    ∃ u, (memDao.updateDataByID memDB table w).2.st
      = { w.st with rows := patchRows u table.ID w.st.rows } := by
  unfold userBasicDao.updateDataByID
  by_cases h : table.ID < 1
  · left
    simp [h]
  · simp only [h, if_false, World.call]
    by_cases hd : w.st.dbErr = none
    · right
      exact ⟨_, by rw [memUpdates_eq _ _ _ hd]⟩
    · left
      obtain ⟨e, he⟩ := Option.ne_none_iff_exists'.mp hd
      simp only [memDB, he]

theorem patchRows_keeps (u : GoMap String GoValue) (id : Nat) :
    (∀ r : UserBasic,
      (if r.ID = id ∧ r.DeletedAt = none then applyUpdate u r else r).ID = r.ID) ∧
    (∀ r : UserBasic, r.ID ∉ [id] →
      (if r.ID = id ∧ r.DeletedAt = none then applyUpdate u r else r) = r) := by
  constructor
  · intro r
    by_cases hx : r.ID = id ∧ r.DeletedAt = none
    · simp only [hx, and_self, if_true]
      exact (applyUpdate_ID u r).1.trans hx.1
    · simp only [hx, if_false]
  · intro r hr
    have : ¬ (r.ID = id ∧ r.DeletedAt = none) := fun hx => hr (by simp [hx.1])
    simp only [this, if_false]

theorem softDelete_keeps (t : Nat) (ids : List Nat) :
    (∀ r : UserBasic,
      (if r.ID ∈ ids ∧ r.DeletedAt = none then { r with DeletedAt := some t } else r).ID = r.ID) ∧
    (∀ r : UserBasic, r.ID ∉ ids →
      (if r.ID ∈ ids ∧ r.DeletedAt = none then { r with DeletedAt := some t } else r) = r) := by
  constructor
  · intro r
    by_cases hx : r.ID ∈ ids ∧ r.DeletedAt = none
    · simp only [hx, and_self, if_true]
    · simp only [hx, if_false]
  · intro r hr
    have : ¬ (r.ID ∈ ids ∧ r.DeletedAt = none) := fun hx => hr hx.1
    simp only [this, if_false]

theorem Inv_UpdateByID (table : UserBasic) (w : World MemState) (h : Inv w)
    (hs : w.st.setErr = none) : Inv (memDao.UpdateByID table w).2 := by
  have hfr := memUpdateDataByID_frame memDB rfl table w
  have hst := memDel_st table.ID (memDao.updateDataByID memDB table w).2
    (by rw [hfr.2]; exact hs)
  have hw : (memDao.UpdateByID table w).2.st
      = (memUserBasicCache.Del table.ID (memDao.updateDataByID memDB table w).2).2.st := rfl
  have hent : ∀ k, (memDao.UpdateByID table w).2.st.entries.get? k
      = if k ∈ [table.ID].map memUserBasicCache.GetUserBasicCacheKey then none
        else w.st.entries.get? k := by
    intro k
    rw [hw, hst]
    simp only [GoMap.get?, lookupIn_filter_ne, hfr.1, List.map_cons, List.map_nil,
      List.mem_singleton]
  rcases memUpdateDataByID_st table w with hu | ⟨u, hu⟩
  · refine Inv_erase_map w _ id [table.ID] h (fun _ => rfl) (fun _ _ => rfl) ?_ hent
    rw [hw, hst, hu]
    simp
  · refine Inv_erase_map w _ _ [table.ID] h (patchRows_keeps u table.ID).1
      (patchRows_keeps u table.ID).2 ?_ hent
    rw [hw, hst, hu]
    rfl

theorem Inv_DeleteByIDs (ids : List Nat) (w : World MemState) (h : Inv w)
    (hs : w.st.setErr = none ∨ (memDao.DeleteByIDs ids w).1 ≠ none ∨ ids = []) :
    Inv (memDao.DeleteByIDs ids w).2 := by
  have hdb : memDao.db = memDB := rfl
  by_cases hd : w.st.dbErr = none
  · have h1 : memDB.DeleteIn ids w.st
        = (none, { w.st with rows := softDelete w.st.clock ids w.st.rows }) := by
      simp only [memDB, hd]
    have hres : (memDao.DeleteByIDs ids w).1 = none := by
      simp only [userBasicDao.DeleteByIDs, World.call, hdb, h1]
    simp only [userBasicDao.DeleteByIDs, World.call, hdb, h1]
    rcases hs with hs | hne | hnil
    · obtain ⟨_, i2, _, _, i5⟩ := memDeleteCaches_st ids
        { st := { w.st with rows := softDelete w.st.clock ids w.st.rows },
          log := w.log ++ [Call.dbDeleteIn ids] } hs
      exact Inv_erase_map w _ _ ids h (softDelete_keeps w.st.clock ids).1
        (softDelete_keeps w.st.clock ids).2 (by rw [i2]; rfl) i5
    · exact absurd hres hne
    · subst hnil
      exact Inv_erase_map w _ _ [] h (softDelete_keeps w.st.clock []).1
        (softDelete_keeps w.st.clock []).2 rfl (by intro k; simp [userBasicDao.deleteCaches])
  · obtain ⟨e, he⟩ := Option.ne_none_iff_exists'.mp hd
    have h1 : memDB.DeleteIn ids w.st = (some e, w.st) := by simp only [memDB, he]
    simp only [userBasicDao.DeleteByIDs, World.call, hdb, h1]
    exact Inv_of_Fills w _ h (Fills_of_st_eq _ _ rfl)

theorem Inv_DeleteByID (id : Nat) (w : World MemState) (h : Inv w)
    (hs : w.st.setErr = none ∨ (memDao.DeleteByID id w).1 ≠ none) :
    Inv (memDao.DeleteByID id w).2 := by
  have hdb : memDao.db = memDB := rfl
  by_cases hd : w.st.dbErr = none
  · have h1 : memDB.Delete id w.st
        = (none, { w.st with rows := softDelete w.st.clock [id] w.st.rows }) := by
      simp only [memDB, hd]
    have hres : (memDao.DeleteByID id w).1 = none := by
      simp only [userBasicDao.DeleteByID, World.call, hdb, h1]
    simp only [userBasicDao.DeleteByID, World.call, hdb, h1]
    rcases hs with hs | hne
    · have hst := memDel_st id
        { st := { w.st with rows := softDelete w.st.clock [id] w.st.rows },
          log := w.log ++ [Call.dbDelete id] } hs
      have hw : ∀ v : World MemState, (memDao.deleteCache id v) = memUserBasicCache.Del id v :=
        fun _ => rfl
      rw [hw]
      refine Inv_erase_map w _ _ [id] h (softDelete_keeps w.st.clock [id]).1
        (softDelete_keeps w.st.clock [id]).2 (by rw [hst]; rfl) ?_
      intro k
      rw [hst]
      simp only [GoMap.get?, lookupIn_filter_ne, List.map_cons, List.map_nil,
        List.mem_singleton]
    · exact absurd hres hne
  · obtain ⟨e, he⟩ := Option.ne_none_iff_exists'.mp hd
    have h1 : memDB.Delete id w.st = (some e, w.st) := by simp only [memDB, he]
    simp only [userBasicDao.DeleteByID, World.call, hdb, h1]
    exact Inv_of_Fills w _ h (Fills_of_st_eq _ _ rfl)

/-- The invariant holds in every world reachable by steps in which no cache delete
fails. -/
theorem Inv_of_ReachableDelOk (w : World MemState) (h : ReachableDelOk w) : Inv w := by
  induction h with
  | init rows getErr setErr dbErr clock log hnodup =>
    refine ⟨hnodup, ?_⟩
    intro id v hv
    simp [GoMap.get?, GoMap.empty, GoMap.lookupIn] at hv
  | step w w2 _ hstep ih =>
    cases hstep with
    | create table => exact Inv_Create table w ih
    | getByID id => exact Inv_GetByID id w ih
    | getByIDs ids => exact Inv_GetByIDs ids w ih
    | updateByID table hs => exact Inv_UpdateByID table w ih hs
    | deleteByID id hs => exact Inv_DeleteByID id w ih hs
    | deleteByIDs ids hs => exact Inv_DeleteByIDs ids w ih hs
    | outage getErr setErr dbErr clock => exact ⟨ih.1, ih.2⟩

/-- A world reachable by steps in which no cache delete fails is reachable. -/
theorem Reachable_of_ReachableDelOk (w : World MemState) (h : ReachableDelOk w) :
    Reachable w := by
  induction h with
  | init rows getErr setErr dbErr clock log hnodup =>
    exact Reachable.init rows getErr setErr dbErr clock log hnodup
  | step w w2 _ hstep ih =>
    refine Reachable.step w w2 ih ?_
    cases hstep with
    | create table => exact Step.create w table
    | getByID id => exact Step.getByID w id
    | getByIDs ids => exact Step.getByIDs w ids
    | updateByID table hs => exact Step.updateByID w table
    | deleteByID id hs => exact Step.deleteByID w id
    | deleteByIDs ids hs => exact Step.deleteByIDs w ids
    | outage getErr setErr dbErr clock => exact Step.outage w getErr setErr dbErr clock

/-- While cache writes fail `UpdateByID` returns what the storage update returned and
leaves the cache entries and the switch of cache reads as they are. -/
theorem memUpdateByID_writeFail (table : UserBasic) (w : World MemState) (e : GoError)
    (hs : w.st.setErr = some e) :
    (memDao.UpdateByID table w).1 = (memDao.updateDataByID memDB table w).1 ∧
    (memDao.UpdateByID table w).2.st.entries = w.st.entries ∧
    (memDao.UpdateByID table w).2.st.getErr = w.st.getErr := by
  have hfr := memUpdateDataByID_frame memDB rfl table w
  have hw : (memDao.UpdateByID table w).2.st
      = (memUserBasicCache.Del table.ID (memDao.updateDataByID memDB table w).2).2.st := rfl
  have hst : (memUserBasicCache.Del table.ID (memDao.updateDataByID memDB table w).2).2.st
      = (memDao.updateDataByID memDB table w).2.st := by
    rw [cacheDel_st, memDel_fail _ _ e (by rw [hfr.2]; exact hs)]
  refine ⟨rfl, by rw [hw, hst]; exact hfr.1, ?_⟩
  rw [hw, hst]
  rcases memUpdateDataByID_st table w with hu | ⟨u, hu⟩
  · rw [hu]
  · rw [hu]

/-- While cache writes fail the loop of `DeleteByIDs` that deletes the cache entries leaves
the in-memory environment as it is. -/
theorem memDeleteCaches_st_writeFail (ids : List Nat) (w : World MemState) (e : GoError)
    (hs : w.st.setErr = some e) : (memDao.deleteCaches ids w).st = w.st := by
  induction ids generalizing w with
  | nil => rfl
  | cons id rest ih =>
    have hst : (memDao.deleteCache id w).2.st = w.st := by
      show (memUserBasicCache.Del id w).2.st = w.st
      rw [cacheDel_st, memDel_fail _ _ e hs]
    simp only [userBasicDao.deleteCaches]
    rw [ih _ (by rw [hst]; exact hs), hst]

/-- While cache writes fail `DeleteByID`, `DeleteByTx` and `DeleteByIDs` on the in-memory
environment leave the cache entries as they are. -/
theorem memDelete_writeFail (w : World MemState) (e : GoError) (hs : w.st.setErr = some e) :
    (∀ id, (memDao.DeleteByID id w).2.st.entries = w.st.entries) ∧
    (∀ id now, (memDao.DeleteByTx memDB id now w).2.st.entries = w.st.entries) ∧
    (∀ ids, (memDao.DeleteByIDs ids w).2.st.entries = w.st.entries) := by
  have hfr := memDB_frame w.st
  have hdb : memDao.db = memDB := rfl
  refine ⟨?_, ?_, ?_⟩
  · intro id
    have h1 := (hfr.2.2.1 id)
    simp only [userBasicDao.DeleteByID, World.call, hdb]
    split
    · exact h1.1
    · show (memUserBasicCache.Del id _).2.st.entries = _
      rw [cacheDel_st, memDel_fail _ _ e (by simp only; rw [h1.2.1]; exact hs)]
      exact h1.1
  · intro id now
    have h1 := (hfr.2.2.2.2 id (GoMap.empty.set "deleted_at" (GoValue.time now)))
    simp only [userBasicDao.DeleteByTx, World.call]
    split
    · exact h1.1
    · show (memUserBasicCache.Del id _).2.st.entries = _
      rw [cacheDel_st, memDel_fail _ _ e (by simp only; rw [h1.2.1]; exact hs)]
      exact h1.1
  · intro ids
    have h1 := (hfr.2.2.2.1 ids)
    simp only [userBasicDao.DeleteByIDs, World.call, hdb]
    split
    · exact h1.1
    · simp only
      rw [memDeleteCaches_st_writeFail ids _ e (by simp only; rw [h1.2.1]; exact hs)]
      exact h1.1

/-- A probe of the in-memory cache that hands back a record found it under the key. -/
theorem memGet_hit_entry (id : Nat) (w : World MemState) (v : UserBasic)
    (h : (memUserBasicCache.Get id w).1 = (some v, none)) :
    w.st.getErr = none ∧
    w.st.entries.get? (memUserBasicCache.GetUserBasicCacheKey id) = some (MemEntry.value v) := by
  by_cases hg : w.st.getErr = none
  · refine ⟨hg, ?_⟩
    rw [memGet_eq id w hg] at h
    simp only at h
    cases he : w.st.entries.get? (memUserBasicCache.GetUserBasicCacheKey id) with
    | none => simp [he] at h
    | some e =>
      cases e with
      | placeholder => simp [he] at h
      | value v2 =>
        simp only [he, Prod.mk.injEq, Option.some.injEq, and_true] at h
        rw [h]
  · obtain ⟨e, he⟩ := Option.ne_none_iff_exists'.mp hg
    have h2 : (memUserBasicCache.Get id w).1.2 = some e := by
      rw [cacheGet_err]
      show (memCache.Get _ w.st).1.2 = some e
      simp only [memCache, he]
    rw [h] at h2
    simp at h2

/-- The result of `GetByID` on a miss that storage answers with record-not-found. -/
theorem GetByID_not_found_quiet (db : GormDB σ) (c : userBasicCache σ) (id : Nat)
    (w : World σ) (err e : GoError)
    (hmiss : (c.Get id w).1.2 = some err)
    (hnf : errorsIs err GoError.ErrCacheNotFound = true)
    (hdb : (db.First id (c.Get id w).2.st).1.2 = some e)
    (hrnf : errorsIs e GoError.ErrRecordNotFound = true) :
    ((NewUserBasicDao db (some c)).GetByID id w).1 = (none, some GoError.ErrRecordNotFound) := by
  simp only [NewUserBasicDao, userBasicDao.GetByID, hmiss, hnf, if_true, sfgDo,
    userBasicDao.fetchByID, World.call, hdb, hrnf]

end Lemmas

section GetByID

variable {σ : Type}

/-- C1: with a cache configured, when the cache lookup for `id` succeeds with record `r`,
`GetByID` returns `(r, nil)`, the world is the one the lookup left, and the lookup is the
only call made: no storage read and no cache write. -/
theorem GetByID_cache_hit (db : GormDB σ) (c : userBasicCache σ) (id : Nat) (w : World σ)
    (r : Ptr UserBasic) (hhit : (c.Get id w).1 = (r, none)) :
    ((NewUserBasicDao db (some c)).GetByID id w).1 = (r, none) ∧
    ((NewUserBasicDao db (some c)).GetByID id w).2 = (c.Get id w).2 ∧
    ((NewUserBasicDao db (some c)).GetByID id w).2.log
      = w.log ++ [Call.cacheGet (c.GetUserBasicCacheKey id)] := by
  have h2 : (c.Get id w).1.2 = none := by rw [hhit]
  have h1 : (c.Get id w).1.1 = r := by rw [hhit]
  refine ⟨?_, ?_, ?_⟩
  · simp only [NewUserBasicDao, userBasicDao.GetByID, h2, h1]
  · simp only [NewUserBasicDao, userBasicDao.GetByID, h2]
  · simp only [NewUserBasicDao, userBasicDao.GetByID, h2]
    simp [userBasicCache.Get, World.call]
    split <;> rfl

/-- C1 at a concrete input: row 1 is cached under "userBasic:1". -/
theorem GetByID_cache_hit_witness :
    (memUserBasicCache.Get 1
        (memWorld [("userBasic:1", MemEntry.value (mkUser 1 "ann"))] [] none none none)).1
      = (some (mkUser 1 "ann"), none) ∧
    (memDao.GetByID 1
        (memWorld [("userBasic:1", MemEntry.value (mkUser 1 "ann"))] [] none none none)).1
      = (some (mkUser 1 "ann"), none) ∧
    (memDao.GetByID 1
        (memWorld [("userBasic:1", MemEntry.value (mkUser 1 "ann"))] [] none none none)).2.log
      = [Call.cacheGet "userBasic:1"] :=
  ⟨by decide,
   (GetByID_cache_hit memDB memUserBasicCache 1
      (memWorld [("userBasic:1", MemEntry.value (mkUser 1 "ann"))] [] none none none)
      (some (mkUser 1 "ann")) (by decide)).1,
   (GetByID_cache_hit memDB memUserBasicCache 1
      (memWorld [("userBasic:1", MemEntry.value (mkUser 1 "ann"))] [] none none none)
      (some (mkUser 1 "ann")) (by decide)).2.2⟩

/-- C2: with a cache configured, when the cache has no entry for `id` (cache-not-found)
and storage reports record-not-found, `GetByID` writes a placeholder for `id` to the cache
and returns the record-not-found error with a nil record. -/
theorem GetByID_not_found_sets_placeholder (db : GormDB σ) (c : userBasicCache σ) (id : Nat)
    (w : World σ) (err e : GoError)
    (hmiss : (c.Get id w).1.2 = some err)
    (hnf : errorsIs err GoError.ErrCacheNotFound = true)
    (hdb : (db.First id (c.Get id w).2.st).1.2 = some e)
    (hrnf : errorsIs e GoError.ErrRecordNotFound = true) :
    ((NewUserBasicDao db (some c)).GetByID id w).1 = (none, some GoError.ErrRecordNotFound) ∧
    ((NewUserBasicDao db (some c)).GetByID id w).2.log
      = w.log ++ [Call.cacheGet (c.GetUserBasicCacheKey id), Call.sfgDo (Uint64ToStr id),
                  Call.dbFirst id,
                  Call.cacheSetCacheWithNotFound (c.GetUserBasicCacheKey id)] ∧
    ((NewUserBasicDao db (some c)).GetByID id w).2.st
      = (c.cache.SetCacheWithNotFound (c.GetUserBasicCacheKey id)
          (db.First id (c.Get id w).2.st).2).2 := by
  simp only [NewUserBasicDao, userBasicDao.GetByID, hmiss, hnf, if_true, sfgDo,
    userBasicDao.fetchByID, World.call, hdb, hrnf]
  simp

/-- C2 at a concrete input: id 999 is neither cached nor stored. -/
theorem GetByID_not_found_sets_placeholder_witness :
    (memUserBasicCache.Get 999 (memWorld [] [mkUser 1 "ann"] none none none)).1.2
      = some GoError.ErrCacheNotFound ∧
    (memDao.GetByID 999 (memWorld [] [mkUser 1 "ann"] none none none)).1
      = (none, some GoError.ErrRecordNotFound) ∧
    (memDao.GetByID 999 (memWorld [] [mkUser 1 "ann"] none none none)).2.log
      = [Call.cacheGet "userBasic:999", Call.sfgDo "999", Call.dbFirst 999,
         Call.cacheSetCacheWithNotFound "userBasic:999"] ∧
    (memDao.GetByID 999 (memWorld [] [mkUser 1 "ann"] none none none)).2.st.entries
      = ⟨[("userBasic:999", MemEntry.placeholder)]⟩ :=
  have h := GetByID_not_found_sets_placeholder memDB memUserBasicCache 999
    (memWorld [] [mkUser 1 "ann"] none none none) GoError.ErrCacheNotFound
    GoError.ErrRecordNotFound (by decide) (by decide) (by decide) (by decide)
  ⟨by decide, h.1, h.2.1, by decide⟩

/-- C3: with a cache configured, when the cache entry of `id` is a placeholder (the probe
fails with the placeholder marker), `GetByID` returns record-not-found with a nil record
and the probe is the only call made: zero storage calls. -/
theorem GetByID_placeholder_hit (db : GormDB σ) (c : userBasicCache σ) (id : Nat)
    (w : World σ) (err : GoError)
    (hget : (c.Get id w).1.2 = some err)
    (hph : c.IsPlaceholderErr (some err) = true) :
    ((NewUserBasicDao db (some c)).GetByID id w).1 = (none, some GoError.ErrRecordNotFound) ∧
    ((NewUserBasicDao db (some c)).GetByID id w).2 = (c.Get id w).2 ∧
    ((NewUserBasicDao db (some c)).GetByID id w).2.log
      = w.log ++ [Call.cacheGet (c.GetUserBasicCacheKey id)] ∧
    (((NewUserBasicDao db (some c)).GetByID id w).2.log.drop w.log.length).filter Call.isStorage
      = [] := by
  have hne : errorsIs err GoError.ErrCacheNotFound = false :=
    errorsIs_placeholder_not_cacheNotFound err hph
  simp only [NewUserBasicDao, userBasicDao.GetByID, hget, hne, hph, if_true]
  simp [Call.isStorage]

/-- C3 at a concrete input: the second `GetByID 999` after a first one that confirmed
not-found. -/
theorem GetByID_placeholder_hit_witness :
    (memUserBasicCache.Get 999
        (memDao.GetByID 999 (memWorld [] [mkUser 1 "ann"] none none none)).2).1.2
      = some GoError.ErrPlaceholder ∧
    (memDao.GetByID 999
        (memDao.GetByID 999 (memWorld [] [mkUser 1 "ann"] none none none)).2).1
      = (none, some GoError.ErrRecordNotFound) ∧
    ((memDao.GetByID 999
        (memDao.GetByID 999 (memWorld [] [mkUser 1 "ann"] none none none)).2).2.log.drop
          (memDao.GetByID 999
            (memWorld [] [mkUser 1 "ann"] none none none)).2.log.length).filter Call.isStorage
      = [] :=
  have h := GetByID_placeholder_hit memDB memUserBasicCache 999
    (memDao.GetByID 999 (memWorld [] [mkUser 1 "ann"] none none none)).2
    GoError.ErrPlaceholder (by decide) (by decide)
  ⟨by decide, h.1, h.2.2.2⟩

/-- C4: with a cache configured, when the cache misses and the storage read fails with an
error other than record-not-found, `GetByID` returns that same error with a nil record;
the calls made are the cache probe, the coalescer and the storage read, so no `Set` and no
`SetPlaceholder` is issued and the cache backend is left as the probe left it. -/
theorem GetByID_storage_error (db : GormDB σ) (c : userBasicCache σ) (id : Nat)
    (w : World σ) (err e : GoError)
    (hmiss : (c.Get id w).1.2 = some err)
    (hnf : errorsIs err GoError.ErrCacheNotFound = true)
    (hdb : (db.First id (c.Get id w).2.st).1.2 = some e)
    (hother : errorsIs e GoError.ErrRecordNotFound = false) :
    ((NewUserBasicDao db (some c)).GetByID id w).1 = (none, some e) ∧
    ((NewUserBasicDao db (some c)).GetByID id w).2.log
      = w.log ++ [Call.cacheGet (c.GetUserBasicCacheKey id), Call.sfgDo (Uint64ToStr id),
                  Call.dbFirst id] ∧
    ((NewUserBasicDao db (some c)).GetByID id w).2.st = (db.First id (c.Get id w).2.st).2 ∧
    (((NewUserBasicDao db (some c)).GetByID id w).2.log.drop w.log.length).filter
      Call.isCacheWrite = [] := by
  simp only [NewUserBasicDao, userBasicDao.GetByID, hmiss, hnf, if_true, sfgDo,
    userBasicDao.fetchByID, World.call, hdb, hother]
  simp [Call.isCacheWrite]

/-- C4 at a concrete input: the table is unreachable. -/
theorem GetByID_storage_error_witness :
    (memUserBasicCache.Get 1
        (memWorld [] [mkUser 1 "ann"] none none (some (GoError.other "bad connection")))).1.2
      = some GoError.ErrCacheNotFound ∧
    (memDao.GetByID 1
        (memWorld [] [mkUser 1 "ann"] none none (some (GoError.other "bad connection")))).1
      = (none, some (GoError.other "bad connection")) ∧
    (memDao.GetByID 1
        (memWorld [] [mkUser 1 "ann"] none none (some (GoError.other "bad connection")))).2.log
      = [Call.cacheGet "userBasic:1", Call.sfgDo "1", Call.dbFirst 1] ∧
    (memDao.GetByID 1
        (memWorld [] [mkUser 1 "ann"] none none
          (some (GoError.other "bad connection")))).2.st.entries = ⟨[]⟩ :=
  have h := GetByID_storage_error memDB memUserBasicCache 1
    (memWorld [] [mkUser 1 "ann"] none none (some (GoError.other "bad connection")))
    GoError.ErrCacheNotFound (GoError.other "bad connection")
    (by decide) (by decide) (by decide) (by decide)
  ⟨by decide, h.1, h.2.1, by decide⟩

end GetByID

section CacheFailures

variable {σ : Type}

/-- C5: a failed cache write never changes the result returned to the caller. On a cache
miss where storage returns record `r`, `GetByID` returns `(r, nil)`; on a miss where
storage reports not-found it returns record-not-found; `GetByIDs` returns the merged map
and a nil error; none of the three depends on what `Set`, `SetPlaceholder` or `MultiSet`
answer. Stated once more as non-interference: two caches that agree on the read handlers
and differ in any way on the write handlers give the same results. -/
theorem cache_write_failure_not_surfaced (db : GormDB σ) (c : userBasicCache σ)
    (w : World σ) :
    (∀ (id : Nat) (err : GoError) (r : UserBasic),
      (c.Get id w).1.2 = some err → errorsIs err GoError.ErrCacheNotFound = true →
      (db.First id (c.Get id w).2.st).1 = (r, none) →
      ((NewUserBasicDao db (some c)).GetByID id w).1 = (some r, none)) ∧
    (∀ (id : Nat) (err e : GoError),
      (c.Get id w).1.2 = some err → errorsIs err GoError.ErrCacheNotFound = true →
      (db.First id (c.Get id w).2.st).1.2 = some e →
      errorsIs e GoError.ErrRecordNotFound = true →
      ((NewUserBasicDao db (some c)).GetByID id w).1 = (none, some GoError.ErrRecordNotFound)) ∧
    (∀ (ids : List Nat) (hit : GoMap Nat (Ptr UserBasic)) (records : List UserBasic),
      (c.MultiGet ids w).1 = (some hit, none) →
      (userBasicDao.realMissedIDs c (userBasicDao.missedIDs hit ids) (c.MultiGet ids w).2).1 ≠ [] →
      (db.Find
        (userBasicDao.realMissedIDs c (userBasicDao.missedIDs hit ids) (c.MultiGet ids w).2).1
        (userBasicDao.realMissedIDs c (userBasicDao.missedIDs hit ids)
          (c.MultiGet ids w).2).2.st).1 = (records, none) →
      ((NewUserBasicDao db (some c)).GetByIDs ids w).1
        = (some (userBasicDao.mergeRecords hit records), none)) ∧
    (∀ (c2 : userBasicCache σ), c2.cache.Get = c.cache.Get →
      c2.cache.MultiGet = c.cache.MultiGet →
      (∀ id, ((NewUserBasicDao db (some c2)).GetByID id w).1
        = ((NewUserBasicDao db (some c)).GetByID id w).1) ∧
      (∀ ids, ((NewUserBasicDao db (some c2)).GetByIDs ids w).1
        = ((NewUserBasicDao db (some c)).GetByIDs ids w).1)) := by
  refine ⟨?_, ?_, ?_, ?_⟩
  · intro id err r hmiss hnf hdb
    have hd2 := congrArg Prod.snd hdb
    have hd1 := congrArg Prod.fst hdb
    simp only at hd1 hd2
    simp only [NewUserBasicDao, userBasicDao.GetByID, hmiss, hnf, if_true, sfgDo,
      userBasicDao.fetchByID, World.call, hd2, hd1]
  · intro id err e hmiss hnf hdb hrnf
    exact (GetByID_not_found_quiet db c id w err e hmiss hnf hdb hrnf)
  · intro ids hit records hmg hreal hfind
    rw [GetByIDs_find_ok db c ids w hit records hmg hreal hfind]
  · intro c2 hget hmget
    have hG := cacheGet_congr c c2 hget
    have hM := cacheMultiGet_congr c c2 hmget
    constructor
    · intro id
      cases hg : (c.Get id w).1.2 with
      | none => simp only [NewUserBasicDao, userBasicDao.GetByID, hG, hg]
      | some err =>
        by_cases hnf : errorsIs err GoError.ErrCacheNotFound = true
        · cases hf : (db.First id (c.Get id w).2.st).1.2 with
          | none =>
            simp only [NewUserBasicDao, userBasicDao.GetByID, hG, hg, hnf, if_true, sfgDo,
              userBasicDao.fetchByID, World.call, hf]
          | some e =>
            by_cases hr : errorsIs e GoError.ErrRecordNotFound = true
            · simp only [NewUserBasicDao, userBasicDao.GetByID, hG, hg, hnf, if_true, sfgDo,
                userBasicDao.fetchByID, World.call, hf, hr]
            · simp only [NewUserBasicDao, userBasicDao.GetByID, hG, hg, hnf, if_true, sfgDo,
                userBasicDao.fetchByID, World.call, hf, hr]
              simp
        · simp only [NewUserBasicDao, userBasicDao.GetByID, hG, hg, hnf,
            userBasicCache.IsPlaceholderErr, Bool.false_eq_true, if_false]
    · intro ids
      simp only [NewUserBasicDao, userBasicDao.GetByIDs, hM, realMissedIDs_congr c c2 hget,
        World.call]
      cases (c.MultiGet ids w).1.2 with
      | some err => rfl
      | none =>
        simp only
        split
        · split
          · cases (db.Find _ _).1.2 with
            | some err => rfl
            | none =>
              simp only
              split
              · split <;> rfl
              · rfl
          · rfl
        · rfl

/-- C5 at a concrete input: every cache write fails, row 1 is stored and id 2 is not. -/
theorem cache_write_failure_not_surfaced_witness :
    (memCache.Set "userBasic:1" (mkUser 1 "ann") UserBasicExpireTime worldWriteFail.st).1
      = some (GoError.other "cache down") ∧
    (memDao.GetByID 1 worldWriteFail).1 = (some (mkUser 1 "ann"), none) ∧
    (memDao.GetByID 2 worldWriteFail).1 = (none, some GoError.ErrRecordNotFound) ∧
    (memDao.GetByIDs [1, 2] worldWriteFail).1
      = (some ⟨[(1, some (mkUser 1 "ann"))]⟩, none) ∧
    (memDao.GetByIDs [1, 2] worldWriteFail).2.st.entries = ⟨[]⟩ :=
  ⟨by decide,
   (cache_write_failure_not_surfaced memDB memUserBasicCache worldWriteFail).1 1
      GoError.ErrCacheNotFound (mkUser 1 "ann") (by decide) (by decide) (by decide),
   (cache_write_failure_not_surfaced memDB memUserBasicCache worldWriteFail).2.1 2
      GoError.ErrCacheNotFound GoError.ErrRecordNotFound (by decide) (by decide) (by decide)
      (by decide),
   (cache_write_failure_not_surfaced memDB memUserBasicCache worldWriteFail).2.2.1 [1, 2]
      GoMap.empty [mkUser 1 "ann"] (by decide) (by decide) (by decide),
   by decide⟩

/-- C6, as stated, fails: with every cache read failing on an error that is neither
cache-not-found nor the placeholder marker, `GetByID 1` and `GetByIDs [1, 3]` return that
cache error and a nil result although rows 1 and 3 are stored, and make no storage call. -/
theorem cache_read_failure_counterexample :
    errorsIs (GoError.other "cache down") GoError.ErrCacheNotFound = false ∧
    memUserBasicCache.IsPlaceholderErr (some (GoError.other "cache down")) = false ∧
    (memUserBasicCache.Get 1 worldReadFail).1.2 = some (GoError.other "cache down") ∧
    (memDB.First 1 worldReadFail.st).1 = (mkUser 1 "ann", none) ∧
    (memDao.GetByID 1 worldReadFail).1 = (none, some (GoError.other "cache down")) ∧
    (memDao.GetByID 1 worldReadFail).2.log.filter Call.isStorage = [] ∧
    (memDao.GetByIDs [1, 3] worldReadFail).1 = (none, some (GoError.other "cache down")) ∧
    (memDao.GetByIDs [1, 3] worldReadFail).2.log.filter Call.isStorage = [] := by
  decide

/-- C6, amended: a failure reading from the cache is surfaced. If the cache read of
`GetByID` fails with an error that is neither cache-not-found nor the placeholder marker,
`GetByID` returns that error with a nil record and the probe is the only call made; if
the batch read `MultiGet` fails, `GetByIDs` returns that error with a nil map and the
batch read is the only call made. No storage call is made in either case. -/
theorem cache_read_failure_surfaced (db : GormDB σ) (c : userBasicCache σ) (w : World σ)
    (err : GoError) :
    (∀ id : Nat, (c.Get id w).1.2 = some err →
      errorsIs err GoError.ErrCacheNotFound = false →
      c.IsPlaceholderErr (some err) = false →
      ((NewUserBasicDao db (some c)).GetByID id w).1 = (none, some err) ∧
      ((NewUserBasicDao db (some c)).GetByID id w).2.log
        = w.log ++ [Call.cacheGet (c.GetUserBasicCacheKey id)]) ∧
    (∀ ids : List Nat, (c.MultiGet ids w).1.2 = some err →
      ((NewUserBasicDao db (some c)).GetByIDs ids w).1 = (none, some err) ∧
      ((NewUserBasicDao db (some c)).GetByIDs ids w).2.log
        = w.log ++ [Call.cacheMultiGet (ids.map c.GetUserBasicCacheKey)]) := by
  constructor
  · intro id hget hnf hph
    simp only [NewUserBasicDao, userBasicDao.GetByID, hget, hnf, hph, Bool.false_eq_true,
      if_false]
    simp
  · intro ids hmg
    rw [GetByIDs_multiGet_error db c ids w err hmg]
    simp

/-- C6 amended, at a concrete input: every cache read fails. -/
theorem cache_read_failure_surfaced_witness :
    (memUserBasicCache.Get 1 worldReadFail).1.2 = some (GoError.other "cache down") ∧
    (memDao.GetByID 1 worldReadFail).1 = (none, some (GoError.other "cache down")) ∧
    (memDao.GetByID 1 worldReadFail).2.log = [Call.cacheGet "userBasic:1"] ∧
    (memDao.GetByIDs [1, 3] worldReadFail).1 = (none, some (GoError.other "cache down")) ∧
    (memDao.GetByIDs [1, 3] worldReadFail).2.log
      = [Call.cacheMultiGet ["userBasic:1", "userBasic:3"]] :=
  have h1 := (cache_read_failure_surfaced memDB memUserBasicCache worldReadFail
    (GoError.other "cache down")).1 1 (by decide) (by decide) (by decide)
  have h2 := (cache_read_failure_surfaced memDB memUserBasicCache worldReadFail
    (GoError.other "cache down")).2 [1, 3] (by decide)
  ⟨by decide, h1.1, h1.2, h2.1, h2.2⟩

end CacheFailures

section GetByIDs

variable {σ : Type}

/-- C7: on the cached path, after a successful batch read with hit map `hit`, `GetByIDs`
issues at most one storage query; its IN-list `real` is what the per-id probes keep of
the requested ids absent from `hit` (with a backend whose `Get` leaves the backend state
alone: exactly the requested ids that are no key of `hit` and whose probe does not report
a placeholder); no storage query is issued when `real` is empty, and then the hit map is
returned; otherwise the returned map is `hit` extended with every record storage returned,
keyed by the id of the record. -/
theorem GetByIDs_queries_real_misses (db : GormDB σ) (c : userBasicCache σ) (ids : List Nat)
    (w : World σ) (hit : GoMap Nat (Ptr UserBasic)) (real : List Nat) (w2 : World σ)
    (hmg : (c.MultiGet ids w).1 = (some hit, none))
    (hp : userBasicDao.realMissedIDs c (userBasicDao.missedIDs hit ids) (c.MultiGet ids w).2
      = (real, w2)) :
    ((((NewUserBasicDao db (some c)).GetByIDs ids w).2.log.drop w.log.length).filter
      Call.isStorage = if real = [] then [] else [Call.dbFind real]) ∧
    real.Sublist (ids.filter (fun id => !hit.contains id)) ∧
    ((∀ key s, (c.cache.Get key s).2 = s) →
      real = ids.filter (fun id =>
        !hit.contains id && !c.IsPlaceholderErr (c.Get id (c.MultiGet ids w).2).1.2)) ∧
    (real = [] → ((NewUserBasicDao db (some c)).GetByIDs ids w).1 = (some hit, none)) ∧
    (∀ records : List UserBasic, real ≠ [] → (db.Find real w2.st).1 = (records, none) →
      ((NewUserBasicDao db (some c)).GetByIDs ids w).1
        = (some (userBasicDao.mergeRecords hit records), none) ∧
      (∀ k, k ∉ records.map UserBasic.ID →
        (userBasicDao.mergeRecords hit records).get? k = hit.get? k) ∧
      (∀ k, k ∈ records.map UserBasic.ID →
        ∃ r ∈ records, r.ID = k ∧
          (userBasicDao.mergeRecords hit records).get? k = some (some r))) := by
  have hp1 : (userBasicDao.realMissedIDs c (userBasicDao.missedIDs hit ids)
      (c.MultiGet ids w).2).1 = real := by rw [hp]
  have hp2 : (userBasicDao.realMissedIDs c (userBasicDao.missedIDs hit ids)
      (c.MultiGet ids w).2).2 = w2 := by rw [hp]
  refine ⟨GetByIDs_storage_calls db c ids w hit real w2 hmg hp, ?_, ?_, ?_, ?_⟩
  · rw [← hp1]
    exact realMissedIDs_sublist c _ _
  · intro hro
    rw [← hp1, (realMissedIDs_readonly c hro _ _).1, userBasicDao.missedIDs, List.filter_filter]
    congr 1
    funext id
    exact Bool.and_comm _ _
  · intro hreal
    rw [GetByIDs_no_real_miss db c ids w hit hmg (by rw [hp1]; exact hreal)]
  · intro records hreal hfind
    refine ⟨?_, fun k hk => mergeRecords_get?_of_not_mem records hit k hk,
      fun k hk => mergeRecords_get?_of_mem records hit k hk⟩
    rw [GetByIDs_find_ok db c ids w hit records hmg (by rw [hp1]; exact hreal)
      (by rw [hp1, hp2]; exact hfind)]

/-- C7 at a concrete input: id 1 is cached, id 2 is placeholdered, id 3 is stored and not
cached; storage is queried for id 3 only and the result holds the rows 1 and 3. -/
theorem GetByIDs_queries_real_misses_witness :
    (memUserBasicCache.MultiGet [1, 2, 3] worldABC).1
      = (some ⟨[(1, some (mkUser 1 "ann"))]⟩, none) ∧
    (memDao.GetByIDs [1, 2, 3] worldABC).2.log.filter Call.isStorage = [Call.dbFind [3]] ∧
    (memDao.GetByIDs [1, 2, 3] worldABC).1
      = (some ⟨[(1, some (mkUser 1 "ann")), (3, some (mkUser 3 "cy"))]⟩, none) :=
  have h := GetByIDs_queries_real_misses memDB memUserBasicCache [1, 2, 3] worldABC
    ⟨[(1, some (mkUser 1 "ann"))]⟩ [3]
    (userBasicDao.realMissedIDs memUserBasicCache [2, 3]
      (memUserBasicCache.MultiGet [1, 2, 3] worldABC).2).2
    (by decide) (Prod.ext (by decide) rfl)
  ⟨by decide, h.1, (h.2.2.2.2 [mkUser 3 "cy"] (by decide) (by decide)).1⟩

/-- C8: on the cached path, when the storage query over the real misses `real` returns
`records` (pairwise distinct ids drawn from `real`, as a table keyed by id answers), the
cache writes of `GetByIDs` are, in order: one batch write built from every returned
record (none when nothing was returned), then one placeholder for every real-missed id
that storage did not return. An id that got a placeholder is neither an id storage
returned nor a key of the hit map; a placeholder write for the key of an id is among the
calls exactly when the id is a real miss that storage did not return; and the batch binds
the key of every returned record to that record. -/
theorem GetByIDs_cache_writes (db : GormDB σ) (c : userBasicCache σ) (ids : List Nat)
    (w : World σ) (hit : GoMap Nat (Ptr UserBasic)) (real : List Nat) (w2 : World σ)
    (records : List UserBasic)
    (hmg : (c.MultiGet ids w).1 = (some hit, none))
    (hp : userBasicDao.realMissedIDs c (userBasicDao.missedIDs hit ids) (c.MultiGet ids w).2
      = (real, w2))
    (hreal : real ≠ [])
    (hfind : (db.Find real w2.st).1 = (records, none))
    (hnodup : (records.map UserBasic.ID).Nodup)
    (hsub : ∀ r ∈ records, r.ID ∈ real) :
    ((((NewUserBasicDao db (some c)).GetByIDs ids w).2.log.drop w.log.length).filter
        Call.isCacheWrite
      = (if records = [] then []
         else [Call.cacheMultiSet
            (records.foldl (fun m v => m.set (c.GetUserBasicCacheKey v.ID) v) GoMap.empty)
            UserBasicExpireTime])
        ++ (real.filter (fun id => decide (id ∉ records.map UserBasic.ID))).map
            (fun id => Call.cacheSetCacheWithNotFound (c.GetUserBasicCacheKey id))) ∧
    (∀ id ∈ real.filter (fun id => decide (id ∉ records.map UserBasic.ID)),
      id ∈ ids ∧ hit.contains id = false ∧ id ∉ records.map UserBasic.ID) ∧
    (∀ id, Call.cacheSetCacheWithNotFound (c.GetUserBasicCacheKey id)
        ∈ ((NewUserBasicDao db (some c)).GetByIDs ids w).2.log.drop w.log.length
      ↔ id ∈ real ∧ id ∉ records.map UserBasic.ID) ∧
    (∀ r ∈ records,
      (records.foldl (fun m v => m.set (c.GetUserBasicCacheKey v.ID) v) GoMap.empty).get?
        (c.GetUserBasicCacheKey r.ID) = some r) := by
  have hp1 : (userBasicDao.realMissedIDs c (userBasicDao.missedIDs hit ids)
      (c.MultiGet ids w).2).1 = real := by rw [hp]
  have hp2 : (userBasicDao.realMissedIDs c (userBasicDao.missedIDs hit ids)
      (c.MultiGet ids w).2).2 = w2 := by rw [hp]
  have hlog : w2.log = w.log ++ [Call.cacheMultiGet (ids.map c.GetUserBasicCacheKey)]
      ++ (userBasicDao.missedIDs hit ids).map
          (fun id => Call.cacheGet (c.GetUserBasicCacheKey id)) := by
    rw [← hp2, realMissedIDs_log, cacheMultiGet_log]
  have hfilter : (fun id => !(userBasicDao.recordIDs records).contains id)
      = (fun id => decide (id ∉ records.map UserBasic.ID)) := by
    funext id
    rw [recordIDs_contains]
    by_cases h : id ∈ records.map UserBasic.ID <;> simp only [h, decide_True, decide_False,
      not_true_eq_false, not_false_eq_true, Bool.not_true, Bool.not_false]
  have hwrites : (((NewUserBasicDao db (some c)).GetByIDs ids w).2.log.drop w.log.length).filter
        Call.isCacheWrite
      = (if records = [] then []
         else [Call.cacheMultiSet
            (records.foldl (fun m v => m.set (c.GetUserBasicCacheKey v.ID) v) GoMap.empty)
            UserBasicExpireTime])
        ++ (real.filter (fun id => decide (id ∉ records.map UserBasic.ID))).map
            (fun id => Call.cacheSetCacheWithNotFound (c.GetUserBasicCacheKey id)) := by
    rw [GetByIDs_find_ok db c ids w hit records hmg (by rw [hp1]; exact hreal)
      (by rw [hp1, hp2]; exact hfind), hp1, hp2, afterFind_log, hfilter]
    simp only [World.call, hlog, List.append_assoc, List.drop_left, List.filter_append,
      filter_isCacheWrite_probes]
    have e1 : List.filter Call.isCacheWrite
        (if records = [] then []
          else [Call.cacheMultiSet
            (records.foldl (fun m v => m.set (c.GetUserBasicCacheKey v.ID) v) GoMap.empty)
            UserBasicExpireTime])
        = (if records = [] then []
          else [Call.cacheMultiSet
            (records.foldl (fun m v => m.set (c.GetUserBasicCacheKey v.ID) v) GoMap.empty)
            UserBasicExpireTime]) := by
      split <;> simp [Call.isCacheWrite]
    have e2 : List.filter Call.isCacheWrite
        (if records ≠ [] ∧ records.length = real.length then []
          else (real.filter (fun id => decide (id ∉ records.map UserBasic.ID))).map
            (fun id => Call.cacheSetCacheWithNotFound (c.GetUserBasicCacheKey id)))
        = (real.filter (fun id => decide (id ∉ records.map UserBasic.ID))).map
            (fun id => Call.cacheSetCacheWithNotFound (c.GetUserBasicCacheKey id)) := by
      split
      · rename_i h
        have hall := all_returned_of_length_eq real records hnodup hsub h.2
        have hnil : real.filter (fun id => decide (id ∉ records.map UserBasic.ID)) = [] := by
          rw [List.filter_eq_nil_iff]
          intro a ha
          simpa using hall a ha
        rw [hnil]
        rfl
      · exact filter_isCacheWrite_placeholders _ _
    rw [e1, e2]
    simp [Call.isCacheWrite]
  refine ⟨hwrites, ?_, ?_, fun r hr => valMap_get?_of_mem c records _ hnodup r hr⟩
  · intro id hid
    obtain ⟨hin, hnot⟩ := List.mem_filter.mp hid
    have hmem : id ∈ ids.filter (fun id => !hit.contains id) := by
      have := (realMissedIDs_sublist c (userBasicDao.missedIDs hit ids) (c.MultiGet ids w).2)
      rw [hp1] at this
      exact this.subset hin
    obtain ⟨h1, h2⟩ := List.mem_filter.mp hmem
    exact ⟨h1, by simpa using h2, by simpa using hnot⟩
  · intro id
    have hmemf : Call.cacheSetCacheWithNotFound (c.GetUserBasicCacheKey id)
          ∈ ((NewUserBasicDao db (some c)).GetByIDs ids w).2.log.drop w.log.length
        ↔ Call.cacheSetCacheWithNotFound (c.GetUserBasicCacheKey id)
          ∈ (((NewUserBasicDao db (some c)).GetByIDs ids w).2.log.drop w.log.length).filter
            Call.isCacheWrite := by
      simp [List.mem_filter, Call.isCacheWrite]
    rw [hmemf, hwrites, List.mem_append]
    constructor
    · rintro (h | h)
      · split at h <;> simp at h
      · obtain ⟨j, hj, hkey⟩ := List.mem_map.mp h
        have hji : j = id :=
          GetUserBasicCacheKey_injective c j id (by simpa using hkey)
        subst hji
        obtain ⟨hin, hnot⟩ := List.mem_filter.mp hj
        exact ⟨hin, by simpa using hnot⟩
    · rintro ⟨hin, hnot⟩
      exact Or.inr (List.mem_map.mpr ⟨id, List.mem_filter.mpr ⟨hin, by simpa using hnot⟩, rfl⟩)

/-- C8 at a concrete input: ids 3 and 4 are requested with a cold cache; row 3 is stored
and row 4 is not. -/
theorem GetByIDs_cache_writes_witness :
    (memDB.Find [3, 4] worldCold.st).1 = ([mkUser 3 "cy"], none) ∧
    (memDao.GetByIDs [3, 4] worldCold).2.log.filter Call.isCacheWrite
      = [Call.cacheMultiSet ⟨[("userBasic:3", mkUser 3 "cy")]⟩ UserBasicExpireTime,
         Call.cacheSetCacheWithNotFound "userBasic:4"] ∧
    (memDao.GetByIDs [3, 4] worldCold).2.st.entries
      = ⟨[("userBasic:3", MemEntry.value (mkUser 3 "cy")),
          ("userBasic:4", MemEntry.placeholder)]⟩ :=
  have h := GetByIDs_cache_writes memDB memUserBasicCache [3, 4] worldCold GoMap.empty [3, 4]
    (userBasicDao.realMissedIDs memUserBasicCache [3, 4]
      (memUserBasicCache.MultiGet [3, 4] worldCold).2).2
    [mkUser 3 "cy"] (by decide) (Prod.ext (by decide) rfl) (by decide) (by decide)
    (by decide) (by decide)
  ⟨by decide, h.1, by decide⟩

/-- C9, the claim as stated fails: id 5 is probed on the cold cache, which installs a
placeholder, and row 5 is created afterwards. Cache reads, cache writes and storage all
work, and storage holds rows 3 and 5; `GetByIDs` for the ids 3 and 5 returns a nil error
and a map that holds id 3 only, although id 5 is requested and exists in storage. The
placeholdered id 5 is not queried. -/
theorem GetByIDs_key_set_counterexample :
    worldProbedCreated.st.getErr = none ∧ worldProbedCreated.st.setErr = none ∧
    worldProbedCreated.st.dbErr = none ∧
    worldProbedCreated.st.entries.get? "userBasic:5" = some MemEntry.placeholder ∧
    (memDB.Find [3, 5] worldProbedCreated.st).1
      = ([mkUser 3 "cy", mkUser 5 "eve"], none) ∧
    visibleRow worldProbedCreated.st.rows 5 = some (mkUser 5 "eve") ∧
    (memDao.GetByIDs [3, 5] worldProbedCreated).1
      = (some ⟨[(3, some (mkUser 3 "cy"))]⟩, none) ∧
    (⟨[(3, some (mkUser 3 "cy"))]⟩ : GoMap Nat (Ptr UserBasic)).contains 5 = false ∧
    (memDao.GetByIDs [3, 5] worldProbedCreated).2.log.drop worldProbedCreated.log.length
      = [Call.cacheMultiGet ["userBasic:3", "userBasic:5"], Call.cacheGet "userBasic:3",
         Call.cacheGet "userBasic:5", Call.dbFind [3],
         Call.cacheMultiSet ⟨[("userBasic:3", mkUser 3 "cy")]⟩ UserBasicExpireTime] := by
  decide

/-- C9, amended: `GetByIDs` does not fail because requested ids do not exist. On the cached
path, when the batch read succeeds with hit map `hit` and the storage query over the real
misses `real` (if there are any) answers with the rows of `table` whose id is queried, the
error is nil and an id is a key of the returned map exactly when it is requested and either
cached or a real miss that `table` holds. With a backend whose `Get` leaves the backend
state alone, a real miss is an id that is not cached and whose probe reports no
placeholder; an id that is not cached and is placeholdered, also when `table` holds it, or
absent from `table` is omitted; and when no requested id is placeholdered while `table`
holds it, the key set is exactly the requested ids that are cached or held by `table`. -/
theorem GetByIDs_key_set (db : GormDB σ) (c : userBasicCache σ) (ids : List Nat)
    (w : World σ) (hit : GoMap Nat (Ptr UserBasic)) (real : List Nat) (w2 : World σ)
    (table : List UserBasic)
    (hmg : (c.MultiGet ids w).1 = (some hit, none))
    (hp : userBasicDao.realMissedIDs c (userBasicDao.missedIDs hit ids) (c.MultiGet ids w).2
      = (real, w2))
    (hfind : real ≠ [] →
      (db.Find real w2.st).1 = (table.filter (fun r => decide (r.ID ∈ real)), none)) :
    ∃ m, ((NewUserBasicDao db (some c)).GetByIDs ids w).1 = (some m, none) ∧
      (∀ k, m.contains k = true ↔
        k ∈ ids ∧ (hit.contains k = true ∨ (k ∈ real ∧ ∃ r ∈ table, r.ID = k))) ∧
      ((∀ key s, (c.cache.Get key s).2 = s) →
        (∀ k, m.contains k = true ↔
          k ∈ ids ∧ (hit.contains k = true ∨
            (c.IsPlaceholderErr (c.Get k (c.MultiGet ids w).2).1.2 = false ∧
              ∃ r ∈ table, r.ID = k))) ∧
        (∀ k, hit.contains k = false →
          (c.IsPlaceholderErr (c.Get k (c.MultiGet ids w).2).1.2 = true ∨
            ¬ ∃ r ∈ table, r.ID = k) → m.contains k = false) ∧
        ((∀ k ∈ ids, c.IsPlaceholderErr (c.Get k (c.MultiGet ids w).2).1.2 = true →
            ¬ ∃ r ∈ table, r.ID = k) →
          ∀ k, m.contains k = true ↔
            k ∈ ids ∧ (hit.contains k = true ∨ ∃ r ∈ table, r.ID = k))) := by
  have hp1 : (userBasicDao.realMissedIDs c (userBasicDao.missedIDs hit ids)
      (c.MultiGet ids w).2).1 = real := by rw [hp]
  have hp2 : (userBasicDao.realMissedIDs c (userBasicDao.missedIDs hit ids)
      (c.MultiGet ids w).2).2 = w2 := by rw [hp]
  have hsubl : real.Sublist (ids.filter (fun id => !hit.contains id)) := by
    rw [← hp1]
    exact realMissedIDs_sublist c _ _
  have hrealmem : ∀ k, k ∈ real → k ∈ ids ∧ hit.contains k = false := by
    intro k hk
    obtain ⟨h1, h2⟩ := List.mem_filter.mp (hsubl.subset hk)
    exact ⟨h1, by simpa using h2⟩
  have hhit : ∀ k, hit.contains k = true → k ∈ ids := multiGet_hit_mem c ids w hit hmg
  -- the general characterisation, for the map `m` that is returned
  have key : ∃ m, ((NewUserBasicDao db (some c)).GetByIDs ids w).1 = (some m, none) ∧
      (∀ k, m.contains k = true ↔
        k ∈ ids ∧ (hit.contains k = true ∨ (k ∈ real ∧ ∃ r ∈ table, r.ID = k))) := by
    by_cases hreal : real = []
    · refine ⟨hit, ?_, ?_⟩
      · rw [GetByIDs_no_real_miss db c ids w hit hmg (by rw [hp1]; exact hreal)]
      · intro k
        constructor
        · intro hk
          exact ⟨hhit k hk, Or.inl hk⟩
        · rintro ⟨_, h | ⟨h, _⟩⟩
          · exact h
          · simp [hreal] at h
    · refine ⟨userBasicDao.mergeRecords hit (table.filter (fun r => decide (r.ID ∈ real))), ?_, ?_⟩
      · rw [GetByIDs_find_ok db c ids w hit _ hmg (by rw [hp1]; exact hreal)
          (by rw [hp1, hp2]; exact hfind hreal)]
      · intro k
        rw [mergeRecords_contains]
        have hrec : k ∈ (table.filter (fun r => decide (r.ID ∈ real))).map UserBasic.ID
            ↔ (k ∈ real ∧ ∃ r ∈ table, r.ID = k) := by
          simp only [List.mem_map, List.mem_filter, decide_eq_true_eq]
          constructor
          · rintro ⟨r, ⟨hr, hin⟩, rfl⟩
            exact ⟨hin, r, hr, rfl⟩
          · rintro ⟨hin, r, hr, rfl⟩
            exact ⟨r, ⟨hr, hin⟩, rfl⟩
        rw [hrec]
        constructor
        · rintro (h | h)
          · exact ⟨hhit k h, Or.inl h⟩
          · exact ⟨(hrealmem k h.1).1, Or.inr h⟩
        · rintro ⟨_, h⟩
          exact h
  obtain ⟨m, hm, hchar⟩ := key
  refine ⟨m, hm, hchar, ?_⟩
  intro hro
  have hrealeq : real = (ids.filter (fun id => !hit.contains id)).filter
      (fun id => !c.IsPlaceholderErr (c.Get id (c.MultiGet ids w).2).1.2) := by
    rw [← hp1]
    exact (realMissedIDs_readonly c hro _ _).1
  have hdecl : ∀ k, m.contains k = true ↔
      k ∈ ids ∧ (hit.contains k = true ∨
        (c.IsPlaceholderErr (c.Get k (c.MultiGet ids w).2).1.2 = false ∧
          ∃ r ∈ table, r.ID = k)) := by
    intro k
    rw [hchar k]
    constructor
    · rintro ⟨hk, h | ⟨h, hex⟩⟩
      · exact ⟨hk, Or.inl h⟩
      · rw [hrealeq] at h
        have := (List.mem_filter.mp h).2
        exact ⟨hk, Or.inr ⟨by simpa using this, hex⟩⟩
    · rintro ⟨hk, h | ⟨hph, hex⟩⟩
      · exact ⟨hk, Or.inl h⟩
      · by_cases hc : hit.contains k = true
        · exact ⟨hk, Or.inl hc⟩
        · refine ⟨hk, Or.inr ⟨?_, hex⟩⟩
          rw [hrealeq]
          simp only [List.mem_filter]
          exact ⟨⟨hk, by simpa using hc⟩, by simp [hph]⟩
  refine ⟨hdecl, ?_, ?_⟩
  · intro k hc hom
    by_contra hin
    have hin2 : m.contains k = true := by simpa using hin
    obtain ⟨_, h | ⟨hph, hex⟩⟩ := (hdecl k).mp hin2
    · rw [hc] at h
      exact Bool.false_ne_true h
    · rcases hom with h | h
      · rw [hph] at h
        exact Bool.false_ne_true h
      · exact h hex
  · intro hcoh k
    rw [hdecl k]
    constructor
    · rintro ⟨hk, h | ⟨_, hex⟩⟩
      · exact ⟨hk, Or.inl h⟩
      · exact ⟨hk, Or.inr hex⟩
    · rintro ⟨hk, h | hex⟩
      · exact ⟨hk, Or.inl h⟩
      · refine ⟨hk, Or.inr ⟨?_, hex⟩⟩
        by_contra hph
        have hph2 : c.IsPlaceholderErr (c.Get k (c.MultiGet ids w).2).1.2 = true := by
          simpa using hph
        exact hcoh k hk hph2 hex

/-- C9, amended, at a concrete input: of the requested ids 1, 2, 3, 4 the map holds the
cached id 1 and the stored id 3; the placeholdered id 2 and the absent id 4 are left
out. -/
theorem GetByIDs_key_set_witness :
    (memUserBasicCache.MultiGet [1, 2, 3, 4] worldABC).1
      = (some ⟨[(1, some (mkUser 1 "ann"))]⟩, none) ∧
    (memDB.Find [3, 4] worldABC.st).1 = ([mkUser 3 "cy"], none) ∧
    (memDao.GetByIDs [1, 2, 3, 4] worldABC).1
      = (some ⟨[(1, some (mkUser 1 "ann")), (3, some (mkUser 3 "cy"))]⟩, none) ∧
    (∃ m, (memDao.GetByIDs [1, 2, 3, 4] worldABC).1 = (some m, none) ∧
      (∀ k, m.contains k = true ↔
        k ∈ [1, 2, 3, 4] ∧
          ((⟨[(1, some (mkUser 1 "ann"))]⟩ : GoMap Nat (Ptr UserBasic)).contains k = true ∨
            (memUserBasicCache.IsPlaceholderErr
                (memUserBasicCache.Get k
                  (memUserBasicCache.MultiGet [1, 2, 3, 4] worldABC).2).1.2 = false ∧
              ∃ r ∈ [mkUser 1 "ann", mkUser 3 "cy"], r.ID = k)))) :=
  have h := GetByIDs_key_set memDB memUserBasicCache [1, 2, 3, 4] worldABC
    ⟨[(1, some (mkUser 1 "ann"))]⟩ [3, 4]
    (userBasicDao.realMissedIDs memUserBasicCache [2, 3, 4]
      (memUserBasicCache.MultiGet [1, 2, 3, 4] worldABC).2).2
    [mkUser 1 "ann", mkUser 3 "cy"]
    (by decide) (Prod.ext (by decide) rfl) (fun _ => by decide)
  ⟨by decide, by decide, by decide,
   h.elim fun m hm => ⟨m, hm.1, (hm.2.2 memCache_get_readonly).1⟩⟩

end GetByIDs

section UpdateByID

variable {σ : Type}

/-- C10, as stated, fails: with a cache configured, `UpdateByID` on a record whose id is 0
returns the validation error and makes no storage call, but it does call the cache: the
invalidation `Del` for id 0 is issued. -/
theorem UpdateByID_zero_id_counterexample :
    (memDao.UpdateByID (mkUser 0 "x") worldWarm).1 = some (GoError.other "id cannot be 0") ∧
    (memDao.UpdateByID (mkUser 0 "x") worldWarm).2.log.filter Call.isStorage = [] ∧
    (memDao.UpdateByID (mkUser 0 "x") worldWarm).2.log.filter Call.isCache
      = [Call.cacheDel "userBasic:0"] ∧
    (memDao.UpdateByTx memDB (mkUser 0 "x") worldWarm).2.log.filter Call.isCache
      = [Call.cacheDel "userBasic:0"] := by
  decide

/-- C10, amended: `UpdateByID` and `UpdateByTx` called with a record whose id is 0 return
the validation error "id cannot be 0" without making any storage call; the cache
invalidation that follows the update is still issued, so the only call made is one cache
`Del` for id 0 when a cache is configured, and no call at all when none is. -/
theorem UpdateByID_zero_id (db tx : GormDB σ) (xCache : Option (userBasicCache σ))
    (table : UserBasic) (w : World σ) (hid : table.ID = 0) :
    ((NewUserBasicDao db xCache).UpdateByID table w).1
      = some (GoError.other "id cannot be 0") ∧
    ((NewUserBasicDao db xCache).UpdateByID table w).2.log
      = w.log ++ (match xCache with
          | none => []
          | some c => [Call.cacheDel (c.GetUserBasicCacheKey 0)]) ∧
    (((NewUserBasicDao db xCache).UpdateByID table w).2.log.drop w.log.length).filter
      Call.isStorage = [] ∧
    ((NewUserBasicDao db xCache).UpdateByTx tx table w).1
      = some (GoError.other "id cannot be 0") ∧
    ((NewUserBasicDao db xCache).UpdateByTx tx table w).2.log
      = w.log ++ (match xCache with
          | none => []
          | some c => [Call.cacheDel (c.GetUserBasicCacheKey 0)]) ∧
    (((NewUserBasicDao db xCache).UpdateByTx tx table w).2.log.drop w.log.length).filter
      Call.isStorage = [] := by
  cases xCache with
  | none =>
    simp [NewUserBasicDao, userBasicDao.UpdateByID, userBasicDao.UpdateByTx,
      userBasicDao.updateDataByID, userBasicDao.deleteCache, hid]
  | some c =>
    simp [NewUserBasicDao, userBasicDao.UpdateByID, userBasicDao.UpdateByTx,
      userBasicDao.updateDataByID, userBasicDao.deleteCache, hid, Call.isStorage]

/-- C10 amended, at a concrete input: with and without a cache. -/
theorem UpdateByID_zero_id_witness :
    (mkUser 0 "x").ID = 0 ∧
    (memDao.UpdateByID (mkUser 0 "x") worldWarm).1 = some (GoError.other "id cannot be 0") ∧
    (memDao.UpdateByID (mkUser 0 "x") worldWarm).2.log = [Call.cacheDel "userBasic:0"] ∧
    ((NewUserBasicDao memDB none).UpdateByID (mkUser 0 "x") worldWarm).2.log = [] :=
  ⟨rfl,
   (UpdateByID_zero_id memDB memDB (some memUserBasicCache) (mkUser 0 "x") worldWarm rfl).1,
   (UpdateByID_zero_id memDB memDB (some memUserBasicCache) (mkUser 0 "x") worldWarm rfl).2.1,
   (UpdateByID_zero_id memDB memDB none (mkUser 0 "x") worldWarm rfl).2.1⟩

/-- C11: for a record with id at least 1, `updateDataByID` hands storage one column update
that binds exactly the columns whose field in the record is non-zero or non-empty, each
to the supplied value (UserBasic: identity, name, password, email; UserRepository:
identity, user_identity, parent_id, repository_identity, ext, name); a column whose field
is zero or empty is not bound, and neither is any other column, such as id, created_at,
updated_at or deleted_at. -/
theorem updateDataByID_columns (db : GormDB σ) (dbr : GormDBUserRepository σ)
    (d : userBasicDao σ) (table : UserBasic) (repo : UserRepository) (w : World σ)
    (hid : 1 ≤ table.ID) (hrid : 1 ≤ repo.ID) :
    (∃ update : GoMap String GoValue,
      d.updateDataByID db table w = w.call (Call.dbUpdates table update) (db.Updates table update) ∧
      update.get? "identity"
        = (if table.Identity = "" then none else some (GoValue.str table.Identity)) ∧
      update.get? "name" = (if table.Name = "" then none else some (GoValue.str table.Name)) ∧
      update.get? "password"
        = (if table.Password = "" then none else some (GoValue.str table.Password)) ∧
      update.get? "email" = (if table.Email = "" then none else some (GoValue.str table.Email)) ∧
      (∀ col, col ∉ ["identity", "name", "password", "email"] → update.get? col = none)) ∧
    (∃ update : GoMap String GoValue,
      userRepositoryDao.updateDataByID dbr repo w
        = w.call (Call.dbUpdatesUserRepository repo update) (dbr.Updates repo update) ∧
      update.get? "identity"
        = (if repo.Identity = "" then none else some (GoValue.str repo.Identity)) ∧
      update.get? "user_identity"
        = (if repo.UserIdentity = "" then none else some (GoValue.str repo.UserIdentity)) ∧
      update.get? "parent_id"
        = (if repo.ParentID = 0 then none else some (GoValue.int repo.ParentID)) ∧
      update.get? "repository_identity"
        = (if repo.RepositoryIdentity = "" then none
           else some (GoValue.str repo.RepositoryIdentity)) ∧
      update.get? "ext" = (if repo.Ext = "" then none else some (GoValue.str repo.Ext)) ∧
      update.get? "name" = (if repo.Name = "" then none else some (GoValue.str repo.Name)) ∧
      (∀ col, col ∉ ["identity", "user_identity", "parent_id", "repository_identity", "ext",
          "name"] → update.get? col = none)) := by
  have h2 : ¬ repo.ID < 1 := Nat.not_lt.mpr hrid
  constructor
  · exact updateDataByID_userBasic db d table w hid
  · refine ⟨_, by simp only [userRepositoryDao.updateDataByID, h2, if_false]; rfl,
      ?_, ?_, ?_, ?_, ?_, ?_, ?_⟩
    all_goals first
      | (intro col hcol
         simp only [List.mem_cons, List.mem_singleton, List.not_mem_nil, or_false, not_or] at hcol
         obtain ⟨c1, c2, c3, c4, c5, c6⟩ := hcol
         have e1 : ¬ "identity" = col := fun h => c1 h.symm
         have e2 : ¬ "user_identity" = col := fun h => c2 h.symm
         have e3 : ¬ "parent_id" = col := fun h => c3 h.symm
         have e4 : ¬ "repository_identity" = col := fun h => c4 h.symm
         have e5 : ¬ "ext" = col := fun h => c5 h.symm
         have e6 : ¬ "name" = col := fun h => c6 h.symm
         by_cases a : repo.Identity = "" <;> by_cases b : repo.UserIdentity = "" <;>
           by_cases c : repo.ParentID = 0 <;> by_cases e : repo.RepositoryIdentity = "" <;>
           by_cases f : repo.Ext = "" <;> by_cases g : repo.Name = "" <;>
           simp [a, b, c, e, f, g, GoMap.get?_set, GoMap.get?_empty, e1, e2, e3, e4, e5, e6])
      | (by_cases a : repo.Identity = "" <;> by_cases b : repo.UserIdentity = "" <;>
           by_cases c : repo.ParentID = 0 <;> by_cases e : repo.RepositoryIdentity = "" <;>
           by_cases f : repo.Ext = "" <;> by_cases g : repo.Name = "" <;>
           simp [a, b, c, e, f, g, GoMap.get?_set, GoMap.get?_empty])

/-- C11 at a concrete input: a user record that carries only a name, and a file entry
that carries a user identity, a parent id and a name. -/
theorem updateDataByID_columns_witness :
    1 ≤ (mkUser 1 "x").ID ∧ 1 ≤ docsFolder.ID ∧
    (memDao.updateDataByID memDB (mkUser 1 "x") worldWarm).2.log
      = [Call.dbUpdates (mkUser 1 "x") ⟨[("name", GoValue.str "x")]⟩] ∧
    (userRepositoryDao.updateDataByID nullRepoDB docsFolder worldWarm).2.log
      = [Call.dbUpdatesUserRepository docsFolder
          ⟨[("user_identity", GoValue.str "u-1"), ("parent_id", GoValue.int 7),
            ("name", GoValue.str "docs")]⟩] ∧
    (∃ update : GoMap String GoValue,
      memDao.updateDataByID memDB (mkUser 1 "x") worldWarm
        = worldWarm.call (Call.dbUpdates (mkUser 1 "x") update)
            (memDB.Updates (mkUser 1 "x") update) ∧
      update.get? "name" = some (GoValue.str "x") ∧ update.get? "email" = none ∧
      update.get? "id" = none) :=
  ⟨by decide, by decide, by decide, by decide,
   (updateDataByID_columns memDB nullRepoDB memDao (mkUser 1 "x") docsFolder worldWarm
      (by decide) (by decide)).1.elim
    fun u hu => ⟨u, hu.1, hu.2.2.1, hu.2.2.2.2.1, hu.2.2.2.2.2 "id" (by decide)⟩⟩

end UpdateByID

section Invalidation

variable {σ : Type}

/-- C12, the claim as stated fails: row 3 is cached and cache writes fail. `UpdateByID`
succeeds and issues the `Del` for the key of id 3, whose error is discarded; the record
is still cached afterwards. The same holds for a successful `DeleteByID`, after which the
table holds no row for id 3. -/
theorem invalidation_counterexample :
    worldDelFails.st.entries.get? "userBasic:3" = some (MemEntry.value (mkUser 3 "cy")) ∧
    (memDao.UpdateByID (mkUser 3 "x") worldDelFails).1 = none ∧
    ((memDao.UpdateByID (mkUser 3 "x") worldDelFails).2.log.drop
      worldDelFails.log.length).filter Call.isCache = [Call.cacheDel "userBasic:3"] ∧
    (memDao.UpdateByID (mkUser 3 "x") worldDelFails).2.st.entries.get? "userBasic:3"
      = some (MemEntry.value (mkUser 3 "cy")) ∧
    (memDao.DeleteByID 3 worldDelFails).1 = none ∧
    (memDao.DeleteByID 3 worldDelFails).2.st.entries.get? "userBasic:3"
      = some (MemEntry.value (mkUser 3 "cy")) ∧
    visibleRow (memDao.DeleteByID 3 worldDelFails).2.st.rows 3 = none := by
  decide

/-- C12, amended: the cache calls of `UpdateByID` and `UpdateByTx`, and of a successful
`DeleteByID`, `DeleteByTx` or `DeleteByIDs`, are exactly one `Del` per affected id: no entry
is rewritten in place and no call names the key of another id. The error of the `Del` is
discarded: each operation returns what its storage call returned. On the in-memory
backend, when the `Del` succeeds (cache writes work) the entry of every affected id is
absent afterwards, whether it was a record or a placeholder before, and every other key is
bound as before; when the `Del` fails (cache writes fail) every entry, that of an affected
id included, is bound as before. -/
theorem invalidation_removes_entries (db tx : GormDB σ) (c : userBasicCache σ) (w : World σ) :
    (∀ table : UserBasic,
      (((NewUserBasicDao db (some c)).UpdateByID table w).2.log.drop w.log.length).filter
        Call.isCache = [Call.cacheDel (c.GetUserBasicCacheKey table.ID)]) ∧
    (∀ table : UserBasic,
      (((NewUserBasicDao db (some c)).UpdateByTx tx table w).2.log.drop w.log.length).filter
        Call.isCache = [Call.cacheDel (c.GetUserBasicCacheKey table.ID)]) ∧
    (∀ id : Nat, ((NewUserBasicDao db (some c)).DeleteByID id w).1 = none →
      (((NewUserBasicDao db (some c)).DeleteByID id w).2.log.drop w.log.length).filter
        Call.isCache = [Call.cacheDel (c.GetUserBasicCacheKey id)]) ∧
    (∀ id now : Nat, ((NewUserBasicDao db (some c)).DeleteByTx tx id now w).1 = none →
      (((NewUserBasicDao db (some c)).DeleteByTx tx id now w).2.log.drop w.log.length).filter
        Call.isCache = [Call.cacheDel (c.GetUserBasicCacheKey id)]) ∧
    (∀ ids : List Nat, ((NewUserBasicDao db (some c)).DeleteByIDs ids w).1 = none →
      (((NewUserBasicDao db (some c)).DeleteByIDs ids w).2.log.drop w.log.length).filter
        Call.isCache = ids.map (fun id => Call.cacheDel (c.GetUserBasicCacheKey id))) ∧
    (∀ wm : World MemState, wm.st.setErr = none →
      (∀ (table : UserBasic) (k : String),
        (memDao.UpdateByID table wm).2.st.entries.get? k
          = if k = memUserBasicCache.GetUserBasicCacheKey table.ID then none
            else wm.st.entries.get? k) ∧
      (∀ (table : UserBasic) (k : String),
        (memDao.UpdateByTx memDB table wm).2.st.entries.get? k
          = if k = memUserBasicCache.GetUserBasicCacheKey table.ID then none
            else wm.st.entries.get? k) ∧
      (∀ (id : Nat) (k : String), (memDao.DeleteByID id wm).1 = none →
        (memDao.DeleteByID id wm).2.st.entries.get? k
          = if k = memUserBasicCache.GetUserBasicCacheKey id then none
            else wm.st.entries.get? k) ∧
      (∀ (id now : Nat) (k : String), (memDao.DeleteByTx memDB id now wm).1 = none →
        (memDao.DeleteByTx memDB id now wm).2.st.entries.get? k
          = if k = memUserBasicCache.GetUserBasicCacheKey id then none
            else wm.st.entries.get? k) ∧
      (∀ (ids : List Nat) (k : String), (memDao.DeleteByIDs ids wm).1 = none →
        (memDao.DeleteByIDs ids wm).2.st.entries.get? k
          = if k ∈ ids.map memUserBasicCache.GetUserBasicCacheKey then none
            else wm.st.entries.get? k)) ∧
    ((∀ table : UserBasic, ((NewUserBasicDao db (some c)).UpdateByID table w).1
        = ((NewUserBasicDao db (some c)).updateDataByID db table w).1) ∧
      (∀ table : UserBasic, ((NewUserBasicDao db (some c)).UpdateByTx tx table w).1
        = ((NewUserBasicDao db (some c)).updateDataByID tx table w).1) ∧
      (∀ id : Nat, ((NewUserBasicDao db (some c)).DeleteByID id w).1 = (db.Delete id w.st).1) ∧
      (∀ id now : Nat, ((NewUserBasicDao db (some c)).DeleteByTx tx id now w).1
        = (tx.UpdatesWhereID id (GoMap.empty.set "deleted_at" (GoValue.time now)) w.st).1) ∧
      (∀ ids : List Nat,
        ((NewUserBasicDao db (some c)).DeleteByIDs ids w).1 = (db.DeleteIn ids w.st).1)) ∧
    (∀ (wm : World MemState) (e : GoError), wm.st.setErr = some e →
      (∀ table : UserBasic, (memDao.UpdateByID table wm).2.st.entries = wm.st.entries) ∧
      (∀ table : UserBasic, (memDao.UpdateByTx memDB table wm).2.st.entries = wm.st.entries) ∧
      (∀ id : Nat, (memDao.DeleteByID id wm).2.st.entries = wm.st.entries) ∧
      (∀ id now : Nat, (memDao.DeleteByTx memDB id now wm).2.st.entries = wm.st.entries) ∧
      (∀ ids : List Nat, (memDao.DeleteByIDs ids wm).2.st.entries = wm.st.entries)) := by
  refine ⟨?_, ?_, ?_, ?_, ?_, ?_, ?_, ?_⟩
  · intro table
    simp only [NewUserBasicDao, userBasicDao.UpdateByID, userBasicDao.deleteCache, cacheDel_log]
    rcases updateDataByID_log { db := db, cache := some c } db table w with h | ⟨u, h⟩
    · rw [h]
      simp [Call.isCache]
    · rw [h]
      simp [Call.isCache]
  · intro table
    simp only [NewUserBasicDao, userBasicDao.UpdateByTx, userBasicDao.deleteCache, cacheDel_log]
    rcases updateDataByID_log { db := db, cache := some c } tx table w with h | ⟨u, h⟩
    · rw [h]
      simp [Call.isCache]
    · rw [h]
      simp [Call.isCache]
  · intro id hok
    simp only [NewUserBasicDao, userBasicDao.DeleteByID, World.call,
      userBasicDao.deleteCache] at hok ⊢
    cases hd : (db.Delete id w.st).1 with
    | some err => simp [hd] at hok
    | none => simp [hd, Call.isCache]
  · intro id now hok
    simp only [NewUserBasicDao, userBasicDao.DeleteByTx, World.call,
      userBasicDao.deleteCache] at hok ⊢
    cases hd : (tx.UpdatesWhereID id (GoMap.empty.set "deleted_at" (GoValue.time now)) w.st).1 with
    | some err => simp [hd] at hok
    | none => simp [hd, Call.isCache]
  · intro ids hok
    simp only [userBasicDao.DeleteByIDs, World.call] at hok ⊢
    cases hd : ((NewUserBasicDao db (some c)).db.DeleteIn ids w.st).1 with
    | some err => simp [hd] at hok
    | none =>
      simp only [hd, deleteCaches_log]
      simp [Call.isCache, filter_isCache_dels]
  · intro wm hset
    refine ⟨?_, ?_, ?_, ?_, ?_⟩
    · intro table k
      have hf := memUpdateDataByID_frame memDB rfl table wm
      have hst := memDel_st table.ID (memDao.updateDataByID memDB table wm).2
        (by rw [hf.2]; exact hset)
      show (memUserBasicCache.Del table.ID (memDao.updateDataByID memDB table wm).2).2.st.entries.get? k = _
      rw [hst]
      simp only [GoMap.get?, lookupIn_filter_ne, hf.1]
    · intro table k
      have hf := memUpdateDataByID_frame memDB rfl table wm
      have hst := memDel_st table.ID (memDao.updateDataByID memDB table wm).2
        (by rw [hf.2]; exact hset)
      show (memUserBasicCache.Del table.ID (memDao.updateDataByID memDB table wm).2).2.st.entries.get? k = _
      rw [hst]
      simp only [GoMap.get?, lookupIn_filter_ne, hf.1]
    · intro id k hok
      have hfr := (memDB_frame wm.st).2.2.1 id
      cases hd : (memDB.Delete id wm.st).1 with
      | some err =>
        simp [memDao, NewUserBasicDao, userBasicDao.DeleteByID, World.call, hd] at hok
      | none =>
        have hw : (memDao.DeleteByID id wm).2
            = (memUserBasicCache.Del id (wm.call (Call.dbDelete id) (memDB.Delete id)).2).2 := by
          simp [memDao, NewUserBasicDao, userBasicDao.DeleteByID, World.call, hd,
            userBasicDao.deleteCache]
        rw [hw, memDel_st id _ (by simp only [World.call]; rw [hfr.2.1]; exact hset)]
        simp only [GoMap.get?, lookupIn_filter_ne, World.call, hfr.1]
    · intro id now k hok
      have hfr := (memDB_frame wm.st).2.2.2.2 id
        (GoMap.empty.set "deleted_at" (GoValue.time now))
      cases hd : (memDB.UpdatesWhereID id
          (GoMap.empty.set "deleted_at" (GoValue.time now)) wm.st).1 with
      | some err =>
        simp [memDao, NewUserBasicDao, userBasicDao.DeleteByTx, World.call, hd] at hok
      | none =>
        have hw : (memDao.DeleteByTx memDB id now wm).2
            = (memUserBasicCache.Del id
                (wm.call (Call.dbUpdatesWhereID id (GoMap.empty.set "deleted_at" (GoValue.time now)))
                  (memDB.UpdatesWhereID id
                    (GoMap.empty.set "deleted_at" (GoValue.time now)))).2).2 := by
          simp [memDao, NewUserBasicDao, userBasicDao.DeleteByTx, World.call, hd,
            userBasicDao.deleteCache]
        rw [hw, memDel_st id _ (by simp only [World.call]; rw [hfr.2.1]; exact hset)]
        simp only [GoMap.get?, lookupIn_filter_ne, World.call, hfr.1]
    · intro ids k hok
      have hfr := (memDB_frame wm.st).2.2.2.1 ids
      cases hd : (memDB.DeleteIn ids wm.st).1 with
      | some err =>
        simp [memDao, NewUserBasicDao, userBasicDao.DeleteByIDs, World.call, hd] at hok
      | none =>
        have hw : (memDao.DeleteByIDs ids wm).2
            = memDao.deleteCaches ids (wm.call (Call.dbDeleteIn ids) (memDB.DeleteIn ids)).2 := by
          simp [memDao, NewUserBasicDao, userBasicDao.DeleteByIDs, World.call, hd]
        rw [hw, (memDeleteCaches_st ids _
          (by simp only [World.call]; rw [hfr.2.1]; exact hset)).2.2.2.2 k]
        simp only [World.call, hfr.1]

  · refine ⟨fun _ => rfl, fun _ => rfl, ?_, ?_, ?_⟩
    · intro id
      simp only [NewUserBasicDao, userBasicDao.DeleteByID, World.call]
      split <;> simp_all
    · intro id now
      simp only [NewUserBasicDao, userBasicDao.DeleteByTx, World.call]
      split <;> simp_all
    · intro ids
      simp only [NewUserBasicDao, userBasicDao.DeleteByIDs, World.call]
      split <;> simp_all
  · intro wm e hs
    have hd := memDelete_writeFail wm e hs
    exact ⟨fun table => (memUpdateByID_writeFail table wm e hs).2.1,
      fun table => (memUpdateByID_writeFail table wm e hs).2.1, hd.1, hd.2.1, hd.2.2⟩

/-- C12, amended, at a concrete input: `DeleteByIDs [1, 2]` where id 1 is cached and id 2 is
placeholdered; both keys are absent afterwards. -/
theorem invalidation_removes_entries_witness :
    worldABC.st.setErr = none ∧
    (memDao.DeleteByIDs [1, 2] worldABC).1 = none ∧
    (memDao.DeleteByIDs [1, 2] worldABC).2.log.filter Call.isCache
      = [Call.cacheDel "userBasic:1", Call.cacheDel "userBasic:2"] ∧
    (memDao.DeleteByIDs [1, 2] worldABC).2.st.entries.get? "userBasic:1" = none ∧
    (memDao.DeleteByIDs [1, 2] worldABC).2.st.entries.get? "userBasic:2" = none :=
  have h := invalidation_removes_entries memDB memDB memUserBasicCache worldABC
  ⟨rfl, by decide, h.2.2.2.2.1 [1, 2] (by decide),
   (h.2.2.2.2.2.1 worldABC rfl).2.2.2.2 [1, 2] "userBasic:1" (by decide),
   (h.2.2.2.2.2.1 worldABC rfl).2.2.2.2 [1, 2] "userBasic:2" (by decide)⟩

/-- C14, the code at the failing inputs: `DeleteByID` and `DeleteByIDs` have no validation
step. Whatever the id or the list, the first call is the storage delete and the result is
the error storage answers with; on the in-memory table `DeleteByID 0`, `DeleteByIDs []`
and `DeleteByIDs [0]` reach storage and return a nil error. -/
theorem DeleteByID_zero_id_reaches_storage (db : GormDB σ) (xCache : Option (userBasicCache σ))
    (w : World σ) :
    ((NewUserBasicDao db xCache).DeleteByID 0 w).1 = (db.Delete 0 w.st).1 ∧
    (((NewUserBasicDao db xCache).DeleteByID 0 w).2.log.drop w.log.length).head?
      = some (Call.dbDelete 0) ∧
    (∀ ids : List Nat, ((NewUserBasicDao db xCache).DeleteByIDs ids w).1 = (db.DeleteIn ids w.st).1 ∧
      (((NewUserBasicDao db xCache).DeleteByIDs ids w).2.log.drop w.log.length).head?
        = some (Call.dbDeleteIn ids)) ∧
    (memDao.DeleteByID 0 worldWarm).1 = none ∧
    (memDao.DeleteByID 0 worldWarm).2.log = [Call.dbDelete 0, Call.cacheDel "userBasic:0"] ∧
    (memDao.DeleteByIDs [] worldWarm).1 = none ∧
    (memDao.DeleteByIDs [] worldWarm).2.log = [Call.dbDeleteIn []] ∧
    (memDao.DeleteByIDs [0] worldWarm).1 = none ∧
    (memDao.DeleteByIDs [0] worldWarm).2.log
      = [Call.dbDeleteIn [0], Call.cacheDel "userBasic:0"] := by
  refine ⟨?_, ?_, ?_, by decide, by decide, by decide, by decide, by decide, by decide⟩
  · cases xCache <;>
      (simp only [NewUserBasicDao, userBasicDao.DeleteByID, World.call]
       cases (db.Delete 0 w.st).1 <;> rfl)
  · cases xCache with
    | none =>
      simp only [NewUserBasicDao, userBasicDao.DeleteByID, World.call, userBasicDao.deleteCache]
      cases (db.Delete 0 w.st).1 <;> simp
    | some c =>
      simp only [NewUserBasicDao, userBasicDao.DeleteByID, World.call, userBasicDao.deleteCache]
      cases (db.Delete 0 w.st).1 <;> simp
  · intro ids
    have hlog : ∀ (d : userBasicDao σ) (l : List Nat) (v : World σ),
        ∃ rest, (d.deleteCaches l v).log = v.log ++ rest := by
      intro d l
      induction l with
      | nil => intro v; exact ⟨[], by simp [userBasicDao.deleteCaches]⟩
      | cons a rest ih =>
        intro v
        obtain ⟨r, hr⟩ := ih (d.deleteCache a v).2
        cases hc : d.cache with
        | none =>
          refine ⟨r, ?_⟩
          simp only [userBasicDao.deleteCaches, hr]
          simp [userBasicDao.deleteCache, hc]
        | some c =>
          refine ⟨Call.cacheDel (c.GetUserBasicCacheKey a) :: r, ?_⟩
          simp only [userBasicDao.deleteCaches, hr]
          simp [userBasicDao.deleteCache, hc]
    constructor
    · cases xCache <;>
        (simp only [NewUserBasicDao, userBasicDao.DeleteByIDs, World.call]
         cases (db.DeleteIn ids w.st).1 <;> rfl)
    · simp only [userBasicDao.DeleteByIDs, World.call]
      have hdb : (NewUserBasicDao db xCache).db = db := by cases xCache <;> rfl
      rw [hdb]
      cases (db.DeleteIn ids w.st).1 with
      | some err => simp
      | none =>
        obtain ⟨r, hr⟩ := hlog (NewUserBasicDao db xCache) ids
          { st := (db.DeleteIn ids w.st).2, log := w.log ++ [Call.dbDeleteIn ids] }
        simp only [hr]
        simp

end Invalidation

section Create

variable {σ : Type}

/-- C16: `Create` and `CreateByTx` perform no cache operation. With or without a cache,
whether or not the insert succeeds, the only call is the storage insert and the world
left is the one the insert left; `CreateByTx` returns the id the record carries after the
insert together with the insert error. On the in-memory backend the cache entries after
the call are the entries before it. -/
theorem Create_no_cache_call (db tx : GormDB σ) (xCache : Option (userBasicCache σ))
    (table : UserBasic) (w : World σ) :
    ((NewUserBasicDao db xCache).Create table w).1 = (db.Create table w.st).1 ∧
    ((NewUserBasicDao db xCache).Create table w).2.log = w.log ++ [Call.dbCreate table] ∧
    ((NewUserBasicDao db xCache).Create table w).2.st = (db.Create table w.st).2 ∧
    (((NewUserBasicDao db xCache).Create table w).2.log.drop w.log.length).filter Call.isCache
      = [] ∧
    ((NewUserBasicDao db xCache).CreateByTx tx table w).1.2
      = ((tx.Create table w.st).1.1.ID, (tx.Create table w.st).1.2) ∧
    ((NewUserBasicDao db xCache).CreateByTx tx table w).2.log = w.log ++ [Call.dbCreate table] ∧
    ((NewUserBasicDao db xCache).CreateByTx tx table w).2.st = (tx.Create table w.st).2 ∧
    (((NewUserBasicDao db xCache).CreateByTx tx table w).2.log.drop w.log.length).filter
      Call.isCache = [] ∧
    (∀ (row : UserBasic) (wm : World MemState),
      (memDao.Create row wm).2.st.entries = wm.st.entries ∧
      (memDao.CreateByTx memDB row wm).2.st.entries = wm.st.entries) := by
  have hdb : (NewUserBasicDao db xCache).db = db := by cases xCache <;> rfl
  refine ⟨?_, ?_, ?_, ?_, ?_, ?_, ?_, ?_, ?_⟩
  · simp only [userBasicDao.Create, World.call, hdb]
  · simp only [userBasicDao.Create, World.call, hdb]
  · simp only [userBasicDao.Create, World.call, hdb]
  · simp [userBasicDao.Create, World.call, Call.isCache]
  · simp only [userBasicDao.CreateByTx, World.call]
  · simp only [userBasicDao.CreateByTx, World.call]
  · simp only [userBasicDao.CreateByTx, World.call]
  · simp [userBasicDao.CreateByTx, World.call, Call.isCache]
  · intro row wm
    exact ⟨((memDB_frame wm.st).2.1 row).1, ((memDB_frame wm.st).2.1 row).1⟩

end Create

section CacheLayer

variable {σ : Type}

/-- C19: the cache key of an id is the namespace of the entity type followed by the decimal
string of the id (reading the string as a decimal number gives the id back); the four
namespaces end with a colon and are pairwise distinct; within a type two different ids
have different keys; keys of two different types are different for every pair of ids. -/
theorem cache_keys (c : userBasicCache σ) :
    (∀ id, c.GetUserBasicCacheKey id = "userBasic:" ++ Uint64ToStr id) ∧
    (∀ id, GetUserRepositoryCacheKey id = "userRepository:" ++ Uint64ToStr id) ∧
    (∀ id, GetRepositoryPoolCacheKey id = "repositoryPool:" ++ Uint64ToStr id) ∧
    (∀ id, GetShareBasicCacheKey id = "shareBasic:" ++ Uint64ToStr id) ∧
    (∀ id, decimalValue 0 (Uint64ToStr id).data = id) ∧
    (userBasicCachePrefixKey.data.getLast? = some ':' ∧
      userRepositoryCachePrefixKey.data.getLast? = some ':' ∧
      repositoryPoolCachePrefixKey.data.getLast? = some ':' ∧
      shareBasicCachePrefixKey.data.getLast? = some ':') ∧
    [userBasicCachePrefixKey, userRepositoryCachePrefixKey, repositoryPoolCachePrefixKey,
      shareBasicCachePrefixKey].Nodup ∧
    (∀ a b, a ≠ b → c.GetUserBasicCacheKey a ≠ c.GetUserBasicCacheKey b) ∧
    (∀ a b, a ≠ b → GetUserRepositoryCacheKey a ≠ GetUserRepositoryCacheKey b) ∧
    (∀ a b, a ≠ b → GetRepositoryPoolCacheKey a ≠ GetRepositoryPoolCacheKey b) ∧
    (∀ a b, a ≠ b → GetShareBasicCacheKey a ≠ GetShareBasicCacheKey b) ∧
    (∀ a b, c.GetUserBasicCacheKey a ≠ GetUserRepositoryCacheKey b) ∧
    (∀ a b, c.GetUserBasicCacheKey a ≠ GetRepositoryPoolCacheKey b) ∧
    (∀ a b, c.GetUserBasicCacheKey a ≠ GetShareBasicCacheKey b) ∧
    (∀ a b, GetUserRepositoryCacheKey a ≠ GetRepositoryPoolCacheKey b) ∧
    (∀ a b, GetUserRepositoryCacheKey a ≠ GetShareBasicCacheKey b) ∧
    (∀ a b, GetRepositoryPoolCacheKey a ≠ GetShareBasicCacheKey b) := by
  have eUB : userBasicCachePrefixKey.data
      = ['u', 's', 'e', 'r', 'B', 'a', 's', 'i', 'c', ':'] := rfl
  have eUR : userRepositoryCachePrefixKey.data
      = ['u', 's', 'e', 'r', 'R', 'e', 'p', 'o', 's', 'i', 't', 'o', 'r', 'y', ':'] := rfl
  have eRP : repositoryPoolCachePrefixKey.data
      = ['r', 'e', 'p', 'o', 's', 'i', 't', 'o', 'r', 'y', 'P', 'o', 'o', 'l', ':'] := rfl
  have eSB : shareBasicCachePrefixKey.data
      = ['s', 'h', 'a', 'r', 'e', 'B', 'a', 's', 'i', 'c', ':'] := rfl
  refine ⟨fun _ => rfl, fun _ => rfl, fun _ => rfl, fun _ => rfl, decimalValue_Uint64ToStr,
    ⟨by decide, by decide, by decide, by decide⟩, by decide, ?_, ?_, ?_, ?_,
    ?_, ?_, ?_, ?_, ?_, ?_⟩
  · intro a b hab h
    exact hab (GetUserBasicCacheKey_injective c a b h)
  · intro a b hab h
    exact hab (prefixed_key_injective _ a b h)
  · intro a b hab h
    exact hab (prefixed_key_injective _ a b h)
  · intro a b hab h
    exact hab (prefixed_key_injective _ a b h)
  all_goals
    intro a b h
    have hd := congrArg String.data h
    simp [userBasicCache.GetUserBasicCacheKey, GetUserRepositoryCacheKey,
      GetRepositoryPoolCacheKey, GetShareBasicCacheKey, String.data_append, eUB, eUR, eRP,
      eSB] at hd

/-- C19 at a concrete input: the ids 1 and 10. -/
theorem cache_keys_witness :
    (1 : Nat) ≠ 10 ∧
    memUserBasicCache.GetUserBasicCacheKey 1 = "userBasic:1" ∧
    memUserBasicCache.GetUserBasicCacheKey 10 = "userBasic:10" ∧
    memUserBasicCache.GetUserBasicCacheKey 1 ≠ memUserBasicCache.GetUserBasicCacheKey 10 ∧
    GetShareBasicCacheKey 1 ≠ GetShareBasicCacheKey 10 :=
  ⟨by decide, by decide, by decide,
   (cache_keys memUserBasicCache).2.2.2.2.2.2.2.1 1 10 (by decide),
   (cache_keys memUserBasicCache).2.2.2.2.2.2.2.2.2.2.1 1 10 (by decide)⟩

/-- C20: cache round trip. For a non-zero id and a non-nil record, when `Set` succeeds and
the backend hands back under a key what was just stored under it, `Get` for the id right
after the `Set` returns no error and the record that was stored. -/
theorem cache_set_get_roundtrip (c : userBasicCache σ) (id : Nat) (record : UserBasic)
    (ttl : Nat) (w : World σ) (hid : id ≠ 0)
    (hset : (c.Set id (some record) ttl w).1 = none)
    (hback : (c.cache.Set (c.GetUserBasicCacheKey id) record ttl w.st).1 = none →
      (c.cache.Get (c.GetUserBasicCacheKey id)
        (c.cache.Set (c.GetUserBasicCacheKey id) record ttl w.st).2).1 = (some record, none)) :
    (c.Get id (c.Set id (some record) ttl w).2).1 = (some record, none) := by
  simp only [userBasicCache.Set, hid, if_false, World.call] at hset ⊢
  cases hs : (c.cache.Set (c.GetUserBasicCacheKey id) record ttl w.st).1 with
  | some err => simp [hs] at hset
  | none =>
    have hb := hback hs
    have hb1 := congrArg Prod.fst hb
    have hb2 := congrArg Prod.snd hb
    simp only at hb1 hb2
    simp only [hs, userBasicCache.Get, World.call, hb2, hb1]

/-- C20 at a concrete input: row 1 is set and read back on the in-memory backend. -/
theorem cache_set_get_roundtrip_witness :
    (1 : Nat) ≠ 0 ∧
    (memUserBasicCache.Set 1 (some (mkUser 1 "ann")) UserBasicExpireTime worldCold).1 = none ∧
    (memUserBasicCache.Get 1
      (memUserBasicCache.Set 1 (some (mkUser 1 "ann")) UserBasicExpireTime worldCold).2).1
      = (some (mkUser 1 "ann"), none) :=
  ⟨by decide, by decide,
   cache_set_get_roundtrip memUserBasicCache 1 (mkUser 1 "ann") UserBasicExpireTime worldCold
    (by decide) (by decide) (fun _ => by decide)⟩

end CacheLayer

section Scenarios

/-- C13, the claim as stated fails: row 3 named "cy" is read and cached by `GetByID`; then
cache writes start to fail. `UpdateByID` to the name "x" succeeds, as the error of its
cache delete is discarded, and the table holds "x"; the next `GetByID` returns the cached
record named "cy". -/
theorem read_after_update_counterexample :
    (memDao.GetByID 3 worldCold).1 = (some (mkUser 3 "cy"), none) ∧
    worldDelFails.st.entries.get? "userBasic:3" = some (MemEntry.value (mkUser 3 "cy")) ∧
    (memDao.UpdateByID (mkUser 3 "x") worldDelFails).1 = none ∧
    (memDao.UpdateByID (mkUser 3 "x") worldDelFails).2.log.drop worldDelFails.log.length
      = [Call.dbUpdates (mkUser 3 "x") ⟨[("name", GoValue.str "x")]⟩,
         Call.cacheDel "userBasic:3"] ∧
    visibleRow (memDao.UpdateByID (mkUser 3 "x") worldDelFails).2.st.rows 3
      = some (mkUser 3 "x") ∧
    (memDao.GetByID 3 (memDao.UpdateByID (mkUser 3 "x") worldDelFails).2).1
      = (some (mkUser 3 "cy"), none) := by
  decide

/-- C13, amended: read after update, on the in-memory environment. With working cache and
table, for a record with id at least 1 whose row `r` the table holds, after `GetByID` for
the id (which caches `r` when nothing was cached) and a then successful `UpdateByID`, whose
cache delete does not fail, the next `GetByID` reads storage again and returns the record
the table holds after the update: `r` with every non-empty field of the update written
over it (the new name, for one). When cache writes fail at the update, `UpdateByID` returns
what the storage update returned, the error of the cache delete being discarded, and the
next `GetByID` returns the record that was cached before. -/
theorem read_after_update (w : World MemState) (table r : UserBasic)
    (hg : w.st.getErr = none) (hs : w.st.setErr = none) (hd : w.st.dbErr = none)
    (hid : 1 ≤ table.ID) (hrow : visibleRow w.st.rows table.ID = some r) :
    (w.st.entries.get? (memUserBasicCache.GetUserBasicCacheKey table.ID) = none →
      (memDao.GetByID table.ID w).1 = (some r, none) ∧
      (memDao.GetByID table.ID w).2.st.entries.get?
        (memUserBasicCache.GetUserBasicCacheKey table.ID) = some (MemEntry.value r)) ∧
    (memDao.UpdateByID table (memDao.GetByID table.ID w).2).1 = none ∧
    (∃ r2 : UserBasic,
      visibleRow (memDao.UpdateByID table (memDao.GetByID table.ID w).2).2.st.rows table.ID
        = some r2 ∧
      (memDao.GetByID table.ID (memDao.UpdateByID table (memDao.GetByID table.ID w).2).2).1
        = (some r2, none) ∧
      ((memDao.GetByID table.ID
          (memDao.UpdateByID table (memDao.GetByID table.ID w).2).2).2.log.drop
        (memDao.UpdateByID table (memDao.GetByID table.ID w).2).2.log.length).filter
          Call.isStorage = [Call.dbFirst table.ID] ∧
      r2.ID = table.ID ∧
      r2.Identity = (if table.Identity = "" then r.Identity else table.Identity) ∧
      r2.Name = (if table.Name = "" then r.Name else table.Name) ∧
      r2.Password = (if table.Password = "" then r.Password else table.Password) ∧
      r2.Email = (if table.Email = "" then r.Email else table.Email)) ∧
    (∀ (w2 : World MemState) (v : UserBasic) (e : GoError),
      w2.st.getErr = none → w2.st.setErr = some e →
      w2.st.entries.get? (memUserBasicCache.GetUserBasicCacheKey table.ID)
        = some (MemEntry.value v) →
      (memDao.UpdateByID table w2).1 = (memDao.updateDataByID memDB table w2).1 ∧
      (memDao.GetByID table.ID (memDao.UpdateByID table w2).2).1 = (some v, none)) := by
  have hid0 : table.ID ≠ 0 := by omega
  obtain ⟨e1, e2, e3, e4, _⟩ := memGetByID_effect table.ID w hs
  have hs1 : (memDao.GetByID table.ID w).2.st.setErr = none := by rw [e3, hs]
  have hd1 : (memDao.GetByID table.ID w).2.st.dbErr = none := by rw [e4, hd]
  obtain ⟨u, f1, f2, f3, f4, hres, hrows, hent, hge, hse, hde⟩ :=
    memUpdateByID_eq table (memDao.GetByID table.ID w).2 hs1 hd1 hid
  have hrID : r.ID = table.ID ∧ r.DeletedAt = none := by
    have := List.find?_some hrow
    simpa using this
  have hrow2 : visibleRow (memDao.UpdateByID table (memDao.GetByID table.ID w).2).2.st.rows
      table.ID = some (applyUpdate u r) := by
    rw [hrows, e1, patchRows, visibleRow_map_of_keeps _ _ _
      (fun x => by by_cases hx : x.ID = table.ID ∧ x.DeletedAt = none
                   · simp only [hx, and_self, if_true]; exact (applyUpdate_ID u x).1.trans hx.1
                   · simp only [hx, if_false])
      (fun x => by by_cases hx : x.ID = table.ID ∧ x.DeletedAt = none
                   · simp only [hx, and_self, if_true]; exact (applyUpdate_ID u x).2.trans hx.2
                   · simp only [hx, if_false]),
      hrow]
    simp [hrID]
  have hent2 : (memDao.UpdateByID table (memDao.GetByID table.ID w).2).2.st.entries.get?
      (memUserBasicCache.GetUserBasicCacheKey table.ID) = none := by
    rw [hent]
    simp only [GoMap.get?, lookupIn_filter_ne, if_true]
  have h3 := memGetByID_miss_found table.ID
    (memDao.UpdateByID table (memDao.GetByID table.ID w).2).2 (applyUpdate u r)
    (by rw [hge, e2, hg]) (by rw [hse, hs1]) (by rw [hde, hd1]) hent2 hrow2 hid0
  have hfields := applyUpdate_fields u table r f1 f2 f3 f4
  refine ⟨?_, hres, ⟨applyUpdate u r, hrow2, h3.1, ?_, (applyUpdate_ID u r).1.trans hrID.1,
    hfields.1, hfields.2.1, hfields.2.2.1, hfields.2.2.2⟩, ?_⟩
  · intro he
    have h1 := memGetByID_miss_found table.ID w r hg hs hd he hrow hid0
    refine ⟨h1.1, ?_⟩
    rw [h1.2.1]
    simp [GoMap.get?_set]
  · rw [h3.2.2]
    simp [Call.isStorage]
  · intro w2 v e hg2 hs2 he2
    obtain ⟨k1, k2, k3⟩ := memUpdateByID_writeFail table w2 e hs2
    refine ⟨k1, ?_⟩
    rw [memGetByID_hit table.ID _ v (by rw [k3]; exact hg2) (by rw [k2]; exact he2)]

/-- C13, amended, at a concrete input: row 3 named "cy" is read, renamed to "x" and read
again. -/
theorem read_after_update_witness :
    visibleRow worldCold.st.rows 3 = some (mkUser 3 "cy") ∧
    (memDao.GetByID 3 worldCold).1 = (some (mkUser 3 "cy"), none) ∧
    (memDao.UpdateByID (mkUser 3 "x") (memDao.GetByID 3 worldCold).2).1 = none ∧
    (memDao.GetByID 3 (memDao.UpdateByID (mkUser 3 "x") (memDao.GetByID 3 worldCold).2).2).1
      = (some (mkUser 3 "x"), none) ∧
    (∃ r2 : UserBasic,
      (memDao.GetByID 3 (memDao.UpdateByID (mkUser 3 "x") (memDao.GetByID 3 worldCold).2).2).1
        = (some r2, none) ∧ r2.Name = "x") :=
  have h := read_after_update worldCold (mkUser 3 "x") (mkUser 3 "cy") rfl rfl rfl (by decide)
    (by decide)
  ⟨by decide, (h.1 (by decide)).1, h.2.1, by decide,
   h.2.2.1.elim fun r2 hr => ⟨r2, hr.2.1, hr.2.2.2.2.2.1⟩⟩

/-- C17: the placeholder-versus-create race, on the in-memory environment with working
cache and table. When no row with the id exists and nothing is cached for it, `GetByID`
reports record-not-found and installs a placeholder; a `Create` of a row with that id then
succeeds and the table holds the row; yet the next `GetByID` still reports
record-not-found, from the placeholder alone and without a storage call. -/
theorem placeholder_hides_created_row (w : World MemState) (table : UserBasic)
    (hg : w.st.getErr = none) (hs : w.st.setErr = none) (hd : w.st.dbErr = none)
    (hid : table.ID ≠ 0) (hvis : table.DeletedAt = none)
    (hnew : table.ID ∉ w.st.rows.map UserBasic.ID)
    (he : w.st.entries.get? (memUserBasicCache.GetUserBasicCacheKey table.ID) = none) :
    (memDao.GetByID table.ID w).1 = (none, some GoError.ErrRecordNotFound) ∧
    (memDao.GetByID table.ID w).2.st.entries.get?
      (memUserBasicCache.GetUserBasicCacheKey table.ID) = some MemEntry.placeholder ∧
    (memDao.Create table (memDao.GetByID table.ID w).2).1 = (table, none) ∧
    (memDB.First table.ID (memDao.Create table (memDao.GetByID table.ID w).2).2.st).1
      = (table, none) ∧
    (memDao.GetByID table.ID (memDao.Create table (memDao.GetByID table.ID w).2).2).1
      = (none, some GoError.ErrRecordNotFound) ∧
    ((memDao.GetByID table.ID (memDao.Create table (memDao.GetByID table.ID w).2).2).2.log.drop
      (memDao.Create table (memDao.GetByID table.ID w).2).2.log.length).filter Call.isStorage
        = [] := by
  have hrow0 := visibleRow_eq_none_of_not_mem w.st.rows table.ID hnew
  obtain ⟨h1res, h1st⟩ := memGetByID_miss_absent table.ID w hg hs hd he hrow0
  have hent1 : (memDao.GetByID table.ID w).2.st.entries.get?
      (memUserBasicCache.GetUserBasicCacheKey table.ID) = some MemEntry.placeholder := by
    rw [h1st]
    simp [GoMap.get?_set]
  have hcreate : memDao.Create table (memDao.GetByID table.ID w).2
      = ((table, none),
         { st := { (memDao.GetByID table.ID w).2.st with rows := w.st.rows ++ [table] },
           log := (memDao.GetByID table.ID w).2.log ++ [Call.dbCreate table] }) := by
    have hdb : memDao.db = memDB := rfl
    simp only [userBasicDao.Create, World.call, hdb]
    rw [memCreate_eq table _ (by rw [h1st]; exact hd) hid (by rw [h1st]; exact hnew), h1st]
  have hrows2 : visibleRow (memDao.Create table (memDao.GetByID table.ID w).2).2.st.rows table.ID
      = some table := by
    rw [hcreate]
    exact visibleRow_append_new w.st.rows table hnew hvis
  have hfirst : (memDB.First table.ID
      (memDao.Create table (memDao.GetByID table.ID w).2).2.st).1 = (table, none) := by
    rw [memFirst_eq _ _ (by rw [hcreate, h1st]; exact hd), hrows2]
  have h3 := memGetByID_placeholder table.ID (memDao.Create table (memDao.GetByID table.ID w).2).2
    (by rw [hcreate, h1st]; exact hg) (by rw [hcreate]; exact hent1)
  refine ⟨h1res, hent1, by rw [hcreate], hfirst, by rw [h3], ?_⟩
  rw [h3]
  simp [Call.isStorage]

/-- C17 at a concrete input: id 5 is probed, then created, then read again. -/
theorem placeholder_hides_created_row_witness :
    (5 : Nat) ∉ worldCold.st.rows.map UserBasic.ID ∧
    (memDao.GetByID 5 worldCold).1 = (none, some GoError.ErrRecordNotFound) ∧
    (memDao.Create (mkUser 5 "eve") (memDao.GetByID 5 worldCold).2).1 = (mkUser 5 "eve", none) ∧
    (memDB.First 5 (memDao.Create (mkUser 5 "eve") (memDao.GetByID 5 worldCold).2).2.st).1
      = (mkUser 5 "eve", none) ∧
    (memDao.GetByID 5 (memDao.Create (mkUser 5 "eve") (memDao.GetByID 5 worldCold).2).2).1
      = (none, some GoError.ErrRecordNotFound) :=
  have h := placeholder_hides_created_row worldCold (mkUser 5 "eve") rfl rfl rfl (by decide) rfl
    (by decide) (by decide)
  ⟨by decide, h.1, h.2.2.1, h.2.2.2.1, h.2.2.2.2.1⟩

/-- C15, the claim as stated fails: the world in which row 3 was read into the cold cache,
cache writes then started to fail and the row was renamed to "x" is reachable by
sequential calls; its cache holds the record named "cy" under the key of id 3 while the
table holds "x", so the cache is not coherent and a cache hit returns "cy". -/
theorem cache_coherence_counterexample :
    Reachable worldStale ∧
    worldStale.st.entries.get? "userBasic:3" = some (MemEntry.value (mkUser 3 "cy")) ∧
    visibleRow worldStale.st.rows 3 = some (mkUser 3 "x") ∧
    ¬ Coherent worldStale.st.rows worldStale.st.entries ∧
    (memUserBasicCache.Get 3 worldStale).1 = (some (mkUser 3 "cy"), none) := by
  have hr : Reachable ((memDao.UpdateByID (mkUser 3 "x")
      (cacheWritesFail (GoError.other "cache down") (memDao.GetByID 3 worldCold).2)).2) :=
    Reachable.step _ _
      (Reachable.step _ _
        (Reachable.step _ _
          (Reachable.init [mkUser 3 "cy"] none none none 0 [] (by decide))
          (Step.getByID _ 3))
        (Step.outage _ _ (some (GoError.other "cache down")) _ _))
      (Step.updateByID _ (mkUser 3 "x"))
  refine ⟨hr, by decide, by decide, ?_, by decide⟩
  intro hc
  have h3 := hc 3 (mkUser 3 "cy") (by decide)
  exact absurd h3 (by decide)

/-- C15, amended: cache coherence, on the in-memory environment. In every world reachable
from an empty cache by sequential `Create`, `GetByID`, `GetByIDs`, `UpdateByID`,
`DeleteByID` and `DeleteByIDs` calls in which no cache delete fails (storage changed by
these calls only, while cache reads, cache writes and storage may fail and recover; a
call that issues a cache delete is made while the cache accepts writes), every record
entry of the cache is the record the table holds for that id; so a cache hit, and with it
`GetByID`, returns the value storage holds, field for field. -/
theorem cache_coherence (w : World MemState) (h : ReachableDelOk w) :
    Coherent w.st.rows w.st.entries ∧
    ∀ id v, (memUserBasicCache.Get id w).1 = (some v, none) →
      visibleRow w.st.rows id = some v ∧
      (memDao.GetByID id w).1 = (some v, none) ∧
      (w.st.dbErr = none → (memDB.First id w.st).1 = (v, none)) := by
  have hinv := Inv_of_ReachableDelOk w h
  refine ⟨hinv.2, ?_⟩
  intro id v hhit
  obtain ⟨hg, he⟩ := memGet_hit_entry id w v hhit
  have hrow := hinv.2 id v he
  refine ⟨hrow, ?_, ?_⟩
  · rw [memGetByID_hit id w v hg he]
  · intro hd
    rw [memFirst_eq id w.st hd, hrow]

/-- C15, amended, at a concrete input: row 3 is read, renamed to "x" while the cache
accepts writes, and read again; the cache then holds the renamed row, as the table does. -/
theorem cache_coherence_witness :
    ReachableDelOk (memDao.GetByID 3
      (memDao.UpdateByID (mkUser 3 "x") (memDao.GetByID 3 worldCold).2).2).2 ∧
    (memUserBasicCache.Get 3 (memDao.GetByID 3
      (memDao.UpdateByID (mkUser 3 "x") (memDao.GetByID 3 worldCold).2).2).2).1
      = (some (mkUser 3 "x"), none) ∧
    visibleRow (memDao.GetByID 3
      (memDao.UpdateByID (mkUser 3 "x") (memDao.GetByID 3 worldCold).2).2).2.st.rows 3
      = some (mkUser 3 "x") :=
  have hr : ReachableDelOk (memDao.GetByID 3
      (memDao.UpdateByID (mkUser 3 "x") (memDao.GetByID 3 worldCold).2).2).2 :=
    ReachableDelOk.step _ _
      (ReachableDelOk.step _ _
        (ReachableDelOk.step _ _
          (ReachableDelOk.init [mkUser 3 "cy"] none none none 0 [] (by decide))
          (StepDelOk.getByID _ 3))
        (StepDelOk.updateByID _ (mkUser 3 "x") (by decide)))
      (StepDelOk.getByID _ 3)
  ⟨hr, by decide, ((cache_coherence _ hr).2 3 (mkUser 3 "x") (by decide)).1⟩

end Scenarios

section CacheContract

variable {σ : Type}

/-- The result of a `MultiGet` whose backend read succeeds: the hits re-keyed by id. -/
theorem cacheMultiGet_ok (c : userBasicCache σ) (ids : List Nat) (w : World σ)
    (itemMap : GoMap String (Ptr UserBasic)) (s2 : σ)
    (h : c.cache.MultiGet (ids.map c.GetUserBasicCacheKey) w.st = ((itemMap, none), s2)) :
    (c.MultiGet ids w).1
      = (some (ids.foldl
          (fun m id =>
            match itemMap.get? (c.GetUserBasicCacheKey id) with
            | some val => m.set id val
            | none => m)
          GoMap.empty), none) := by
  simp only [userBasicCache.MultiGet, World.call, h]

/-- The error of a `MultiSet` is the error of the backend write. -/
theorem cacheMultiSet_err (c : userBasicCache σ) (data : List UserBasic) (t : Nat)
    (w : World σ) :
    (c.MultiSet data t w).1
      = (c.cache.MultiSet
          (data.foldl (fun m v => m.set (c.GetUserBasicCacheKey v.ID) v) GoMap.empty) t w.st).1 := by
  simp only [userBasicCache.MultiSet, World.call]
  split <;> simp_all

/-- A key that is no key of an association list has no entry in it. -/
theorem lookupIn_none_of_not_mem {κ ν : Type} [DecidableEq κ] (k : κ) (l : List (κ × ν))
    (h : k ∉ l.map Prod.fst) : GoMap.lookupIn k l = none := by
  induction l with
  | nil => rfl
  | cons p rest ih =>
    obtain ⟨k1, v1⟩ := p
    simp only [List.map_cons, List.mem_cons, not_or] at h
    simp only [GoMap.lookupIn]
    rw [if_neg (fun e => h.1 e.symm)]
    exact ih h.2

/-- An entry found by lookup is an entry of the list. -/
theorem mem_of_lookupIn {κ ν : Type} [DecidableEq κ] (k : κ) (v : ν) (l : List (κ × ν))
    (h : GoMap.lookupIn k l = some v) : (k, v) ∈ l := by
  induction l with
  | nil => simp [GoMap.lookupIn] at h
  | cons p rest ih =>
    obtain ⟨k1, v1⟩ := p
    simp only [GoMap.lookupIn] at h
    split at h
    · rename_i hk
      simp only [Option.some.injEq] at h
      subst hk
      subst h
      exact List.mem_cons_self _ _
    · exact List.mem_cons_of_mem _ (ih h)

/-- Assignment keeps the keys of an association list pairwise distinct. -/
theorem assignIn_keys_nodup {κ ν : Type} [DecidableEq κ] (k : κ) (v : ν) (l : List (κ × ν))
    (h : (l.map Prod.fst).Nodup) : ((GoMap.assignIn k v l).map Prod.fst).Nodup := by
  induction l with
  | nil => simp [GoMap.assignIn]
  | cons p rest ih =>
    obtain ⟨k1, v1⟩ := p
    simp only [List.map_cons, List.nodup_cons] at h
    simp only [GoMap.assignIn]
    split
    · rename_i hk
      subst hk
      simp only [List.map_cons, List.nodup_cons]
      exact h
    · rename_i hk
      simp only [List.map_cons, List.nodup_cons]
      refine ⟨?_, ih h.2⟩
      intro hmem
      obtain ⟨kv, hkv, hfst⟩ := List.mem_map.mp hmem
      rcases mem_assignIn k v rest kv hkv with e | e
      · rw [e] at hfst
        exact hk hfst.symm
      · exact h.1 (List.mem_map.mpr ⟨kv, e, hfst⟩)

/-- The keys of the batch `MultiSet` hands to the backend are pairwise distinct. -/
theorem valMap_keys_nodup (key : Nat → String) (records : List UserBasic)
    (m0 : GoMap String UserBasic) (h : (m0.entries.map Prod.fst).Nodup) :
    ((records.foldl (fun m v => m.set (key v.ID) v) m0).entries.map Prod.fst).Nodup := by
  induction records generalizing m0 with
  | nil => exact h
  | cons r rest ih =>
    rw [List.foldl_cons]
    exact ih _ (assignIn_keys_nodup _ _ _ h)

/-- Writing a batch to the in-memory entries leaves the keys outside the batch alone. -/
theorem memEntries_get?_of_not_mem (l : List (String × UserBasic)) (m : GoMap String MemEntry)
    (k : String) (h : k ∉ l.map Prod.fst) :
    (l.foldl (fun m kv => m.set kv.1 (MemEntry.value kv.2)) m).get? k = m.get? k := by
  induction l generalizing m with
  | nil => rfl
  | cons p rest ih =>
    simp only [List.map_cons, List.mem_cons, not_or] at h
    rw [List.foldl_cons, ih _ h.2, GoMap.get?_set, if_neg (fun e => h.1 e.symm)]

/-- Writing a batch with pairwise distinct keys to the in-memory entries binds every key
of the batch to its record. -/
theorem memEntries_get?_of_lookup (l : List (String × UserBasic)) (m : GoMap String MemEntry)
    (k : String) (v : UserBasic) (hnd : (l.map Prod.fst).Nodup)
    (hl : GoMap.lookupIn k l = some v) :
    (l.foldl (fun m kv => m.set kv.1 (MemEntry.value kv.2)) m).get? k
      = some (MemEntry.value v) := by
  induction l generalizing m with
  | nil => simp [GoMap.lookupIn] at hl
  | cons p rest ih =>
    obtain ⟨k1, v1⟩ := p
    simp only [List.map_cons, List.nodup_cons] at hnd
    simp only [GoMap.lookupIn] at hl
    rw [List.foldl_cons]
    split at hl
    · rename_i hk
      simp only [Option.some.injEq] at hl
      subst hk
      subst hl
      rw [memEntries_get?_of_not_mem _ _ _ hnd.1, GoMap.get?_set, if_pos rfl]
    · exact ih _ hnd.2 hl

/-- A loop over keys whose step binds `k` to `x` at the key `k` and leaves the entry of `k`
alone at every other key binds `k` to `x` when `k` is among the keys. -/
theorem foldl_get?_of_step (f : GoMap String (Ptr UserBasic) → String → GoMap String (Ptr UserBasic))
    (k : String) (x : Ptr UserBasic)
    (hf1 : ∀ m, (f m k).get? k = some x)
    (hf2 : ∀ m key, key ≠ k → (f m key).get? k = m.get? k)
    (keys : List String) (m0 : GoMap String (Ptr UserBasic))
    (h : k ∈ keys ∨ m0.get? k = some x) :
    (keys.foldl f m0).get? k = some x := by
  induction keys generalizing m0 with
  | nil =>
    rcases h with h | h
    · simp at h
    · exact h
  | cons key rest ih =>
    rw [List.foldl_cons]
    apply ih
    by_cases hk : key = k
    · subst hk
      exact Or.inr (hf1 m0)
    · rcases h with h | h
      · rcases List.mem_cons.mp h with e | e
        · exact absurd e.symm hk
        · exact Or.inl e
      · exact Or.inr (by rw [hf2 m0 key hk]; exact h)

/-- The in-memory backend, when its reads and writes work, accepts every batch, answers
the batch read of the keys of the records without error and hands back under every key
what the batch stored under it. -/
theorem memBatch_contract (data : List UserBasic) (t : Nat) (wm : World MemState)
    (hs : wm.st.setErr = none) (hg : wm.st.getErr = none) :
    (memUserBasicCache.MultiSet data t wm).1 = none ∧
    (memUserBasicCache.cache.MultiGet
      ((data.map UserBasic.ID).map memUserBasicCache.GetUserBasicCacheKey)
      (memUserBasicCache.MultiSet data t wm).2.st).1.2 = none ∧
    ∀ key v,
      (data.foldl (fun m v => m.set (memUserBasicCache.GetUserBasicCacheKey v.ID) v)
        GoMap.empty).get? key = some v →
      (memUserBasicCache.cache.MultiGet
        ((data.map UserBasic.ID).map memUserBasicCache.GetUserBasicCacheKey)
        (memUserBasicCache.MultiSet data t wm).2.st).1.1.get? key = some (some v) := by
  have hst : (memUserBasicCache.MultiSet data t wm).2.st
      = { wm.st with entries :=
            ((data.foldl
                (fun m v => m.set (memUserBasicCache.GetUserBasicCacheKey v.ID) v)
                GoMap.empty).entries.foldl
              (fun m kv => m.set kv.1 (MemEntry.value kv.2)) wm.st.entries) } := by
    rw [cacheMultiSet_st, memMultiSet_eq _ _ wm.st hs]
  have hnd := valMap_keys_nodup memUserBasicCache.GetUserBasicCacheKey data GoMap.empty
    (by simp [GoMap.empty])
  have hkeys := valMap_entries memUserBasicCache.GetUserBasicCacheKey data GoMap.empty
    (fun kv => kv.1 ∈ (data.map UserBasic.ID).map memUserBasicCache.GetUserBasicCacheKey)
    (by intro kv hkv; simp [GoMap.empty] at hkv)
    (fun r hr => List.mem_map_of_mem _ (List.mem_map_of_mem _ hr))
  refine ⟨?_, ?_, ?_⟩
  · rw [cacheMultiSet_err, memMultiSet_eq _ _ wm.st hs]
  · rw [hst]
    show (memCache.MultiGet _ _).1.2 = none
    simp only [memCache, hg]
  · intro key v hv
    rw [hst]
    show (memCache.MultiGet _ _).1.1.get? key = some (some v)
    simp only [memCache, hg]
    have he := memEntries_get?_of_lookup _ wm.st.entries key v hnd hv
    apply foldl_get?_of_step
    · intro m
      simp only [he, GoMap.get?_set, if_true]
    · intro m key2 hne
      split
      · rw [GoMap.get?_set, if_neg hne]
      · rfl
    · exact Or.inl (hkeys _ (mem_of_lookupIn key v _ hv))

/-- The map a `MultiGet` returns when the backend read succeeds with the hits `itemMap`:
it binds an id exactly when the id was requested and the backend hit its key. -/
theorem cacheMultiGet_partial (c : userBasicCache σ) (ids : List Nat) (w2 : World σ)
    (itemMap : GoMap String (Ptr UserBasic)) (s2 : σ)
    (h : c.cache.MultiGet (ids.map c.GetUserBasicCacheKey) w2.st = ((itemMap, none), s2)) :
    ∃ m, (c.MultiGet ids w2).1 = (some m, none) ∧
      (∀ k, m.get? k = if k ∈ ids then itemMap.get? (c.GetUserBasicCacheKey k) else none) ∧
      (∀ k, m.contains k = true ↔
        k ∈ ids ∧ itemMap.contains (c.GetUserBasicCacheKey k) = true) := by
  refine ⟨_, cacheMultiGet_ok c ids w2 itemMap s2 h, ?_, ?_⟩
  · intro k
    rw [multiGet_loop_get?]
    by_cases hk : k ∈ ids
    · simp only [hk, if_true, GoMap.get?_empty]
      cases itemMap.get? (c.GetUserBasicCacheKey k) <;> rfl
    · simp only [hk, if_false, GoMap.get?_empty]
  · intro k
    simp only [GoMap.contains, multiGet_loop_get?]
    by_cases hk : k ∈ ids
    · simp only [hk, if_true, GoMap.get?_empty, true_and]
      cases itemMap.get? (c.GetUserBasicCacheKey k) <;> simp
    · simp [hk, GoMap.get?_empty]

/-- The round trip of a batch through a backend that accepts it, answers the batch read
without error and hands back under every key what the batch stored under it. -/
theorem cacheMulti_roundtrip_of_backend (c : userBasicCache σ) (data : List UserBasic)
    (ttl : Nat) (w : World σ)
    (hnodup : (data.map UserBasic.ID).Nodup)
    (hread : (c.cache.MultiGet ((data.map UserBasic.ID).map c.GetUserBasicCacheKey)
        (c.MultiSet data ttl w).2.st).1.2 = none)
    (hback : ∀ key v,
        (data.foldl (fun m v => m.set (c.GetUserBasicCacheKey v.ID) v) GoMap.empty).get? key
          = some v →
        (c.cache.MultiGet ((data.map UserBasic.ID).map c.GetUserBasicCacheKey)
          (c.MultiSet data ttl w).2.st).1.1.get? key = some (some v)) :
    ∃ m, (c.MultiGet (data.map UserBasic.ID) (c.MultiSet data ttl w).2).1 = (some m, none) ∧
      ∀ r ∈ data, m.get? r.ID = some (some r) := by
  obtain ⟨m, hm, hget, _⟩ := cacheMultiGet_partial c (data.map UserBasic.ID)
    (c.MultiSet data ttl w).2
    (c.cache.MultiGet ((data.map UserBasic.ID).map c.GetUserBasicCacheKey)
      (c.MultiSet data ttl w).2.st).1.1
    (c.cache.MultiGet ((data.map UserBasic.ID).map c.GetUserBasicCacheKey)
      (c.MultiSet data ttl w).2.st).2
    (Prod.ext (Prod.ext rfl hread) rfl)
  refine ⟨m, hm, ?_⟩
  intro r hr
  rw [hget, if_pos (List.mem_map_of_mem UserBasic.ID hr)]
  exact hback _ r (valMap_get?_of_mem c data _ hnodup r hr)

/-- C21: batch cache round trip. For records with pairwise distinct ids, when `MultiSet`
succeeds and the backend then answers the batch read of their keys without error and hands
back under every key what the batch stored under it, `MultiGet` over the ids of the records
right after the `MultiSet` returns a map that sends the id of every record to that record.
The in-memory backend is such a backend whenever its reads and writes work, so there the
round trip holds for every batch of records with pairwise distinct ids. In general, when
the backend read succeeds with the hits `itemMap`, the map `MultiGet` returns binds an id
exactly when the id was requested and the backend hit its key: it sends a requested id to
the hit under its key and binds nothing else. -/
theorem cache_multiset_multiget_roundtrip (c : userBasicCache σ) (data : List UserBasic)
    (ttl : Nat) (w : World σ)
    (hnodup : (data.map UserBasic.ID).Nodup)
    (hset : (c.MultiSet data ttl w).1 = none)
    (hback :
      (c.cache.MultiSet
        (data.foldl (fun m v => m.set (c.GetUserBasicCacheKey v.ID) v) GoMap.empty) ttl w.st).1
        = none →
      (c.cache.MultiGet ((data.map UserBasic.ID).map c.GetUserBasicCacheKey)
        (c.MultiSet data ttl w).2.st).1.2 = none ∧
      ∀ key v,
        (data.foldl (fun m v => m.set (c.GetUserBasicCacheKey v.ID) v) GoMap.empty).get? key
          = some v →
        (c.cache.MultiGet ((data.map UserBasic.ID).map c.GetUserBasicCacheKey)
          (c.MultiSet data ttl w).2.st).1.1.get? key = some (some v)) :
    (∃ m, (c.MultiGet (data.map UserBasic.ID) (c.MultiSet data ttl w).2).1 = (some m, none) ∧
      ∀ r ∈ data, m.get? r.ID = some (some r)) ∧
    (∀ (ids : List Nat) (w2 : World σ) (itemMap : GoMap String (Ptr UserBasic)) (s2 : σ),
      c.cache.MultiGet (ids.map c.GetUserBasicCacheKey) w2.st = ((itemMap, none), s2) →
      ∃ m, (c.MultiGet ids w2).1 = (some m, none) ∧
        (∀ k, m.get? k = if k ∈ ids then itemMap.get? (c.GetUserBasicCacheKey k) else none) ∧
        (∀ k, m.contains k = true ↔
          k ∈ ids ∧ itemMap.contains (c.GetUserBasicCacheKey k) = true)) ∧
    (∀ (batch : List UserBasic) (t : Nat) (wm : World MemState),
      wm.st.setErr = none → wm.st.getErr = none → (batch.map UserBasic.ID).Nodup →
      (memUserBasicCache.MultiSet batch t wm).1 = none ∧
      ∃ m, (memUserBasicCache.MultiGet (batch.map UserBasic.ID)
          (memUserBasicCache.MultiSet batch t wm).2).1 = (some m, none) ∧
        ∀ r ∈ batch, m.get? r.ID = some (some r)) := by
  have hb := hback (by rw [← cacheMultiSet_err]; exact hset)
  refine ⟨cacheMulti_roundtrip_of_backend c data ttl w hnodup hb.1 hb.2,
    cacheMultiGet_partial c, ?_⟩
  intro batch t wm hs hg hnd
  have hc := memBatch_contract batch t wm hs hg
  exact ⟨hc.1, cacheMulti_roundtrip_of_backend memUserBasicCache batch t wm hnd hc.2.1 hc.2.2⟩

/-- C21 at a concrete input: rows 1 and 2 are written in one batch to the empty in-memory
backend and read back in one batch. -/
theorem cache_multiset_multiget_roundtrip_witness :
    ([mkUser 1 "ann", mkUser 2 "bob"].map UserBasic.ID).Nodup ∧
    (memUserBasicCache.MultiSet [mkUser 1 "ann", mkUser 2 "bob"] UserBasicExpireTime
      worldEmpty).1 = none ∧
    (memUserBasicCache.MultiGet [1, 2]
      (memUserBasicCache.MultiSet [mkUser 1 "ann", mkUser 2 "bob"] UserBasicExpireTime
        worldEmpty).2).1
      = (some ⟨[(1, some (mkUser 1 "ann")), (2, some (mkUser 2 "bob"))]⟩, none) ∧
    (∃ m, (memUserBasicCache.MultiGet
        ([mkUser 1 "ann", mkUser 2 "bob"].map UserBasic.ID)
        (memUserBasicCache.MultiSet [mkUser 1 "ann", mkUser 2 "bob"] UserBasicExpireTime
          worldEmpty).2).1 = (some m, none) ∧
      ∀ r ∈ [mkUser 1 "ann", mkUser 2 "bob"], m.get? r.ID = some (some r)) :=
  ⟨by decide, by decide, by decide,
   (cache_multiset_multiget_roundtrip memUserBasicCache [mkUser 1 "ann", mkUser 2 "bob"]
      UserBasicExpireTime worldEmpty (by decide) (by decide)
      (fun _ => (memBatch_contract [mkUser 1 "ann", mkUser 2 "bob"] UserBasicExpireTime
        worldEmpty (by decide) (by decide)).2)).1⟩

/-- C22: `Set` called with nil data, or with id 0, returns no error and leaves the world as
it is: the backend state is unchanged and no call to the backing cache is made, for every
duration. -/
theorem cache_set_nil_or_zero_id (c : userBasicCache σ) (id : Nat) (data : Ptr UserBasic)
    (duration : Nat) (w : World σ) :
    c.Set id none duration w = (none, w) ∧ c.Set 0 data duration w = (none, w) := by
  constructor
  · simp only [userBasicCache.Set]
  · cases data <;> simp [userBasicCache.Set]

/-- C22 at a concrete input: `Set` with id 0 and nil data on the warm in-memory cache, and
`Set` with id 0 and a record. -/
theorem cache_set_nil_or_zero_id_witness :
    memUserBasicCache.Set 0 none 3600000000000 worldWarm = (none, worldWarm) ∧
    memUserBasicCache.Set 0 (some (mkUser 0 "ann")) 3600000000000 worldWarm
      = (none, worldWarm) :=
  ⟨(cache_set_nil_or_zero_id memUserBasicCache 0 none 3600000000000 worldWarm).1,
   (cache_set_nil_or_zero_id memUserBasicCache 0 (some (mkUser 0 "ann")) 3600000000000
      worldWarm).2⟩

/-- C23: a record is retrievable under id 0. `MultiSet` has no guard on the id: a record
whose id is 0 is handed to the backing cache under the key of id 0. On the in-memory
backend `Get` with id 0 right after such a `MultiSet` returns the record with a nil error,
whereas after a `Set` with id 0 it reports that nothing is cached. -/
theorem cache_multiset_zero_id_retrievable :
    (∀ (c : userBasicCache σ) (r : UserBasic) (t : Nat) (w : World σ),
      (c.MultiSet [{ r with ID := 0 }] t w).2.log
        = w.log ++ [Call.cacheMultiSet ⟨[(c.GetUserBasicCacheKey 0, { r with ID := 0 })]⟩ t]) ∧
    memUserBasicCache.GetUserBasicCacheKey 0 = "userBasic:0" ∧
    (memUserBasicCache.MultiSet [mkUser 0 "ann"] UserBasicExpireTime worldEmpty).1 = none ∧
    (memUserBasicCache.Get 0
      (memUserBasicCache.MultiSet [mkUser 0 "ann"] UserBasicExpireTime worldEmpty).2).1
      = (some (mkUser 0 "ann"), none) ∧
    (memUserBasicCache.Get 0
      (memUserBasicCache.Set 0 (some (mkUser 0 "ann")) UserBasicExpireTime worldEmpty).2).1
      = (none, some GoError.ErrCacheNotFound) := by
  refine ⟨?_, by decide, by decide, by decide, by decide⟩
  intro c r t w
  rw [cacheMultiSet_log]
  rfl

/-- C24: each of the four constructors returns a cache exactly when the lower-cased `CType`
is "redis" or "memory", over the shared backend in the first case and over the in-process
backend in the second; for every other `CType` it returns nil. The empty string is such a
`CType`, as lower-casing leaves it empty. -/
theorem NewCache_backend_selection {β ρ : Type} (ToLower : String → String)
    (redis : ρ → String → Cache σ) (memory : String → Cache σ)
    (redisB : ρ → String → β) (memoryB : String → β) (cacheType : CacheType ρ) :
    ((NewUserBasicCache ToLower redis memory cacheType).isSome = true ↔
      ToLower cacheType.CType = "redis" ∨ ToLower cacheType.CType = "memory") ∧
    ((NewUserRepositoryCache ToLower redisB memoryB cacheType).isSome = true ↔
      ToLower cacheType.CType = "redis" ∨ ToLower cacheType.CType = "memory") ∧
    ((NewRepositoryPoolCache ToLower redisB memoryB cacheType).isSome = true ↔
      ToLower cacheType.CType = "redis" ∨ ToLower cacheType.CType = "memory") ∧
    ((NewShareBasicCache ToLower redisB memoryB cacheType).isSome = true ↔
      ToLower cacheType.CType = "redis" ∨ ToLower cacheType.CType = "memory") ∧
    (ToLower cacheType.CType = "redis" →
      (NewUserBasicCache ToLower redis memory cacheType).map (fun x => x.cache)
        = some (redis cacheType.Rdb "")) ∧
    (ToLower cacheType.CType = "memory" →
      (NewUserBasicCache ToLower redis memory cacheType).map (fun x => x.cache)
        = some (memory "")) ∧
    (ToLower "" = "" → ∀ rdb : ρ,
      (NewUserBasicCache ToLower redis memory { CType := "", Rdb := rdb }).isNone = true ∧
      (NewUserRepositoryCache ToLower redisB memoryB { CType := "", Rdb := rdb }).isNone = true ∧
      (NewRepositoryPoolCache ToLower redisB memoryB { CType := "", Rdb := rdb }).isNone = true ∧
      (NewShareBasicCache ToLower redisB memoryB { CType := "", Rdb := rdb }).isNone = true) := by
  refine ⟨?_, ?_, ?_, ?_, ?_, ?_, ?_⟩
  · simp only [NewUserBasicCache]
    by_cases h1 : ToLower cacheType.CType = "redis"
    · simp [h1]
    · by_cases h2 : ToLower cacheType.CType = "memory" <;> simp [h1, h2]
  · simp only [NewUserRepositoryCache]
    by_cases h1 : ToLower cacheType.CType = "redis"
    · simp [h1]
    · by_cases h2 : ToLower cacheType.CType = "memory" <;> simp [h1, h2]
  · simp only [NewRepositoryPoolCache]
    by_cases h1 : ToLower cacheType.CType = "redis"
    · simp [h1]
    · by_cases h2 : ToLower cacheType.CType = "memory" <;> simp [h1, h2]
  · simp only [NewShareBasicCache]
    by_cases h1 : ToLower cacheType.CType = "redis"
    · simp [h1]
    · by_cases h2 : ToLower cacheType.CType = "memory" <;> simp [h1, h2]
  · intro h1
    simp [NewUserBasicCache, h1]
  · intro h2
    have h1 : ¬ ToLower cacheType.CType = "redis" := by rw [h2]; decide
    simp [NewUserBasicCache, h1, h2]
  · intro h0 rdb
    simp [NewUserBasicCache, NewUserRepositoryCache, NewRepositoryPoolCache,
      NewShareBasicCache, h0]

/-- C24 at concrete inputs, with the ASCII lower-casing: "Redis" and "MEMORY" select a
backend, the empty string and "memcached" select none. -/
theorem NewCache_backend_selection_witness :
    asciiToLower "Redis" = "redis" ∧ asciiToLower "MEMORY" = "memory" ∧
    asciiToLower "" = "" ∧
    (NewUserBasicCache asciiToLower (fun (_ : Unit) (_ : String) => memCache)
      (fun _ => memCache) { CType := "Redis", Rdb := () }).isSome = true ∧
    (NewShareBasicCache asciiToLower (fun (_ : Unit) (_ : String) => memCache)
      (fun _ => memCache) { CType := "MEMORY", Rdb := () }).isSome = true ∧
    (NewUserBasicCache asciiToLower (fun (_ : Unit) (_ : String) => memCache)
      (fun _ => memCache) { CType := "", Rdb := () }).isNone = true ∧
    (NewUserBasicCache asciiToLower (fun (_ : Unit) (_ : String) => memCache)
      (fun _ => memCache) { CType := "memcached", Rdb := () }).isSome = false :=
  ⟨by decide, by decide, by decide,
   (NewCache_backend_selection asciiToLower (fun (_ : Unit) (_ : String) => memCache)
      (fun _ => memCache) (fun (_ : Unit) (_ : String) => memCache) (fun _ => memCache)
      { CType := "Redis", Rdb := () }).1.mpr (Or.inl (by decide)),
   (NewCache_backend_selection asciiToLower (fun (_ : Unit) (_ : String) => memCache)
      (fun _ => memCache) (fun (_ : Unit) (_ : String) => memCache) (fun _ => memCache)
      { CType := "MEMORY", Rdb := () }).2.2.2.1.mpr (Or.inr (by decide)),
   ((NewCache_backend_selection asciiToLower (fun (_ : Unit) (_ : String) => memCache)
      (fun _ => memCache) (fun (_ : Unit) (_ : String) => memCache) (fun _ => memCache)
      { CType := "", Rdb := () }).2.2.2.2.2.2 (by decide) ()).1,
   by decide⟩

end CacheContract

section NoCache

variable {σ : Type}

/-- Without a cache the loop of `DeleteByIDs` that deletes the cache entries does nothing. -/
theorem deleteCaches_no_cache (db : GormDB σ) (ids : List Nat) (w : World σ) :
    (NewUserBasicDao db none).deleteCaches ids w = w := by
  induction ids generalizing w with
  | nil => rfl
  | cons id rest ih =>
    simp only [userBasicDao.deleteCaches]
    rw [ih]
    rfl

/-- Without a cache `updateDataByID` makes at most one call, a storage update. -/
theorem updateDataByID_storage_only (d : userBasicDao σ) (db : GormDB σ) (table : UserBasic)
    (w : World σ) :
    ∀ call ∈ (d.updateDataByID db table w).2.log.drop w.log.length, call.isStorage = true := by
  rcases updateDataByID_log d db table w with h | ⟨update, h⟩
  · rw [h]
    simp
  · rw [h, List.drop_left]
    simp [Call.isStorage]

/-- C25: the data-access object built with a nil cache. `GetByID` makes the one storage
read and returns what storage produced: the record the read filled in, never nil, with the
error of the read; when storage fails and leaves the fresh record untouched, that is the
zero-valued record with the storage error. `deleteCache` returns nil and does nothing.
`GetByIDs` makes the one storage query and returns its error with a nil map, or the map of
the returned records by id. Every call any of the twelve operations makes is a storage
call, and a storage call is neither a call to the cache nor to the coalescer. -/
theorem no_cache_path (db tx : GormDB σ) (q : query.Translator) (w : World σ) :
    (∀ id, (NewUserBasicDao db none).GetByID id w
      = ((some (db.First id w.st).1.1, (db.First id w.st).1.2),
         { st := (db.First id w.st).2, log := w.log ++ [Call.dbFirst id] })) ∧
    (∀ id, (db.First id w.st).1.2 ≠ none → (db.First id w.st).1.1 = UserBasic.zero →
      ((NewUserBasicDao db none).GetByID id w).1
        = (some UserBasic.zero, (db.First id w.st).1.2)) ∧
    (∀ id, (NewUserBasicDao db none).deleteCache id w = (none, w)) ∧
    (∀ ids, (NewUserBasicDao db none).GetByIDs ids w
      = ((match (db.Find ids w.st).1.2 with
          | some err => (none, some err)
          | none => (some (userBasicDao.mergeRecords GoMap.empty (db.Find ids w.st).1.1), none)),
         { st := (db.Find ids w.st).2, log := w.log ++ [Call.dbFind ids] })) ∧
    (∀ call : Call, call.isStorage = true →
      call.isCache = false ∧ ∀ key, call ≠ Call.sfgDo key) ∧
    (∀ table, ∀ call ∈ ((NewUserBasicDao db none).Create table w).2.log.drop w.log.length,
      call.isStorage = true) ∧
    (∀ id, ∀ call ∈ ((NewUserBasicDao db none).DeleteByID id w).2.log.drop w.log.length,
      call.isStorage = true) ∧
    (∀ table, ∀ call ∈ ((NewUserBasicDao db none).UpdateByID table w).2.log.drop w.log.length,
      call.isStorage = true) ∧
    (∀ id, ∀ call ∈ ((NewUserBasicDao db none).GetByID id w).2.log.drop w.log.length,
      call.isStorage = true) ∧
    (∀ params, ∀ call ∈
      ((NewUserBasicDao db none).GetByColumns q params w).2.log.drop w.log.length,
      call.isStorage = true) ∧
    (∀ ids, ∀ call ∈ ((NewUserBasicDao db none).DeleteByIDs ids w).2.log.drop w.log.length,
      call.isStorage = true) ∧
    (∀ c, ∀ call ∈ ((NewUserBasicDao db none).GetByCondition q c w).2.log.drop w.log.length,
      call.isStorage = true) ∧
    (∀ ids, ∀ call ∈ ((NewUserBasicDao db none).GetByIDs ids w).2.log.drop w.log.length,
      call.isStorage = true) ∧
    (∀ lastID limit sort, ∀ call ∈
      ((NewUserBasicDao db none).GetByLastID q lastID limit sort w).2.log.drop w.log.length,
      call.isStorage = true) ∧
    (∀ table, ∀ call ∈
      ((NewUserBasicDao db none).CreateByTx tx table w).2.log.drop w.log.length,
      call.isStorage = true) ∧
    (∀ id now, ∀ call ∈
      ((NewUserBasicDao db none).DeleteByTx tx id now w).2.log.drop w.log.length,
      call.isStorage = true) ∧
    (∀ table, ∀ call ∈
      ((NewUserBasicDao db none).UpdateByTx tx table w).2.log.drop w.log.length,
      call.isStorage = true) := by
  have hget : ∀ id, (NewUserBasicDao db none).GetByID id w
      = ((some (db.First id w.st).1.1, (db.First id w.st).1.2),
         { st := (db.First id w.st).2, log := w.log ++ [Call.dbFirst id] }) := by
    intro id
    simp only [NewUserBasicDao, userBasicDao.GetByID, World.call]
  have hgets : ∀ ids, (NewUserBasicDao db none).GetByIDs ids w
      = ((match (db.Find ids w.st).1.2 with
          | some err => (none, some err)
          | none => (some (userBasicDao.mergeRecords GoMap.empty (db.Find ids w.st).1.1), none)),
         { st := (db.Find ids w.st).2, log := w.log ++ [Call.dbFind ids] }) := by
    intro ids
    simp only [NewUserBasicDao, userBasicDao.GetByIDs, World.call]
    split <;> simp_all
  refine ⟨hget, ?_, ?_, hgets, ?_, ?_, ?_, ?_, ?_, ?_, ?_, ?_, ?_, ?_, ?_, ?_, ?_⟩
  · intro id _ hz
    rw [hget, hz]
  · intro id
    simp only [NewUserBasicDao, userBasicDao.deleteCache]
  · intro call h
    cases call <;> simp_all [Call.isStorage, Call.isCache]
  · intro table
    simp [NewUserBasicDao, userBasicDao.Create, World.call, Call.isStorage]
  · intro id
    simp only [NewUserBasicDao, userBasicDao.DeleteByID, userBasicDao.deleteCache, World.call]
    split <;> simp [Call.isStorage]
  · intro table
    simp only [NewUserBasicDao, userBasicDao.UpdateByID, userBasicDao.deleteCache]
    exact updateDataByID_storage_only _ db table w
  · intro id
    rw [hget]
    simp [Call.isStorage]
  · intro params
    simp only [NewUserBasicDao, userBasicDao.GetByColumns, userBasicDao.fetchPage, World.call]
    split
    · simp
    · split
      · split
        · simp [Call.isStorage]
        · split
          · simp [Call.isStorage]
          · split <;> simp [Call.isStorage]
      · split <;> simp [Call.isStorage]
  · intro ids
    simp only [userBasicDao.DeleteByIDs, World.call, deleteCaches_no_cache]
    split <;> simp [NewUserBasicDao, Call.isStorage]
  · intro c
    simp only [NewUserBasicDao, userBasicDao.GetByCondition, World.call]
    split
    · simp
    · split <;> simp [Call.isStorage]
  · intro ids
    rw [hgets]
    simp [Call.isStorage]
  · intro lastID limit sort
    simp only [NewUserBasicDao, userBasicDao.GetByLastID, World.call]
    split
    · simp
    · split <;> simp [Call.isStorage]
  · intro table
    simp [NewUserBasicDao, userBasicDao.CreateByTx, World.call, Call.isStorage]
  · intro id now
    simp only [NewUserBasicDao, userBasicDao.DeleteByTx, userBasicDao.deleteCache, World.call]
    split <;> simp [Call.isStorage]
  · intro table
    simp only [NewUserBasicDao, userBasicDao.UpdateByTx, userBasicDao.deleteCache]
    exact updateDataByID_storage_only _ tx table w

/-- C25 at concrete inputs, on the in-memory table without a cache: row 2 is read, id 9 is
not stored, and the table is down. -/
theorem no_cache_path_witness :
    (memDaoNoCache.GetByID 2 worldThree).1 = (some (mkUser 2 "bob"), none) ∧
    (memDaoNoCache.GetByID 2 worldThree).2.log = [Call.dbFirst 2] ∧
    (memDaoNoCache.GetByID 9 worldThree).1
      = (some UserBasic.zero, some GoError.ErrRecordNotFound) ∧
    (memDaoNoCache.GetByID 1 worldDbDown).1
      = (some UserBasic.zero, some (GoError.other "db down")) :=
  ⟨by decide, by decide,
   (no_cache_path memDB memDB refQuery worldThree).2.1 9 (by decide) (by decide),
   (no_cache_path memDB memDB refQuery worldDbDown).2.1 1 (by decide) (by decide)⟩

end NoCache

section Queries

variable {σ : Type}

/-- C26: `GetByColumns` once the filter has been translated to the predicate `queryStr`
with arguments `args`. Unless the sort parameter is "ignore count" the first call is the
count query. In skip-count mode the only call is the page fetch and the returned total is
0. When the count query runs and finds nothing, the result is (nil, 0, nil) and the page
fetch is not issued; when it fails, its error is returned and the page fetch is not issued.
When it counts `total` rows, `total` not 0, the page fetch follows, and when that succeeds
the result is the fetched page with `total`. -/
theorem GetByColumns_count_and_page (d : userBasicDao σ) (q : query.Translator)
    (params : query.Params) (w : World σ) (queryStr : String) (args : List GoValue)
    (hcv : q.ConvertToGormConditions params UserBasicColumnNames = ((queryStr, args), none)) :
    (params.sort ≠ "ignore count" →
      ((d.GetByColumns q params w).2.log.drop w.log.length).head?
        = some (Call.dbCount queryStr args)) ∧
    (params.sort = "ignore count" →
      (d.GetByColumns q params w).2.log
        = w.log ++ [Call.dbFindPage (q.ConvertToPage params).1 (q.ConvertToPage params).2.1
            (q.ConvertToPage params).2.2 queryStr args] ∧
      (d.GetByColumns q params w).1.2.1 = 0 ∧
      ((d.db.FindPage (q.ConvertToPage params).1 (q.ConvertToPage params).2.1
          (q.ConvertToPage params).2.2 queryStr args w.st).1.2 = none →
        (d.GetByColumns q params w).1
          = (some (d.db.FindPage (q.ConvertToPage params).1 (q.ConvertToPage params).2.1
              (q.ConvertToPage params).2.2 queryStr args w.st).1.1, 0, none))) ∧
    (params.sort ≠ "ignore count" → (d.db.Count queryStr args w.st).1 = (0, none) →
      (d.GetByColumns q params w).1 = (none, 0, none) ∧
      (d.GetByColumns q params w).2.log = w.log ++ [Call.dbCount queryStr args]) ∧
    (params.sort ≠ "ignore count" → ∀ err, (d.db.Count queryStr args w.st).1.2 = some err →
      (d.GetByColumns q params w).1 = (none, 0, some err) ∧
      (d.GetByColumns q params w).2.log = w.log ++ [Call.dbCount queryStr args]) ∧
    (params.sort ≠ "ignore count" → ∀ total, total ≠ 0 →
      (d.db.Count queryStr args w.st).1 = (total, none) →
      (d.GetByColumns q params w).2.log
        = w.log ++ [Call.dbCount queryStr args,
            Call.dbFindPage (q.ConvertToPage params).1 (q.ConvertToPage params).2.1
              (q.ConvertToPage params).2.2 queryStr args] ∧
      ((d.db.FindPage (q.ConvertToPage params).1 (q.ConvertToPage params).2.1
          (q.ConvertToPage params).2.2 queryStr args (d.db.Count queryStr args w.st).2).1.2
          = none →
        (d.GetByColumns q params w).1
          = (some (d.db.FindPage (q.ConvertToPage params).1 (q.ConvertToPage params).2.1
              (q.ConvertToPage params).2.2 queryStr args
              (d.db.Count queryStr args w.st).2).1.1, total, none))) := by
  have h1 : (q.ConvertToGormConditions params UserBasicColumnNames).2 = none := by rw [hcv]
  have h2 : (q.ConvertToGormConditions params UserBasicColumnNames).1.1 = queryStr := by
    rw [hcv]
  have h3 : (q.ConvertToGormConditions params UserBasicColumnNames).1.2 = args := by rw [hcv]
  refine ⟨?_, ?_, ?_, ?_, ?_⟩
  · intro hs
    simp only [userBasicDao.GetByColumns, userBasicDao.fetchPage, World.call, h1, h2, h3, hs,
      ne_eq, not_false_eq_true, if_true]
    split
    · simp
    · split
      · simp
      · split <;> simp
  · intro hs
    simp only [userBasicDao.GetByColumns, userBasicDao.fetchPage, World.call, h1, h2, h3, hs,
      ne_eq, not_true_eq_false, if_false]
    refine ⟨?_, ?_, ?_⟩
    · split <;> rfl
    · split <;> rfl
    · intro hf
      simp only [hf]
  · intro hs hc
    have hc1 : (d.db.Count queryStr args w.st).1.2 = none := by rw [hc]
    have hc2 : (d.db.Count queryStr args w.st).1.1 = 0 := by rw [hc]
    simp only [userBasicDao.GetByColumns, World.call, h1, h2, h3, hs, ne_eq,
      not_false_eq_true, if_true, hc1, hc2, and_self]
  · intro hs err hc
    simp only [userBasicDao.GetByColumns, World.call, h1, h2, h3, hs, ne_eq,
      not_false_eq_true, if_true, hc, and_self]
  · intro hs total ht hc
    have hc1 : (d.db.Count queryStr args w.st).1.2 = none := by rw [hc]
    have hc2 : (d.db.Count queryStr args w.st).1.1 = total := by rw [hc]
    simp only [userBasicDao.GetByColumns, userBasicDao.fetchPage, World.call, h1, h2, h3, hs,
      ne_eq, not_false_eq_true, if_true, hc1, hc2, ht, if_false]
    refine ⟨?_, ?_⟩
    · split <;> simp
    · intro hf
      simp only [hf]

/-- C26 at concrete inputs, on the in-memory table with rows 1, 2 and 3: a page of two
rows by name with the counted total 3; skip-count mode, where the only call is the page
fetch and the total is 0, behind a query layer that accepts every order clause and on the
in-memory table itself, which rejects the order clause built from "ignore count"; and the
empty table, where the count finds nothing and no page is fetched. -/
theorem GetByColumns_count_and_page_witness :
    (memDao.GetByColumns refQuery { Page := 0, Limit := 2, sort := "name", Columns := [] }
      worldThree)
      = ((some [mkUser 1 "ann", mkUser 2 "bob"], 3, none),
         { worldThree with
           log := [Call.dbCount "" [], Call.dbFindPage "name ASC" 2 0 "" []] }) ∧
    ((NewUserBasicDao memDBLenient (some memUserBasicCache)).GetByColumns refQuery
      { Page := 0, Limit := 10, sort := "ignore count", Columns := [] } worldThree)
      = ((some [mkUser 1 "ann", mkUser 2 "bob", mkUser 3 "cy"], 0, none),
         { worldThree with log := [Call.dbFindPage "ignorecount ASC" 10 0 "" []] }) ∧
    (memDao.GetByColumns refQuery
      { Page := 0, Limit := 10, sort := "ignore count", Columns := [] } worldThree)
      = ((none, 0, some (GoError.other "Unknown column in order clause: ignorecount ASC")),
         { worldThree with log := [Call.dbFindPage "ignorecount ASC" 10 0 "" []] }) ∧
    (memDao.GetByColumns refQuery { Page := 0, Limit := 2, sort := "", Columns := [] }
      worldEmpty).1 = (none, 0, none) ∧
    (memDao.GetByColumns refQuery { Page := 0, Limit := 2, sort := "", Columns := [] }
      worldEmpty).2.log = worldEmpty.log ++ [Call.dbCount "" []] :=
  ⟨by decide, by decide, by decide,
   ((GetByColumns_count_and_page memDao refQuery
      { Page := 0, Limit := 2, sort := "", Columns := [] } worldEmpty "" [] (by decide)).2.2.1
      (by decide) (by decide)).1,
   ((GetByColumns_count_and_page memDao refQuery
      { Page := 0, Limit := 2, sort := "", Columns := [] } worldEmpty "" [] (by decide)).2.2.1
      (by decide) (by decide)).2⟩

/-- C27, the claim as stated fails: `GetByLastID` with the sort column "unknown-column",
which is no column of the whitelist, is not rejected before storage. Whatever page the
translator builds for it, the storage query is issued with the order clause of that page;
with the reference translator the order clause is built from the unknown column, and the
error that comes back is the error of the storage query. -/
theorem GetByLastID_unknown_sort_counterexample :
    UserBasicColumnNames.contains "unknown-column" = false ∧
    (∀ (q : query.Translator) (page : query.Page),
      q.NewPage 0 10 "unknown-column" = some page →
      (memDao.GetByLastID q 3 10 "unknown-column" worldThree).2.log
        = [Call.dbFindLastID page.sort page.Limit 3]) ∧
    refQuery.NewPage 0 10 "unknown-column"
      = some { sort := "unknown-column ASC", Limit := 10 } ∧
    (memDao.GetByLastID refQuery 3 10 "unknown-column" worldThree).2.log
      = [Call.dbFindLastID "unknown-column ASC" 10 3] ∧
    (memDao.GetByLastID refQuery 3 10 "unknown-column" worldThree).1
      = some (none, some (GoError.other "Unknown column in order clause: unknown-column ASC")) ∧
    (memDB.FindLastID "unknown-column ASC" 10 3 worldThree.st).1.2
      = some (GoError.other "Unknown column in order clause: unknown-column ASC") := by
  refine ⟨by decide, ?_, by decide, by decide, by decide, by decide⟩
  intro q page hq
  simp only [userBasicDao.GetByLastID, World.call, hq]
  split <;> simp [worldThree, memWorld]

/-- An order clause the in-memory table understands rearranges the rows it is given. -/
theorem memOrder_mem (order : String) (sort : List UserBasic → List UserBasic)
    (h : memOrder order = some sort) (l : List UserBasic) (x : UserBasic) (hx : x ∈ sort l) :
    x ∈ l := by
  unfold memOrder at h
  split at h
  · simp only [Option.some.injEq] at h
    subst h
    exact hx
  · obtain ⟨cl, _, hcl⟩ := List.exists_of_findSome?_eq_some h
    split at hcl
    · simp only [Option.some.injEq] at hcl
      subst hcl
      exact (List.mem_insertionSort _).mp hx
    · split at hcl
      · simp only [Option.some.injEq] at hcl
        subst hcl
        exact (List.mem_insertionSort _).mp hx
      · simp at hcl

/-- The in-memory table honours the predicate of a query: every row of an answer is a
visible row that the predicate selects. -/
theorem memSelect_mem (order : String) (limit offset : Int) (p : UserBasic → Bool)
    (s : MemState) (x : UserBasic) (hx : x ∈ (memSelect order limit offset (some p) s).1) :
    p x = true ∧ x.DeletedAt = none ∧ x ∈ s.rows := by
  unfold memSelect at hx
  cases hd : s.dbErr with
  | some e => simp [hd] at hx
  | none =>
    simp only [hd] at hx
    cases ho : memOrder order with
    | none => simp [ho] at hx
    | some sort =>
      simp only [ho] at hx
      have h1 := memOrder_mem order sort ho _ x
        (List.mem_of_mem_drop (List.mem_of_mem_take hx))
      obtain ⟨hrow, hp⟩ := List.mem_filter.mp h1
      simp only [Bool.and_eq_true, Option.isNone_iff_eq_none] at hp
      exact ⟨hp.1, hp.2, hrow⟩

/-- The orders of a list of column names fail exactly when a name is empty. -/
theorem refSortNames_eq_none (l : List (List Char)) : refSortNames l = none ↔ [] ∈ l := by
  induction l with
  | nil => simp [refSortNames]
  | cons name rest ih =>
    cases name with
    | nil => simp [refSortNames, refSortName]
    | cons c cs =>
      have h1 : ∃ s, refSortName (c :: cs) = some s := by
        simp only [refSortName]
        split
        · exact ⟨_, rfl⟩
        · exact ⟨_, rfl⟩
      obtain ⟨s, hs⟩ := h1
      cases hr : refSortNames rest with
      | none =>
        have : [] ∈ rest := ih.mp hr
        simp [refSortNames, hs, hr, this]
      | some ss =>
        have : ¬ [] ∈ rest := fun h => by rw [ih.mpr h] at hr; cases hr
        simp [refSortNames, hs, hr, this]

/-- C27, amended: `GetByLastID` does not validate the sort column. When `query.NewPage`
panics on the sort string, `GetByLastID` panics with it before any call. When it returns a
page, whether the sort string names a known column or not, `GetByLastID` makes exactly one
call, the storage query ordered by the sort expression of the page, limited by the limit
of the page, with the predicate `id < lastID`. When storage rejects the query its error is
returned with nil records; when storage answers, exactly the records of the answer are
returned, and these are records whose id is strictly less than `lastID` when storage
honours the predicate, as the in-memory table does in every state. The reference
translator has no page exactly for the sort strings that, blanks taken out, are not empty
and have an empty column name between commas. -/
theorem GetByLastID_passes_sort_to_storage (d : userBasicDao σ) (q : query.Translator)
    (lastID : Nat) (limit : Int) (sort : String) (w : World σ) :
    (q.NewPage 0 limit sort = none → d.GetByLastID q lastID limit sort w = (none, w)) ∧
    (∀ page, q.NewPage 0 limit sort = some page →
      (d.GetByLastID q lastID limit sort w).2.log
        = w.log ++ [Call.dbFindLastID page.sort page.Limit lastID] ∧
      (∀ err, (d.db.FindLastID page.sort page.Limit lastID w.st).1.2 = some err →
        (d.GetByLastID q lastID limit sort w).1 = some (none, some err)) ∧
      (∀ records, (d.db.FindLastID page.sort page.Limit lastID w.st).1 = (records, none) →
        (d.GetByLastID q lastID limit sort w).1 = some (some records, none)) ∧
      ((∀ r ∈ (d.db.FindLastID page.sort page.Limit lastID w.st).1.1, r.ID < lastID) →
        ∀ records err, (d.GetByLastID q lastID limit sort w).1 = some (some records, err) →
          ∀ r ∈ records, r.ID < lastID)) ∧
    (∀ (wm : World MemState) (records : List UserBasic) (err : Option GoError),
      (memDao.GetByLastID q lastID limit sort wm).1 = some (some records, err) →
      ∀ r ∈ records, r.ID < lastID ∧ r ∈ wm.st.rows) ∧
    (refQuery.NewPage 0 limit sort = none ↔
      sort.data.filter (fun c => c ≠ ' ') ≠ [] ∧
        [] ∈ splitComma (sort.data.filter (fun c => c ≠ ' '))) := by
  refine ⟨?_, ?_, ?_, ?_⟩
  · intro h
    simp only [userBasicDao.GetByLastID, h]
  · intro page hq
    refine ⟨?_, ?_, ?_, ?_⟩
    · simp only [userBasicDao.GetByLastID, World.call, hq]
      split <;> rfl
    · intro err h
      simp only [userBasicDao.GetByLastID, World.call, hq, h]
    · intro records h
      have h1 := congrArg Prod.fst h
      have h2 := congrArg Prod.snd h
      simp only at h1 h2
      simp only [userBasicDao.GetByLastID, World.call, hq, h2, h1]
    · intro hlt records err hrec r hr
      simp only [userBasicDao.GetByLastID, World.call, hq] at hrec
      split at hrec
      · simp at hrec
      · simp only [Option.some.injEq, Prod.mk.injEq] at hrec
        obtain ⟨hrec, _⟩ := hrec
        subst hrec
        exact hlt r hr
  · intro wm records err hrec r hr
    simp only [userBasicDao.GetByLastID, World.call] at hrec
    split at hrec
    · simp at hrec
    · split at hrec
      · simp at hrec
      · simp only [Option.some.injEq, Prod.mk.injEq] at hrec
        obtain ⟨hrec, _⟩ := hrec
        subst hrec
        have hm := memSelect_mem _ _ _ _ wm.st r hr
        exact ⟨of_decide_eq_true hm.1, hm.2.2⟩
  · have key : ∀ cs : List Char,
        ((if cs = [] then some "id DESC" else (refSortNames (splitComma cs)).map joinSort)
            = none ↔ cs ≠ [] ∧ [] ∈ splitComma cs) := by
      intro cs
      by_cases hcs : cs = []
      · simp [hcs]
      · simp only [hcs, if_false, Option.map_eq_none', refSortNames_eq_none, ne_eq,
          not_false_eq_true, true_and]
    show ((refSort sort).map _).map Prod.snd = none ↔ _
    rw [Option.map_eq_none', Option.map_eq_none']
    exact key _

/-- C27, amended, at concrete inputs: the rows with an id below 3 in the default order of
the reference translator; a sort string with two columns and a limit that is clamped; and
the sort string ",", on which the page panics and no call is made. -/
theorem GetByLastID_passes_sort_to_storage_witness :
    refQuery.NewPage 0 10 "" = some { sort := "id DESC", Limit := 10 } ∧
    (memDao.GetByLastID refQuery 3 10 "" worldThree).1
      = some (some [mkUser 2 "bob", mkUser 1 "ann"], none) ∧
    (memDao.GetByLastID refQuery 3 10 "" worldThree).2.log
      = worldThree.log ++ [Call.dbFindLastID "id DESC" 10 3] ∧
    refQuery.NewPage 0 0 "-name, id" = some { sort := "name DESC, id ASC", Limit := 1000 } ∧
    refQuery.NewPage 0 10 "," = none ∧
    memDao.GetByLastID refQuery 3 10 "," worldThree = (none, worldThree) :=
  ⟨by decide, by decide,
   ((GetByLastID_passes_sort_to_storage memDao refQuery 3 10 "" worldThree).2.1
      { sort := "id DESC", Limit := 10 } (by decide)).1,
   by decide, by decide,
   (GetByLastID_passes_sort_to_storage memDao refQuery 3 10 "," worldThree).1 (by decide)⟩

end Queries

section StorageFailure

variable {σ : Type}

/-- C28: `GetByIDs` propagates a storage failure. On the cached path, when the batch read
succeeds with the hit map `hit`, the probes leave the real misses `real`, not empty, and
the storage query over `real` fails with `err`, the result is the nil map with `err`, also
when `hit` holds records; the calls are the batch read, the probes of the missed ids and
the storage query, and none of them writes a record or a placeholder to the cache. -/
theorem GetByIDs_storage_failure (db : GormDB σ) (c : userBasicCache σ) (ids : List Nat)
    (w : World σ) (hit : GoMap Nat (Ptr UserBasic)) (real : List Nat) (w2 : World σ)
    (err : GoError)
    (hmg : (c.MultiGet ids w).1 = (some hit, none))
    (hp : userBasicDao.realMissedIDs c (userBasicDao.missedIDs hit ids) (c.MultiGet ids w).2
      = (real, w2))
    (hreal : real ≠ [])
    (hfind : (db.Find real w2.st).1.2 = some err) :
    ((NewUserBasicDao db (some c)).GetByIDs ids w).1 = (none, some err) ∧
    ((NewUserBasicDao db (some c)).GetByIDs ids w).2.log
      = w.log ++ [Call.cacheMultiGet (ids.map c.GetUserBasicCacheKey)]
        ++ (userBasicDao.missedIDs hit ids).map
            (fun id => Call.cacheGet (c.GetUserBasicCacheKey id))
        ++ [Call.dbFind real] ∧
    (((NewUserBasicDao db (some c)).GetByIDs ids w).2.log.drop w.log.length).filter
      Call.isCacheWrite = [] ∧
    ((NewUserBasicDao db (some c)).GetByIDs ids w).2.st = (db.Find real w2.st).2 := by
  have hp1 : (userBasicDao.realMissedIDs c (userBasicDao.missedIDs hit ids)
      (c.MultiGet ids w).2).1 = real := by rw [hp]
  have hp2 : (userBasicDao.realMissedIDs c (userBasicDao.missedIDs hit ids)
      (c.MultiGet ids w).2).2 = w2 := by rw [hp]
  have hlog : w2.log = w.log ++ [Call.cacheMultiGet (ids.map c.GetUserBasicCacheKey)]
      ++ (userBasicDao.missedIDs hit ids).map
          (fun id => Call.cacheGet (c.GetUserBasicCacheKey id)) := by
    rw [← hp2, realMissedIDs_log, cacheMultiGet_log]
  rw [GetByIDs_find_error db c ids w hit err hmg (by rw [hp1]; exact hreal)
    (by rw [hp1, hp2]; exact hfind), hp1, hp2]
  refine ⟨rfl, ?_, ?_, rfl⟩
  · simp only [World.call, hlog]
  · simp only [World.call, hlog, List.append_assoc, List.drop_left, List.filter_append,
      filter_isCacheWrite_probes]
    simp [Call.isCacheWrite]

/-- C28 at a concrete input: ids 1 and 3 are requested, row 1 is cached and the table is
down; the hit on row 1 is not returned and the cache is left as it was. -/
theorem GetByIDs_storage_failure_witness :
    (memUserBasicCache.MultiGet [1, 3] worldDbDown).1
      = (some ⟨[(1, some (mkUser 1 "ann"))]⟩, none) ∧
    (memDao.GetByIDs [1, 3] worldDbDown).1 = (none, some (GoError.other "db down")) ∧
    (memDao.GetByIDs [1, 3] worldDbDown).2.log
      = [Call.cacheMultiGet ["userBasic:1", "userBasic:3"], Call.cacheGet "userBasic:3",
         Call.dbFind [3]] ∧
    (memDao.GetByIDs [1, 3] worldDbDown).2.st.entries = worldDbDown.st.entries :=
  have h := GetByIDs_storage_failure memDB memUserBasicCache [1, 3] worldDbDown
    ⟨[(1, some (mkUser 1 "ann"))]⟩ [3]
    (userBasicDao.realMissedIDs memUserBasicCache [3]
      (memUserBasicCache.MultiGet [1, 3] worldDbDown).2).2
    (GoError.other "db down") (by decide) (Prod.ext (by decide) rfl) (by decide) (by decide)
  ⟨by decide, h.1, by decide, by decide⟩

end StorageFailure

section EarlyReturn

variable {σ : Type}

/-- The placeholder loop does nothing when every id of the list has a returned record. -/
theorem setPlaceholders_all_present (c : userBasicCache σ) (m : GoMap Nat Unit) (l : List Nat)
    (w : World σ) (h : ∀ id ∈ l, m.contains id = true) :
    userBasicDao.setPlaceholders c m l w = w := by
  induction l generalizing w with
  | nil => rfl
  | cons id rest ih =>
    have h0 : m.contains id = true := h id (List.mem_cons_self _ _)
    simp only [userBasicDao.setPlaceholders, h0, if_true]
    exact ih w (fun j hj => h j (List.mem_cons_of_mem _ hj))

/-- C29: the early return of `GetByIDs` preserves behaviour. Let the batch read succeed
with the hit map `hit`, let the probes leave the real misses `real`, and let the storage
query over `real` answer with `records`, pairwise distinct ids drawn from `real`. Whenever
`records` and `real` have the same length, every real-missed id has a returned record, the
real misses are pairwise distinct (a list with a repeated id is longer than any such
answer), and the placeholder loop leaves every world as it is. Hence `GetByIDs` and the
program without the early return give the same result map, the same error and the same
world, calls and cache writes included. -/
theorem GetByIDs_early_return_preserving (db : GormDB σ) (c : userBasicCache σ)
    (ids : List Nat) (w : World σ) (hit : GoMap Nat (Ptr UserBasic)) (real : List Nat)
    (w2 : World σ) (records : List UserBasic)
    (hmg : (c.MultiGet ids w).1 = (some hit, none))
    (hp : userBasicDao.realMissedIDs c (userBasicDao.missedIDs hit ids) (c.MultiGet ids w).2
      = (real, w2))
    (hfind : (db.Find real w2.st).1 = (records, none))
    (hnodup : (records.map UserBasic.ID).Nodup)
    (hsub : ∀ r ∈ records, r.ID ∈ real) :
    (records.length = real.length →
      (∀ id ∈ real, id ∈ records.map UserBasic.ID) ∧ real.Nodup ∧
      ∀ x : World σ, userBasicDao.setPlaceholders c (userBasicDao.recordIDs records) real x = x) ∧
    (NewUserBasicDao db (some c)).GetByIDs ids w
      = (NewUserBasicDao db (some c)).GetByIDsWithoutEarlyReturn ids w := by
  have hloop : records.length = real.length →
      ∀ x : World σ,
        userBasicDao.setPlaceholders c (userBasicDao.recordIDs records) real x = x := by
    intro hlen x
    apply setPlaceholders_all_present
    intro id hid
    rw [recordIDs_contains]
    exact decide_eq_true (all_returned_of_length_eq real records hnodup hsub hlen id hid)
  refine ⟨?_, ?_⟩
  · intro hlen
    refine ⟨all_returned_of_length_eq real records hnodup hsub hlen, ?_, hloop hlen⟩
    have hss : records.map UserBasic.ID ⊆ real := by
      intro k hk
      obtain ⟨r, hr, rfl⟩ := List.mem_map.mp hk
      exact hsub r hr
    have hperm : (records.map UserBasic.ID).Perm real :=
      (List.subperm_of_subset hnodup hss).perm_of_length_le (by simp [hlen])
    exact hperm.nodup_iff.mp hnodup
  · have h2 : (c.MultiGet ids w).1.2 = none := by rw [hmg]
    have h1 : (c.MultiGet ids w).1.1 = some hit := by rw [hmg]
    have hf1 : (db.Find real w2.st).1.1 = records := by rw [hfind]
    have hf2 : (db.Find real w2.st).1.2 = none := by rw [hfind]
    simp only [NewUserBasicDao, userBasicDao.GetByIDs, userBasicDao.GetByIDsWithoutEarlyReturn,
      h2, h1, Option.getD_some, hp, World.call, hf1, hf2]
    by_cases hlen : records.length = real.length
    · simp only [hlen, if_true, hloop hlen]
    · simp only [hlen, if_false]

/-- C29 at concrete inputs: ids 1 and 2 miss the cold cache and storage returns both rows,
so the early return is taken; ids 3 and 3 miss and storage returns the one row. -/
theorem GetByIDs_early_return_preserving_witness :
    (memDB.Find [1, 2] worldThree.st).1 = ([mkUser 1 "ann", mkUser 2 "bob"], none) ∧
    memDao.GetByIDs [1, 2] worldThree = memDao.GetByIDsWithoutEarlyReturn [1, 2] worldThree ∧
    (memDao.GetByIDs [1, 2] worldThree).2.log.filter Call.isCacheWrite
      = [Call.cacheMultiSet
          ⟨[("userBasic:1", mkUser 1 "ann"), ("userBasic:2", mkUser 2 "bob")]⟩
          UserBasicExpireTime] ∧
    memDao.GetByIDs [3, 3] worldCold = memDao.GetByIDsWithoutEarlyReturn [3, 3] worldCold ∧
    (memDao.GetByIDs [3, 3] worldCold).1 = (some ⟨[(3, some (mkUser 3 "cy"))]⟩, none) :=
  ⟨by decide,
   (GetByIDs_early_return_preserving memDB memUserBasicCache [1, 2] worldThree GoMap.empty
      [1, 2]
      (userBasicDao.realMissedIDs memUserBasicCache [1, 2]
        (memUserBasicCache.MultiGet [1, 2] worldThree).2).2
      [mkUser 1 "ann", mkUser 2 "bob"] (by decide) (Prod.ext (by decide) rfl) (by decide)
      (by decide) (by decide)).2,
   by decide,
   (GetByIDs_early_return_preserving memDB memUserBasicCache [3, 3] worldCold GoMap.empty
      [3, 3]
      (userBasicDao.realMissedIDs memUserBasicCache [3, 3]
        (memUserBasicCache.MultiGet [3, 3] worldCold).2).2
      [mkUser 3 "cy"] (by decide) (Prod.ext (by decide) rfl) (by decide)
      (by decide) (by decide)).2,
   by decide⟩

end EarlyReturn

section TypeAssertion

variable {σ : Type}

/-- The coalesced fetch of `GetByID` hands back a record whenever it hands back no error. -/
theorem fetchByID_value (d : userBasicDao σ) (c : userBasicCache σ) (id : Nat) (w : World σ)
    (h : (sfgDo (Uint64ToStr id) (d.fetchByID c id) w).1.2 = none) :
    ∃ table, (sfgDo (Uint64ToStr id) (d.fetchByID c id) w).1.1 = some table := by
  simp only [sfgDo, userBasicDao.fetchByID, World.call] at h ⊢
  split at h
  · split at h <;> simp at h
  · rename_i hnone
    simp only [hnone]
    exact ⟨_, rfl⟩

/-- On the cached path `GetByID` returns a nil record with a nil error only when the cache
read answered so. -/
theorem GetByID_nil_nil (db : GormDB σ) (c : userBasicCache σ) (id : Nat) (w : World σ)
    (h : ((NewUserBasicDao db (some c)).GetByID id w).1 = (none, none)) :
    (c.Get id w).1 = (none, none) := by
  simp only [NewUserBasicDao, userBasicDao.GetByID] at h
  split at h
  · rename_i hg
    simp only [Prod.mk.injEq, and_true] at h
    exact Prod.ext h hg
  · split at h
    · split at h
      · simp at h
      · rename_i hf
        obtain ⟨table, ht⟩ := fetchByID_value _ c id _ hf
        simp [ht] at h
    · split at h <;> simp at h

/-- With a backend whose `Get` has filled in a record whenever it reports no error,
`GetByID` on the cached path does not return a nil record with a nil error. -/
theorem GetByID_not_nil_nil (db : GormDB σ) (c : userBasicCache σ) (id : Nat) (w : World σ)
    (hback : (c.cache.Get (c.GetUserBasicCacheKey id) w.st).1.2 = none →
      (c.cache.Get (c.GetUserBasicCacheKey id) w.st).1.1 ≠ none) :
    ((NewUserBasicDao db (some c)).GetByID id w).1 ≠ (none, none) := by
  intro h
  have hg := GetByID_nil_nil db c id w h
  simp only [userBasicCache.Get, World.call] at hg
  split at hg
  · simp at hg
  · rename_i herr
    simp only [Prod.mk.injEq, and_true] at hg
    exact hback herr hg

/-- The in-memory backend has filled in a record whenever its `Get` reports no error. -/
theorem memCache_get_value (key : String) (s : MemState)
    (h : (memCache.Get key s).1.2 = none) : (memCache.Get key s).1.1 ≠ none := by
  simp only [memCache] at h ⊢
  cases hg : s.getErr with
  | some e => simp [hg] at h
  | none =>
    simp only [hg] at h ⊢
    cases he : s.entries.get? key with
    | none => simp [he] at h
    | some ent =>
      cases ent with
      | placeholder => simp [he] at h
      | value v => simp [he]

/-- C30: on the cached path of `GetByID` the branch of the failed type assertion is never
taken: whenever the coalesced fetch returns a nil error its value is a record. `GetByID`
never returns a record together with an error. It returns a nil record with a nil error
only when the cache read itself answered so; with a backend whose `Get` has filled in a
record whenever it reports no error, `GetByID` never returns a nil record with a nil
error. The in-memory backend is such a backend in every state: there the record `GetByID`
returns is nil exactly when the error is not. -/
theorem GetByID_assertion_branch_unreachable (db : GormDB σ) (c : userBasicCache σ) (id : Nat)
    (w : World σ) :
    (∀ w2 : World σ,
      (sfgDo (Uint64ToStr id) ((NewUserBasicDao db (some c)).fetchByID c id) w2).1.2 = none →
      ∃ table,
        (sfgDo (Uint64ToStr id) ((NewUserBasicDao db (some c)).fetchByID c id) w2).1.1
          = some table) ∧
    (∀ record err, ((NewUserBasicDao db (some c)).GetByID id w).1 ≠ (some record, some err)) ∧
    (((NewUserBasicDao db (some c)).GetByID id w).1 = (none, none) →
      (c.Get id w).1 = (none, none)) ∧
    (((c.cache.Get (c.GetUserBasicCacheKey id) w.st).1.2 = none →
        (c.cache.Get (c.GetUserBasicCacheKey id) w.st).1.1 ≠ none) →
      ((NewUserBasicDao db (some c)).GetByID id w).1 ≠ (none, none)) ∧
    (∀ (wm : World MemState) (record : Ptr UserBasic) (err : Option GoError),
      (memDao.GetByID id wm).1 = (record, err) → (record = none ↔ err ≠ none)) := by
  refine ⟨fun w2 h => fetchByID_value _ c id w2 h, ?_, GetByID_nil_nil db c id w,
    GetByID_not_nil_nil db c id w, ?_⟩
  · intro record err h
    simp only [NewUserBasicDao, userBasicDao.GetByID] at h
    split at h
    · simp at h
    · split at h
      · split at h
        · simp at h
        · split at h <;> simp at h
      · split at h <;> simp at h
  · intro wm record err h
    have h1 : (memDao.GetByID id wm).1 ≠ (none, none) :=
      GetByID_not_nil_nil memDB memUserBasicCache id wm (memCache_get_value _ _)
    have h2 : ∀ r e, (memDao.GetByID id wm).1 ≠ (some r, some e) := by
      intro r e h
      simp only [memDao, NewUserBasicDao, userBasicDao.GetByID] at h
      split at h
      · simp at h
      · split at h
        · split at h
          · simp at h
          · split at h <;> simp at h
        · split at h <;> simp at h
    rw [h] at h1
    cases record with
    | none =>
      cases err with
      | none => exact absurd rfl h1
      | some e => simp
    | some r =>
      cases err with
      | none => simp
      | some e => exact absurd h (h2 r e)

/-- C30 at concrete inputs on the in-memory backend: a miss on a stored row, a miss on an
absent row, a hit, and a placeholder hit. -/
theorem GetByID_assertion_branch_unreachable_witness :
    (memDao.GetByID 3 worldCold).1 = (some (mkUser 3 "cy"), none) ∧
    (memDao.GetByID 9 worldCold).1 = (none, some GoError.ErrRecordNotFound) ∧
    (memDao.GetByID 1 worldABC).1 = (some (mkUser 1 "ann"), none) ∧
    (memDao.GetByID 2 worldABC).1 = (none, some GoError.ErrRecordNotFound) ∧
    (memDao.GetByID 3 worldCold).1 ≠ (none, none) ∧
    (memDao.GetByID 1 worldABC).1 ≠ (none, none) :=
  ⟨by decide, by decide, by decide, by decide,
   (GetByID_assertion_branch_unreachable memDB memUserBasicCache 3 worldCold).2.2.2.1
      (fun h => absurd h (by decide)),
   (GetByID_assertion_branch_unreachable memDB memUserBasicCache 1 worldABC).2.2.2.1
      (fun _ => by decide)⟩

end TypeAssertion

end CloudStorage
